import Mathlib

/-!
Verification development for the tsmark CommonMark-to-HTML converter.

The TypeScript sources are shallowly embedded: JavaScript strings are
modelled as `List Char` (one entry per code point; the sources are
exercised here on BMP text where code units and code points coincide),
mutable state is threaded explicitly, and every `while`/`for` loop is
translated to a fuel-indexed structural recursion whose fuel is chosen
at the call site to dominate the loop's iteration count.  Each JavaScript
regular expression is translated to a bespoke scanner that follows the
regex's backtracking behaviour on the shapes of input it can meet.
-/

set_option maxRecDepth 20000

namespace Tsmark

/-- Strings of the embedded program: JavaScript strings as char lists. -/
abbrev Str := List Char

/-- JavaScript whitespace class `\s` (also the set used by `trim`). -/
def isSpaceJS (c : Char) : Bool :=
  c = ' ' ∨ c = '\t' ∨ c = '\n' ∨ c.toNat = 11 ∨ c.toNat = 12 ∨ c = '\r' ∨
  c.toNat = 160 ∨ c.toNat = 0x1680 ∨ (0x2000 ≤ c.toNat ∧ c.toNat ≤ 0x200A) ∨
  c.toNat = 0x2028 ∨ c.toNat = 0x2029 ∨ c.toNat = 0x202F ∨
  c.toNat = 0x205F ∨ c.toNat = 0x3000 ∨ c.toNat = 0xFEFF

/-- Decimal digit test (regex `\d` / `[0-9]`). -/
def isDigitJS (c : Char) : Bool := '0' ≤ c ∧ c ≤ '9'

/-- Regex `[0-9a-f]` under the `i` flag. -/
def isHexDigitJS (c : Char) : Bool :=
  isDigitJS c ∨ ('a' ≤ c ∧ c ≤ 'f') ∨ ('A' ≤ c ∧ c ≤ 'F')

/-- Regex `[A-Za-z]`. -/
def isLetterJS (c : Char) : Bool :=
  ('A' ≤ c ∧ c ≤ 'Z') ∨ ('a' ≤ c ∧ c ≤ 'z')

/-- Regex `[A-Za-z0-9]`. -/
def isAlnumJS (c : Char) : Bool := isLetterJS c ∨ isDigitJS c

/-- ASCII punctuation, the class listed in the backslash-escape regexes
of `utils.ts` (`unescapeMd`) and `inline.ts`. -/
def isAsciiPunct (c : Char) : Bool :=
  (33 ≤ c.toNat ∧ c.toNat ≤ 47) ∨ (58 ≤ c.toNat ∧ c.toNat ≤ 64) ∨
  (91 ≤ c.toNat ∧ c.toNat ≤ 96) ∨ (123 ≤ c.toNat ∧ c.toNat ≤ 126)

/-- JavaScript `String.prototype.trimStart`. -/
def trimStartJS (s : Str) : Str := s.dropWhile isSpaceJS

/-- JavaScript `String.prototype.trimEnd`. -/
def trimEndJS (s : Str) : Str := (s.reverse.dropWhile isSpaceJS).reverse

/-- JavaScript `String.prototype.trim`. -/
def trimJS (s : Str) : Str := trimEndJS (trimStartJS s)

/-- Test `s.trim() === ''`. -/
def isBlank (s : Str) : Bool := trimJS s = []

/-- JavaScript `split('\n')`. -/
def splitNL : Str → List Str
  | [] => [[]]
  | c :: cs =>
    let r := splitNL cs
    if c = '\n' then [] :: r
    else
      match r with
      | h :: t => (c :: h) :: t
      | [] => [[c]]

/-- JavaScript `Array.prototype.join('\n')`. -/
def joinNL (ls : List Str) : Str := (ls.intersperse ['\n']).flatten

/-- JavaScript `Array.prototype.join('')` for strings. -/
def joinAll (ls : List Str) : Str := ls.flatten

/-- The `md.replace(/\r\n?/g, '\n')` newline normalization. -/
def normalizeNL : Str → Str
  | [] => []
  | '\r' :: '\n' :: rest => '\n' :: normalizeNL rest
  | '\r' :: rest => '\n' :: normalizeNL rest
  | c :: rest => c :: normalizeNL rest

/-- Decimal rendering of a natural number, as JavaScript string
interpolation of a nonnegative integer produces. -/
def natToStr (n : Nat) : Str := (Nat.repr n).data

/-- Value of a list of decimal digit chars (JavaScript `parseInt(d, 10)`
on an all-digit string). -/
def parseDecimal (d : Str) : Nat :=
  d.foldl (fun acc c => acc * 10 + (c.toNat - 48)) 0

/-- Hex digit value. -/
def hexVal (c : Char) : Nat :=
  if isDigitJS c then c.toNat - 48
  else if 'a' ≤ c ∧ c ≤ 'f' then c.toNat - 87
  else c.toNat - 55

/-- Value of a list of hex digit chars (JavaScript `parseInt(d, 16)`). -/
def parseHex (d : Str) : Nat :=
  d.foldl (fun acc c => acc * 16 + hexVal c) 0

/-! ## utils.ts -/

/-- The lazy-continuation marker `LAZY = '\u0001'` from `utils.ts`. -/
def LAZY : Char := Char.ofNat 1

/-- Embeds `stripLazy` from `utils.ts`. -/
def stripLazy (line : Str) : Str :=
  match line with
  | c :: rest => if c = LAZY then rest else line
  | [] => []

/-- Column-counting loop shared by `indentWidth`/`indentWidthFrom`:
spaces count 1, a tab advances to the next multiple of 4. -/
def indentCols : Str → Nat → Nat
  | [], col => col
  | c :: rest, col =>
    if c = ' ' then indentCols rest (col + 1)
    else if c = '\t' then indentCols rest (col + (4 - col % 4))
    else col

/-- Embeds `indentWidth` from `utils.ts`. -/
def indentWidth (line : Str) : Nat := indentCols (stripLazy line) 0

/-- Embeds `indentWidthFrom` from `utils.ts` (returns `col - start`). -/
def indentWidthFrom (line : Str) (start : Nat) : Nat :=
  indentCols (stripLazy line) start - start

/-- The indentation-expansion loop of `stripColumns`/`stripColumnsFrom`:
returns the expanded indent (tabs widened to spaces) and the rest. -/
def expandIndent : Str → Nat → Str × Str
  | [], _ => ([], [])
  | c :: rest, col =>
    if c = ' ' then
      let (ind, r) := expandIndent rest (col + 1)
      (' ' :: ind, r)
    else if c = '\t' then
      let w := 4 - col % 4
      let (ind, r) := expandIndent rest (col + w)
      (List.replicate w ' ' ++ ind, r)
    else ([], c :: rest)

/-- Embeds `stripColumnsFrom` from `utils.ts`. -/
def stripColumnsFrom (line : Str) (count : Nat) (start : Nat) : Str :=
  let (indent, rest) := expandIndent (stripLazy line) start
  if count ≥ indent.length then rest
  else indent.drop count ++ rest

/-- Embeds `stripColumns` from `utils.ts` (`stripColumnsFrom` at column 0;
the source duplicates the body). -/
def stripColumns (line : Str) (count : Nat) : Str :=
  stripColumnsFrom line count 0

/-- Embeds `stripIndent` from `utils.ts`. -/
def stripIndent (line : Str) : Str := stripColumns line 4

/-- Embeds `escapeHTML` from `utils.ts`.  The four sequential global
replaces of `&`, `<`, `>`, `"` compose to this single char-wise map,
because the replacement texts introduce no `<`, `>`, `"` and the
ampersands they introduce appear only after the `&` pass. -/
def escapeHTML (text : Str) : Str :=
  text.flatMap fun c =>
    if c = '&' then ('&':: 'a':: 'm':: 'p':: ';'::[])
    else if c = '<' then ('&':: 'l':: 't':: ';'::[])
    else if c = '>' then ('&':: 'g':: 't':: ';'::[])
    else if c = '"' then ('&':: 'q':: 'u':: 'o':: 't':: ';'::[])
    else [c]

/-- Character-level model of JavaScript `toLowerCase` on the subset of
characters the converter meets: ASCII `A`-`Z`, Latin-1 `À`-`Þ` (except
`×`), and capital sharp s `ẞ` (U+1E9E) which lowercases to `ß`.
Other characters are left unchanged. -/
def toLowerJS (c : Char) : Char :=
  if 'A' ≤ c ∧ c ≤ 'Z' then Char.ofNat (c.toNat + 32)
  else if 0xC0 ≤ c.toNat ∧ c.toNat ≤ 0xDE ∧ c.toNat ≠ 0xD7 then
    Char.ofNat (c.toNat + 32)
  else if c.toNat = 0x1E9E then Char.ofNat 0xDF
  else c

/-- Embeds `caseFold` from `utils.ts`: `toLowerCase` then the global
replace of `ß` (U+00DF) by `ss`. -/
def caseFold (str : Str) : Str :=
  (str.map toLowerJS).flatMap fun c =>
    if c.toNat = 0xDF then ['s', 's'] else [c]

/-- Scanner of the global replace `\s+` → single space; the flag records
whether the scan is inside a whitespace run already emitted. -/
def collapseWSGo : Bool → Str → Str
  | _, [] => []
  | inRun, c :: rest =>
    if isSpaceJS c then
      if inRun then collapseWSGo true rest
      else ' ' :: collapseWSGo true rest
    else c :: collapseWSGo false rest

/-- The global replace `\s+` → single space of `normalizeLabel`. -/
def collapseWS (s : Str) : Str := collapseWSGo false s

/-- Embeds `normalizeLabel` from `utils.ts`. -/
def normalizeLabel (text : Str) : Str :=
  trimJS (collapseWS (caseFold text))

/-- The scanning loop of `isValidLabel` from `utils.ts`, with the
`depth`/`hasNonSpace` state made explicit.  Mirrors the source's `i++`
skip after a backslash. -/
def isValidLabelLoop : Str → Nat → Bool → Bool
  | [], depth, hasNonSpace => depth = 0 ∧ hasNonSpace
  -- the source does `i++` after a backslash, skipping the next char
  | ['\\'], depth, hasNonSpace => depth = 0 ∧ hasNonSpace
  | '\\' :: _ :: rest, depth, hasNonSpace =>
    isValidLabelLoop rest depth hasNonSpace
  | '[' :: rest, depth, hasNonSpace =>
    isValidLabelLoop rest (depth + 1) hasNonSpace
  | ']' :: rest, depth, hasNonSpace =>
    if depth = 0 then false else isValidLabelLoop rest (depth - 1) hasNonSpace
  | c :: rest, depth, hasNonSpace =>
    isValidLabelLoop rest depth (hasNonSpace ∨ ¬ isBlank [c])

/-- Embeds `isValidLabel` from `utils.ts`. -/
def isValidLabel (text : Str) : Bool := isValidLabelLoop text 0 false

/-- Embeds `unescapeMd` from `utils.ts`: global replace of a backslash
followed by an ASCII punctuation char with that char. -/
def unescapeMd : Str → Str
  | [] => []
  | '\\' :: c :: rest =>
    if isAsciiPunct c then c :: unescapeMd rest
    else '\\' :: unescapeMd (c :: rest)
  | c :: rest => c :: unescapeMd rest

/-- Embeds the `namedEntities` table of `utils.ts`. -/
def namedEntities (body : Str) : Option Str :=
  if body = ('q':: 'u':: 'o':: 't'::[]) then some ['"']
  else if body = ('a':: 'm':: 'p'::[]) then some ['&']
  else if body = ('l':: 't'::[]) then some ['<']
  else if body = ('g':: 't'::[]) then some ['>']
  else if body = ('n':: 'b':: 's':: 'p'::[]) then some [Char.ofNat 0xA0]
  else if body = ('c':: 'o':: 'p':: 'y'::[]) then some [Char.ofNat 0xA9]
  else if body = ('A':: 'E':: 'l':: 'i':: 'g'::[]) then some [Char.ofNat 0xC6]
  else if body = ('D':: 'c':: 'a':: 'r':: 'o':: 'n'::[]) then some [Char.ofNat 0x10E]
  else if body = ('f':: 'r':: 'a':: 'c':: '3':: '4'::[]) then some [Char.ofNat 0xBE]
  else if body = ('H':: 'i':: 'l':: 'b':: 'e':: 'r':: 't':: 'S':: 'p':: 'a':: 'c':: 'e'::[])
    then some [Char.ofNat 0x210B]
  else if body = ('D':: 'i':: 'f':: 'f':: 'e':: 'r':: 'e':: 'n':: 't':: 'i':: 'a':: 'l':: 'D'::[])
    then some [Char.ofNat 0x2146]
  else if body =
    ('C':: 'l':: 'o':: 'c':: 'k':: 'w':: 'i':: 's':: 'e':: 'C':: 'o':: 'n':: 't':: 'o':: 'u':: 'r':: 'I':: 'n':: 't':: 'e':: 'g':: 'r':: 'a':: 'l'::[])
    then some [Char.ofNat 0x2232]
  else if body = ('n':: 'g':: 'E'::[]) then some [Char.ofNat 0x2267, Char.ofNat 0x338]
  else if body = ('a':: 'u':: 'm':: 'l'::[]) then some [Char.ofNat 0xE4]
  else if body = ('o':: 'u':: 'm':: 'l'::[]) then some [Char.ofNat 0xF6]
  else none

/-- The optional `x?` consumption of the entity pattern (the greedy
`x?` takes a leading `x` or `X` when present): returns the consumed
part and the remainder. -/
def entXPart : Str → Str × Str
  | 'x' :: r2 => (['x'], r2)
  | 'X' :: r2 => (['X'], r2)
  | rest => (([] : Str), rest)

/-- Match attempt of the entity regex `&(#x?[0-9a-f]+|[A-Za-z][A-Za-z0-9]*);`
(with the `i` flag) at a position whose `&` has just been consumed.
Returns the captured body and the remaining input after the `;`. -/
def entityBodyMatch (s : Str) : Option (Str × Str) :=
  match s with
  | '#' :: rest =>
    let (xPart, afterX) := entXPart rest
    let digits := afterX.takeWhile isHexDigitJS
    let after := afterX.drop digits.length
    -- `x?` backtracks to empty if no hex digit follows the x, but the
    -- digit run would then have to start with that same non-hex `x`
    if digits.isEmpty then
      -- retry with empty `x?`: digits must start at `rest`
      let digits2 := rest.takeWhile isHexDigitJS
      let after2 := rest.drop digits2.length
      if digits2.isEmpty then none
      else match after2 with
        | ';' :: tail => some ('#' :: digits2, tail)
        | _ => none
    else
      match after with
      | ';' :: tail => some ('#' :: xPart ++ digits, tail)
      | _ =>
        -- backtrack: drop the `x?` and read the digits from `rest`
        let digits2 := rest.takeWhile isHexDigitJS
        let after2 := rest.drop digits2.length
        if digits2.isEmpty then none
        else match after2 with
          | ';' :: tail => some ('#' :: digits2, tail)
          | _ => none
  | c :: rest =>
    if isLetterJS c then
      let more := rest.takeWhile isAlnumJS
      let after := rest.drop more.length
      match after with
      | ';' :: tail => some (c :: more, tail)
      | _ => none
    else none
  | [] => none

/-- The replacement callback of `decodeEntities` from `utils.ts`,
given the captured body.  Returns the replacement string. -/
def decodeEntityBody (body : Str) : Str :=
  let lower := body.map toLowerJS
  if lower.take 2 = ('#':: 'x'::[]) then
    let digits := body.drop 2
    if digits.length = 0 ∨ digits.length > 6 then '&' :: body ++ [';']
    else
      let cp := parseHex digits
      if cp = 0 ∨ cp > 0x10FFFF ∨ (0xD800 ≤ cp ∧ cp ≤ 0xDFFF) then
        [Char.ofNat 0xFFFD]
      else [Char.ofNat cp]
  else if lower.take 1 = ['#'] then
    let digits := body.drop 1
    if digits.length = 0 ∨ digits.length > 7 ∨ digits.any (fun c => ¬ isDigitJS c)
    then '&' :: body ++ [';']
    else
      let cp := parseDecimal digits
      if cp = 0 ∨ cp > 0x10FFFF ∨ (0xD800 ≤ cp ∧ cp ≤ 0xDFFF) then
        [Char.ofNat 0xFFFD]
      else [Char.ofNat cp]
  else
    match namedEntities body with
    | some repl => repl
    | none => '&' :: body ++ [';']

/-- Fuel-indexed scanning loop of the global replace in `decodeEntities`. -/
def decodeEntitiesGo : Nat → Str → Str
  | 0, s => s
  | _ + 1, [] => []
  | fuel + 1, '&' :: rest =>
    match entityBodyMatch rest with
    | some (body, tail) => decodeEntityBody body ++ decodeEntitiesGo fuel tail
    | none => '&' :: decodeEntitiesGo fuel rest
  | fuel + 1, c :: rest => c :: decodeEntitiesGo fuel rest

/-- Embeds `decodeEntities` from `utils.ts`. -/
def decodeEntities (text : Str) : Str :=
  decodeEntitiesGo (text.length + 1) text

/-! ## Line-pattern scanners

Each definition below translates one anchored regular expression used by
the block layer.  A pattern of the form `^ {0,3}X`, where `X` cannot
begin with a space, matches exactly when the run of leading spaces has
length at most 3 and `X` matches right after it. -/

/-- Consume `^ {0,3}` before a pattern that cannot start with a space:
returns the remainder, or `none` when more than 3 leading spaces. -/
def dropUpTo3Spaces (s : Str) : Option Str :=
  let run := s.takeWhile (fun c => c = ' ')
  if run.length ≤ 3 then some (s.drop run.length) else none

/-- Consume `^\s{0,3}` (JavaScript whitespace class) before a pattern
that cannot start with whitespace. -/
def dropUpTo3WS (s : Str) : Option Str :=
  let run := s.takeWhile isSpaceJS
  if run.length ≤ 3 then some (s.drop run.length) else none

/-- Test `^ {0,3}(C\s*){3,}$` for a fixed char `C`, the shape of the
three alternatives of `parseThematicBreak`: after at most 3 spaces the
rest consists of `C`s and whitespace only, starts with `C`, and has at
least three `C`s. -/
def thematicRunTest (ch : Char) (s : Str) : Bool :=
  match dropUpTo3Spaces s with
  | none => false
  | some t =>
    (match t with | c :: _ => c == ch | [] => false) &&
    t.all (fun c => c == ch || isSpaceJS c) &&
    decide (3 ≤ t.countP (fun c => c == ch))

/-- Test `^ {0,3}(?:\*\s*){3,}$ | ^ {0,3}(?:-\s*){3,}$ | ^ {0,3}(?:_\s*){3,}$`,
the thematic-break test repeated in `canStartDef`, `parseList` and
`parseParagraph`. -/
def looksThematic (s : Str) : Bool :=
  thematicRunTest '*' s ∨ thematicRunTest '-' s ∨ thematicRunTest '_' s

/-- Test `^ {0,3}(?:\*|_|-){3,}\s*$` (mixed-char form used in the lazy
continuation checks of `parseBlockquote` and `parseList`): at most 3
spaces, then at least three chars drawn freely from `*`, `_`, `-`, then
only whitespace. -/
def mixedThematicTest (s : Str) : Bool :=
  match dropUpTo3Spaces s with
  | none => false
  | some t =>
    let run := t.takeWhile (fun c => c = '*' ∨ c = '_' ∨ c = '-')
    decide (3 ≤ run.length) && (t.drop run.length).all isSpaceJS

/-- Test `^ {0,3}#{1,6}\s` (ATX form inside `canStartDef`). -/
def atxSpaceTest (s : Str) : Bool :=
  match dropUpTo3Spaces s with
  | none => false
  | some t =>
    let run := t.takeWhile (fun c => c = '#')
    decide (1 ≤ run.length ∧ run.length ≤ 6) &&
    (match t.drop run.length with | c :: _ => isSpaceJS c | [] => false)

/-- Test `^ {0,3}#{1,6}(?:\s|$)` (ATX form inside the lazy-continuation
checks and `parseParagraph`). -/
def atxWsEndTest (s : Str) : Bool :=
  match dropUpTo3Spaces s with
  | none => false
  | some t =>
    let run := t.takeWhile (fun c => c = '#')
    decide (1 ≤ run.length ∧ run.length ≤ 6) &&
    (match t.drop run.length with | c :: _ => isSpaceJS c | [] => true)

/-- Test `^ {0,3}>` -/
def bqTest (s : Str) : Bool :=
  match dropUpTo3Spaces s with
  | some ('>' :: _) => true
  | _ => false

/-- Match `^ {0,3}>(.*)$` of `parseBlockquote`, returning the capture. -/
def bqMark (s : Str) : Option Str :=
  match dropUpTo3Spaces s with
  | some ('>' :: rest) => some rest
  | _ => none

/-- Match `^ {0,3}>[ \t]?(.*)$` of the reference extractor, returning
the capture (the greedy `[ \t]?` takes one space or tab if present). -/
def bqMarkSp (s : Str) : Option Str :=
  match dropUpTo3Spaces s with
  | some ('>' :: rest) =>
    match rest with
    | ' ' :: r2 => some r2
    | '\t' :: r2 => some r2
    | _ => some rest
  | _ => none

/-- Test `^ {0,3}(?:\d{1,9}[.)]|[-+*])(?:\s|$)` (list-marker form of
`canStartDef` and the lazy-continuation checks). -/
def listMarkerWsEndTest (s : Str) : Bool :=
  match dropUpTo3Spaces s with
  | none => false
  | some t =>
    let afterMarker : Option Str :=
      match t with
      | c :: rest =>
        if c = '-' ∨ c = '+' ∨ c = '*' then some rest
        else
          let digits := t.takeWhile isDigitJS
          if 1 ≤ digits.length ∧ digits.length ≤ 9 then
            match t.drop digits.length with
            | d :: rest2 => if d = '.' ∨ d = ')' then some rest2 else none
            | [] => none
          else none
      | [] => none
    match afterMarker with
    | some (c :: _) => isSpaceJS c
    | some [] => true
    | none => false

/-- Match `^ {0,3}(`{3,}|~{3,})` (fence tracker of the reference
extractor), returning the fence char and run length. -/
def fenceHeadSpaces (s : Str) : Option (Char × Nat) :=
  match dropUpTo3Spaces s with
  | none => none
  | some t =>
    match t with
    | c :: _ =>
      if c = '~' ∨ c.toNat = 96 then
        let run := t.takeWhile (fun d => d = c)
        if 3 ≤ run.length then some (c, run.length) else none
      else none
    | [] => none

/-- Match `^(\s*)(`{3,}|~{3,})` returning (indent, fence char, run
length); the form used with a whole-line remainder capture is
`fenceFull` below. -/
def fenceHeadWS (s : Str) : Option (Str × Char × Nat) :=
  let ind := s.takeWhile isSpaceJS
  match s.drop ind.length with
  | c :: _ =>
    if c = '~' ∨ c.toNat = 96 then
      let run := (s.drop ind.length).takeWhile (fun d => d = c)
      if 3 ≤ run.length then some (ind, c, run.length) else none
    else none
  | [] => none

/-- Match `^(\s*)(`{3,}|~{3,})(.*)$` returning (indent, fence char, run
length, rest). -/
def fenceFull (s : Str) : Option (Str × Char × Nat × Str) :=
  match fenceHeadWS s with
  | some (ind, c, len) => some (ind, c, len, s.drop (ind.length + len))
  | none => none

/-- Test `^ {0,3}([-=])+\s*$` (setext underline). -/
def setextTest (s : Str) : Bool :=
  match dropUpTo3Spaces s with
  | none => false
  | some t =>
    let run := t.takeWhile (fun c => c = '-' ∨ c = '=')
    decide (1 ≤ run.length) && (t.drop run.length).all isSpaceJS

/-- Match `^ {0,3}(\d{1,9})([.)])[ \t]+` of `parseParagraph` (the
ordered-list interrupt check), returning the digit capture. -/
def orderedInterruptMatch (s : Str) : Option Str :=
  match dropUpTo3Spaces s with
  | none => none
  | some t =>
    let digits := t.takeWhile isDigitJS
    if 1 ≤ digits.length ∧ digits.length ≤ 9 then
      match t.drop digits.length with
      | d :: c :: _ =>
        if (d = '.' ∨ d = ')') ∧ (c = ' ' ∨ c = '\t') then some digits
        else none
      | _ => none
    else none

/-- Test `^\s{0,3}[-+*][ \t]+` of `parseParagraph` (bullet interrupt). -/
def bulletInterruptTest (s : Str) : Bool :=
  match dropUpTo3WS s with
  | some (b :: c :: _) => (b = '-' ∨ b = '+' ∨ b = '*') ∧ (c = ' ' ∨ c = '\t')
  | _ => false

/-- Match `^(\s{0,3})([-+*])((?:[ \t]+.*)?)$` of `parseList`, returning
(indent, bullet char, after).  The optional tail capture is the whole
remainder when it starts with a space or tab, the empty string when the
line ends at the marker, and the match fails otherwise. -/
def bulletMatch (s : Str) : Option (Str × Char × Str) :=
  let ind := s.takeWhile isSpaceJS
  if ind.length ≤ 3 then
    match s.drop ind.length with
    | b :: rest =>
      if b = '-' ∨ b = '+' ∨ b = '*' then
        match rest with
        | [] => some (ind, b, [])
        | c :: _ => if c = ' ' ∨ c = '\t' then some (ind, b, rest) else none
      else none
    | [] => none
  else none

/-- Match `^(\s{0,3})(\d{1,9})([.)])((?:[ \t]+.*)?)$` of `parseList`,
returning (indent, digits, delimiter, after). -/
def orderedMatch (s : Str) : Option (Str × Str × Char × Str) :=
  let ind := s.takeWhile isSpaceJS
  if ind.length ≤ 3 then
    let t := s.drop ind.length
    let digits := t.takeWhile isDigitJS
    if 1 ≤ digits.length ∧ digits.length ≤ 9 then
      match t.drop digits.length with
      | d :: rest =>
        if d = '.' ∨ d = ')' then
          match rest with
          | [] => some (ind, digits, d, [])
          | c :: _ =>
            if c = ' ' ∨ c = '\t' then some (ind, digits, d, rest) else none
        else none
      | [] => none
    else none
  else none

/-- Test `^ {0,3}(?:#{1,6}(?:\s|$)|(?:\*|_|-){3,}\s*$)`, the block-start
guard of the lazy-continuation branches in `parseBlockquote` and
`parseList`. -/
def lazyBlockStartTest (s : Str) : Bool :=
  atxWsEndTest s ∨ mixedThematicTest s

/-- Scanner for the label body `((?:\\.|[^\\\[\]])*)`: consumes
greedily, stopping at an unescaped `[`, `]`, or a trailing lone
backslash; returns the consumed capture and the remainder. -/
def labelScan : Str → Str × Str
  | [] => ([], [])
  | ['\\'] => ([], ['\\'])
  | '\\' :: c :: rest =>
    let (a, b) := labelScan rest
    ('\\' :: c :: a, b)
  | c :: rest =>
    if c = '[' ∨ c = ']' then ([], c :: rest)
    else
      let (a, b) := labelScan rest
      (c :: a, b)

/-- Match `^ {0,3}\[((?:\\.|[^\\\[\]])+)\]:\s*(.*)$` (`startDef` of the
reference extractor), returning the label and the rest after the
greedy `\s*`. -/
def startDefMatch (s : Str) : Option (Str × Str) :=
  match dropUpTo3Spaces s with
  | some ('[' :: t) =>
    let (label, rem) := labelScan t
    if label.isEmpty then none
    else
      match rem with
      | ']' :: ':' :: rest => some (label, rest.dropWhile isSpaceJS)
      | _ => none
  | _ => none

/-- Match `^ {0,3}\[((?:\\.|[^\\\[\]])*)$` (the `open` pattern of the
reference extractor): the label body must reach the end of the line. -/
def openLabelMatch (s : Str) : Option Str :=
  match dropUpTo3Spaces s with
  | some ('[' :: t) =>
    let (label, rem) := labelScan t
    if rem.isEmpty then some label else none
  | _ => none

/-- Test `^ {0,3}\[$` (inside `canStartDef`). -/
def openBracketOnlyTest (s : Str) : Bool :=
  match dropUpTo3Spaces s with
  | some ['['] => true
  | _ => false

/-- Match `^(.*)\]:\s*(.*)$` (the `close` pattern of the reference
extractor).  The greedy `(.*)` selects the last `]:` of the line;
the second capture follows the greedy `\s*`. -/
def closeDefMatch : Str → Option (Str × Str)
  | [] => none
  | c :: rest =>
    match closeDefMatch rest with
    | some (a, b) => some (c :: a, b)
    | none =>
      if c = ']' ∧ rest.take 1 = [':'] then
        some ([], (rest.drop 1).dropWhile isSpaceJS)
      else none

/-- Scanner for a quoted-title body: consumes `(?:\\.|[^Q\\])*` then the
closing char `Q`, returning the capture and the remainder after `Q`. -/
def quotedScan (q : Char) : Str → Option (Str × Str)
  | [] => none
  | ['\\'] => none
  | '\\' :: c :: rest =>
    match quotedScan q rest with
    | some (a, b) => some ('\\' :: c :: a, b)
    | none => none
  | c :: rest =>
    if c = q then some ([], rest)
    else if c = '\\' then none
    else
      match quotedScan q rest with
      | some (a, b) => some (c :: a, b)
      | none => none

/-- Match of the extractor's `titlePattern`
`^(<[^>]*>|[^\s<>]+)(?:\s+(?:"((?:\\.|[^"\\])*)"|'((?:\\.|[^'\\])*)'|\(((?:\\.|[^)\\])*)\)))?\s*$`
(with the `s` flag), returning the destination capture and the title.
Mirroring `m[2] || m[3] || m[4]` under the source's later
`title ? … : undefined` use, an empty title capture is reported as
`none`. -/
def titleMatch (s : Str) : Option (Str × Option Str) :=
  let dest? : Option (Str × Str) :=
    match s with
    | '<' :: t =>
      let mid := t.takeWhile (fun c => c ≠ '>')
      match t.drop mid.length with
      | '>' :: rest => some ('<' :: mid ++ ['>'], rest)
      | _ => none
    | _ =>
      let d := s.takeWhile (fun c => ¬ isSpaceJS c ∧ c ≠ '<' ∧ c ≠ '>')
      if d.isEmpty then none else some (d, s.drop d.length)
  match dest? with
  | none => none
  | some (dest, rest) =>
    if rest.all isSpaceJS then some (dest, none)
    else
      let ws := rest.takeWhile isSpaceJS
      if ws.isEmpty then none
      else
        let afterWS := rest.drop ws.length
        let quoted? : Option (Str × Str) :=
          match afterWS with
          | '"' :: t => quotedScan '"' t
          | '\x27' :: t => quotedScan '\x27' t
          | '(' :: t =>
            -- the paren form forbids `\` only via `[^)\\]` and allows
            -- `\\.` pairs, exactly as `quotedScan` implements
            quotedScan ')' t
          | _ => none
        match quoted? with
        | some (content, rest2) =>
          if rest2.all isSpaceJS then
            some (dest, if content.isEmpty then none else some content)
          else none
        | none => none

/-- Consume the attribute list
`(?:\s+[A-Za-z_:][A-Za-z0-9_.:-]*(?:\s*=\s*("[^"]*"|'[^']*'|[^\s"'=<>`]+))?)*`
of the `openTag` regex in `isHtmlTag` greedily, returning the remainder.
When `=` is present but no value alternative matches, the attribute is
taken without its value (the regex's backtracking then fails on the
tail check, as the leftover `=` can match neither another attribute nor
the tag close). -/
def openTagAttrs : Nat → Str → Str
  | 0, s => s
  | fuel + 1, s =>
    let ws := s.takeWhile isSpaceJS
    if ws.isEmpty then s
    else
      match s.drop ws.length with
      | c :: rest =>
        if isLetterJS c ∨ c = '_' ∨ c = ':' then
          let name := rest.takeWhile
            (fun d => isAlnumJS d ∨ d = '_' ∨ d = '.' ∨ d = ':' ∨ d = '-')
          let after := rest.drop name.length
          let ws2 := after.takeWhile isSpaceJS
          match after.drop ws2.length with
          | '=' :: v0 =>
            let v := v0.dropWhile isSpaceJS
            let value? : Option Str :=
              match v with
              | '"' :: t =>
                let mid := t.takeWhile (fun d => d ≠ '"')
                match t.drop mid.length with
                | '"' :: r2 => some r2
                | _ => none
              | '\x27' :: t =>
                let mid := t.takeWhile (fun d => d ≠ '\x27')
                match t.drop mid.length with
                | '\x27' :: r2 => some r2
                | _ => none
              | _ =>
                let run := v.takeWhile (fun d =>
                  ¬ isSpaceJS d ∧ d ≠ '"' ∧ d ≠ '\x27' ∧ d ≠ '=' ∧
                  d ≠ '<' ∧ d ≠ '>' ∧ d.toNat ≠ 96)
                if run.isEmpty then none else some (v.drop run.length)
            match value? with
            | some r2 => openTagAttrs fuel r2
            | none => openTagAttrs fuel after
          | _ => openTagAttrs fuel after
        else s
      | [] => s

/-- Embeds the `openTag` regex test of `isHtmlTag` from `utils.ts`. -/
def openTagTest (tag : Str) : Bool :=
  match tag with
  | '<' :: c :: rest =>
    if isLetterJS c then
      let name := rest.takeWhile (fun d => isAlnumJS d ∨ d = '-')
      let after := openTagAttrs (rest.length + 1) (rest.drop name.length)
      let tail := after.dropWhile isSpaceJS
      tail = ['>'] ∨ tail = ['/', '>']
    else false
  | _ => false

/-- Embeds the `closeTag` regex test `^<\/[A-Za-z][A-Za-z0-9-]*\s*>$`. -/
def closeTagTest (tag : Str) : Bool :=
  match tag with
  | '<' :: '/' :: c :: rest =>
    if isLetterJS c then
      let name := rest.takeWhile (fun d => isAlnumJS d ∨ d = '-')
      (rest.drop name.length).dropWhile isSpaceJS = ['>']
    else false
  | _ => false

/-- Embeds the `decl` regex test `^<![A-Z]+\s+[^>]*>$`. -/
def declTest (tag : Str) : Bool :=
  match tag with
  | '<' :: '!' :: rest =>
    let caps := rest.takeWhile (fun c => 'A' ≤ c ∧ c ≤ 'Z')
    if caps.isEmpty then false
    else
      let afterCaps := rest.drop caps.length
      let ws := afterCaps.takeWhile isSpaceJS
      if ws.isEmpty then false
      else
        let body := afterCaps.drop ws.length
        match body.reverse with
        | '>' :: middleRev => middleRev.all (fun c => c ≠ '>')
        | _ => false
  | _ => false

/-- Embeds `isHtmlTag` from `utils.ts`.  The lazy comment / processing
instruction / CDATA patterns are anchored at both ends, so they amount
to delimiter checks with a minimum length. -/
def isHtmlTag (tag : Str) : Bool :=
  openTagTest tag ∨
  closeTagTest tag ∨
  (tag.take 4 = ('<':: '!':: '-':: '-'::[]) ∧ 7 ≤ tag.length ∧
    tag.drop (tag.length - 3) = ('-':: '-':: '>'::[])) ∨
  tag = ('<':: '!':: '-':: '-':: '>'::[]) ∨
  tag = ('<':: '!':: '-':: '-':: '-':: '>'::[]) ∨
  (tag.take 2 = ('<':: '?'::[]) ∧ 4 ≤ tag.length ∧
    tag.drop (tag.length - 2) = ('?':: '>'::[])) ∨
  declTest tag ∨
  (tag.take 9 = ('<':: '!':: '[':: 'C':: 'D':: 'A':: 'T':: 'A':: '['::[]) ∧
    12 ≤ tag.length ∧ tag.drop (tag.length - 3) = (']':: ']':: '>'::[]))

/-- Match `^ {0,3}<\/?([A-Za-z][A-Za-z0-9-]*)(?=[\s/>]|$)`
(`htmlBlockStartRegex`), returning the tag-name capture. -/
def htmlBlockStartMatch (s : Str) : Option Str :=
  match dropUpTo3Spaces s with
  | some ('<' :: t) =>
    let t2 := match t with | '/' :: r => r | _ => t
    match t2 with
    | c :: rest =>
      if isLetterJS c then
        let more := rest.takeWhile (fun d => isAlnumJS d ∨ d = '-')
        match rest.drop more.length with
        | d :: _ =>
          if isSpaceJS d ∨ d = '/' ∨ d = '>' then some (c :: more) else none
        | [] => some (c :: more)
      else none
    | [] => none
  | _ => none

/-! ## The block-node data model (`types.d.ts`) -/

/-- Embeds `TsmarkNode` from `types.d.ts`.  The `start` field of a list
node is optional in the source (set only by `parseList` when the list
is ordered and does not start at 1); `loose` flags are carried by lists
and items as `parseList` produces them. -/
inductive Node where
  | thematicBreak
  | heading (level : Nat) (content : Str)
  | paragraph (content : Str)
  | codeBlock (content : Str) (language : Option Str)
  | blockquote (children : List Node)
  | list (ordered : Bool) (startNum : Option Nat) (loose : Bool)
      (items : List Node)
  | listItem (children : List Node) (loose : Bool)
  | htmlBlock (content : Str)

/-- Embeds `RefDef` from `types.d.ts`. -/
structure RefDef where
  url : Str
  title : Option Str
deriving DecidableEq

/-- The reference map, in insertion order (`Map<string, RefDef>`;
only `get`, `has` and guarded first-insertion `set` are used). -/
abbrev RefMap := List (Str × RefDef)

/-- `refs.has(key)` -/
def refHas (refs : RefMap) (key : Str) : Bool :=
  refs.any (fun p => p.1 == key)

/-- `refs.get(key)` -/
def refGet (refs : RefMap) (key : Str) : Option RefDef :=
  (refs.find? (fun p => p.1 == key)).map Prod.snd

/-- `refs.set(key, v)` as used on a key the map does not yet hold. -/
def refSet (refs : RefMap) (key : Str) (v : RefDef) : RefMap :=
  refs ++ [(key, v)]

/-! ## nodes/thematic_break.ts and nodes/heading.ts -/

/-- Embeds `parseThematicBreak`. -/
def parseThematicBreak (line : Str) : Option Node :=
  if looksThematic line then some .thematicBreak else none

/-- Embeds `parseATXHeading` from `nodes/heading.ts`: the heading line
match `^ {0,3}(#{1,6})(.*)$` followed by the cleanup replaces
`\s+$`, `\s+#+\s*$` and `^\s+`. -/
def parseATXHeading (line : Str) : Option Node :=
  match dropUpTo3Spaces line with
  | none => none
  | some t =>
    let hashes := t.takeWhile (fun c => c = '#')
    let run := hashes.take 6
    if run.isEmpty then none
    else
      let rest0 := t.drop run.length
      -- `if (rest !== '' && !/^\s/.test(rest)) return null`
      let headOK : Bool := match rest0 with
        | [] => true
        | c :: _ => isSpaceJS c
      if ¬ headOK then none
      else
        let r1 := trimEndJS rest0
        -- `replace(/\s+#+\s*$/, '')`: after the trim above the trailing
        -- `\s*` is empty, so the pattern strips a final `#` run that is
        -- preceded by at least one whitespace char
        let r2 :=
          let revd := r1.reverse
          let hs := revd.takeWhile (fun c => c = '#')
          if hs.isEmpty then r1
          else
            let ws := (revd.drop hs.length).takeWhile isSpaceJS
            if ws.isEmpty then r1
            else (revd.drop (hs.length + ws.length)).reverse
        some (.heading run.length (trimStartJS r2))

/-- Embeds `parseSetextHeading` from `nodes/heading.ts`. -/
def parseSetextHeading (paraLines : List Str) (nextLine : Str) :
    Option Node :=
  if paraLines.isEmpty then none
  else if ¬ setextTest nextLine then none
  else
    let level := if (trimJS nextLine).take 1 = ['='] then 1 else 2
    some (.heading level (trimEndJS (joinNL paraLines)))

/-! ## nodes/code_block.ts -/

/-- The `isClosing` helper of `parseCodeBlock` for a fence of char
`fc` and length `flen`. -/
def fenceIsClosing (fc : Char) (flen : Nat) (ln : Str) : Bool :=
  if 3 < indentWidth ln then false
  else
    let trimmed := trimStartJS ln
    let cnt := (trimmed.takeWhile (fun c => c = fc)).length
    if cnt = 0 then false
    else if cnt < flen then false
    else isBlank (trimmed.drop cnt)

/-- Collection loop of the fenced branch of `parseCodeBlock`: returns
(collected code lines, further lines consumed, closing fence seen —
the closing fence line itself counted when seen). -/
def fencedCollect (fc : Char) (flen : Nat) (fenceIndent : Nat) :
    Nat → List Str → List Str × Nat × Bool
  | 0, _ => ([], 0, false)
  | _ + 1, [] => ([], 0, false)
  | fuel + 1, l :: rest =>
    let ln := stripLazy l
    if fenceIsClosing fc flen ln then ([], 1, true)
    else
      let (cs, n, closed) := fencedCollect fc flen fenceIndent fuel rest
      (stripColumns ln fenceIndent :: cs, n + 1, closed)

/-- Drop trailing elements equal to the empty string (the
`while (codeLines[codeLines.length-1] === '') codeLines.pop()` loop). -/
def dropTrailingEmpty (ls : List Str) : List Str :=
  (ls.reverse.dropWhile List.isEmpty).reverse

/-- Drop trailing blank lines (`trim() === ''`). -/
def dropTrailingBlank (ls : List Str) : List Str :=
  (ls.reverse.dropWhile isBlank).reverse

/-- Drop leading blank lines (`while codeLines[0].trim()==='' shift`). -/
def dropLeadingBlank (ls : List Str) : List Str :=
  ls.dropWhile isBlank

/-- Collection loop of the indented branch of `parseCodeBlock`. -/
def indentedCollect : Nat → List Str → List Str × Nat
  | 0, _ => ([], 0)
  | _ + 1, [] => ([], 0)
  | fuel + 1, l :: rest =>
    if 4 ≤ indentWidth l ∨ isBlank (stripLazy l) then
      let (cs, n) := indentedCollect fuel rest
      (stripLazy l :: cs, n + 1)
    else ([], 0)

/-- Embeds `parseCodeBlock` from `nodes/code_block.ts`, in suffix form:
given the lines from the current position on, returns the node and the
number of lines consumed. -/
def parseCodeBlock (ls : List Str) : Option (Node × Nat) :=
  match ls with
  | [] => none
  | line :: rest =>
    let stripped := stripLazy line
    let fenced? : Option (Node × Nat) :=
      match fenceFull stripped with
      | some (ind, fc, flen, fmRest) =>
        if indentWidth ind ≤ 3 then
          if fc.toNat = 96 ∧ fmRest.contains (Char.ofNat 96) then none
          else
            let fenceIndent := indentWidth ind
            let info := trimJS fmRest
            let language :=
              if info.isEmpty then none
              else some (decodeEntities (unescapeMd
                (info.takeWhile (fun c => ¬ isSpaceJS c))))
            let (codeLines0, consumed, closed) :=
              fencedCollect fc flen fenceIndent (rest.length + 1) rest
            let codeLines :=
              if closed then codeLines0 else dropTrailingEmpty codeLines0
            let content :=
              joinNL codeLines ++ (if codeLines.length > 0 then ['\n'] else [])
            some (.codeBlock content language, 1 + consumed)
        else none
      | none => none
    match fenced? with
    | some r => some r
    | none =>
      if 4 ≤ indentWidth line then
        let (codeLines0, n) := indentedCollect (ls.length + 1) ls
        let codeLines := dropTrailingBlank (dropLeadingBlank codeLines0)
        let content := joinNL (codeLines.map stripIndent) ++ ['\n']
        some (.codeBlock content none, n)
      else none

/-! ## nodes/html.ts -/

/-- Embeds the `htmlBlockTags` set (membership after `toLowerCase`). -/
def htmlBlockTags : List Str :=
  [ "address", "article", "aside", "base", "basefont", "blockquote",
    "body", "caption", "center", "col", "colgroup", "dd", "details",
    "dialog", "dir", "div", "dl", "dt", "fieldset", "figcaption",
    "figure", "footer", "form", "frame", "frameset", "h1", "h2", "h3",
    "h4", "h5", "h6", "head", "header", "hr", "html", "iframe",
    "legend", "li", "link", "main", "menu", "menuitem", "nav",
    "noframes", "ol", "optgroup", "option", "p", "param", "pre",
    "script", "search", "section", "summary", "style", "table",
    "tbody", "td", "tfoot", "th", "thead", "title", "tr", "track",
    "ul", "textarea" ].map String.data

/-- Substring containment test (`RegExp.test` on a literal pattern). -/
def containsSub (needle : Str) : Str → Bool
  | [] => needle.isEmpty
  | c :: rest => needle.isPrefixOf (c :: rest) || containsSub needle rest

/-- Case-insensitive substring test `new RegExp(`</tag>`, 'i').test(s)`
for a lowercase tag name. -/
def containsCloseTag (tag : Str) (s : Str) : Bool :=
  containsSub ('<' :: '/' :: tag ++ ['>']) (s.map toLowerJS)

/-- Condition-1 collection loop of `parseHtmlBlock` (`pre`, `script`,
`style`, `textarea`): consume until a line containing the close tag,
inclusively.  Returns (collected lines, consumed, closed). -/
def htmlCond1Collect (tag : Str) : Nat → List Str → List Str × Nat × Bool
  | 0, _ => ([], 0, false)
  | _ + 1, [] => ([], 0, false)
  | fuel + 1, l :: rest =>
    let ln := stripLazy l
    if containsCloseTag tag ln then ([ln], 1, true)
    else
      let (cs, n, closed) := htmlCond1Collect tag fuel rest
      (ln :: cs, n + 1, closed)

/-- Collect following non-blank lines (used by html-block conditions 6
and 7). -/
def nonBlankCollect : Nat → List Str → List Str × Nat
  | 0, _ => ([], 0)
  | _ + 1, [] => ([], 0)
  | fuel + 1, l :: rest =>
    if isBlank (stripLazy l) then ([], 0)
    else
      let (cs, n) := nonBlankCollect fuel rest
      (stripLazy l :: cs, n + 1)

/-- Collect lines until one containing the closing delimiter,
inclusively (html-block conditions 2-5 when the first line is not
already closed). -/
def untilCloserCollect (closer : Str) : Nat → List Str → List Str × Nat
  | 0, _ => ([], 0)
  | _ + 1, [] => ([], 0)
  | fuel + 1, l :: rest =>
    let ln := stripLazy l
    if containsSub closer ln then ([ln], 1)
    else
      let (cs, n) := untilCloserCollect closer fuel rest
      (ln :: cs, n + 1)

/-- Embeds `parseHtmlBlock` from `nodes/html.ts`, in suffix form.  The
source's look-back `start === 0 || stripLazy(lines[start-1]).trim() === ''`
is supplied by the caller as `prevBlank`. -/
def parseHtmlBlock (ls : List Str) (prevBlank : Bool) :
    Option (Node × Nat) :=
  match ls with
  | [] => none
  | line :: rest =>
    let stripped := stripLazy line
    let cond16 : Option (Node × Nat) :=
      match htmlBlockStartMatch stripped with
      | some name =>
        let tag := name.map toLowerJS
        if htmlBlockTags.contains tag then
          if tag = "pre".data ∨ tag = "script".data ∨
             tag = "style".data ∨ tag = "textarea".data then
            if containsCloseTag tag stripped then
              some (.htmlBlock stripped, 1)
            else
              let (cs, n, closed) := htmlCond1Collect tag (rest.length + 1) rest
              let htmlLines :=
                if closed then stripped :: cs
                else dropTrailingBlank (stripped :: cs)
              some (.htmlBlock (joinNL htmlLines), 1 + n)
          else
            let (cs, n) := nonBlankCollect (rest.length + 1) rest
            some (.htmlBlock (joinNL (stripped :: cs)), 1 + n)
        else none
      | none => none
    match cond16 with
    | some r => some r
    | none =>
      let ts := trimStartJS stripped
      let cond25Start : Bool :=
        match dropUpTo3Spaces stripped with
        | some t =>
          t.take 4 == ('<':: '!':: '-':: '-'::[]) ||
          t.take 2 == ('<':: '?'::[]) ||
          (t.take 2 == ('<':: '!'::[]) &&
            (match t.drop 2 with
             | c :: _ => decide ('A' ≤ c ∧ c ≤ 'Z')
             | [] => false)) ||
          t.take 9 == ('<':: '!':: '[':: 'C':: 'D':: 'A':: 'T':: 'A':: '['::[])
        | none => false
      if cond25Start then
        let closer : Str :=
          if ts.take 4 = ('<':: '!':: '-':: '-'::[]) then ('-':: '-':: '>'::[])
          else if ts.take 2 = ('<':: '?'::[]) then ('?':: '>'::[])
          else if ts.take 9 = ('<':: '!':: '[':: 'C':: 'D':: 'A':: 'T':: 'A':: '['::[])
            then (']':: ']':: '>'::[])
          else ['>']
        if containsSub closer stripped then
          some (.htmlBlock stripped, 1)
        else
          let (cs, n) := untilCloserCollect closer (rest.length + 1) rest
          some (.htmlBlock (joinNL (stripped :: cs)), 1 + n)
      else
        if isHtmlTag stripped ∧ prevBlank then
          let (cs, n) := nonBlankCollect (rest.length + 1) rest
          some (.htmlBlock (joinNL (stripped :: cs)), 1 + n)
        else none

/-! ## nodes/blockquote.ts -/

/-- Match `^(`{3,}|~{3,})` anchored directly (the fence tracker inside
`parseBlockquote`). -/
def fenceHeadDirect (s : Str) : Option (Char × Nat) :=
  match s with
  | c :: _ =>
    if c = '~' ∨ c.toNat = 96 then
      let run := s.takeWhile (fun d => d = c)
      if 3 ≤ run.length then some (c, run.length) else none
    else none
  | [] => none

/-- Test `^(?:\s*)(`{3,}|~{3,})` (also written with `~{3}` in
`parseList`, which tests the same prefixes). -/
def fenceStartTest (s : Str) : Bool := (fenceHeadWS s).isSome

/-- The fence-state toggle shared by the extractor, `parseBlockquote`
and `parseList`. -/
def fenceToggle (fence : Option (Char × Nat)) (ch : Char) (len : Nat) :
    Option (Char × Nat) :=
  match fence with
  | none => some (ch, len)
  | some (fc, flen) => if fc = ch ∧ flen ≤ len then none else some (fc, flen)

/-- Loop of `parseBlockquote`: state is (collected quote lines,
`prevBlank`, open fence); returns the collected lines and the number of
lines consumed. -/
def bqLoop : Nat → List Str →
    List Str × Bool × Option (Char × Nat) → List Str × Nat
  | 0, _, (bqLines, _, _) => (bqLines, 0)
  | _ + 1, [], (bqLines, _, _) => (bqLines, 0)
  | fuel + 1, l :: rest, (bqLines, prevBlank, fence) =>
    let current := stripLazy l
    match bqMark current with
    | some rest0 =>
      let rest1 :=
        match rest0 with
        | ' ' :: r2 => r2
        | '\t' :: r2 => ' ' :: ' ' :: r2
        | _ => rest0
      let rest2 := rest1.flatMap fun c =>
        if c = '\t' then [' ', ' ', ' ', ' '] else [c]
      let fence' :=
        match fenceHeadDirect rest2 with
        | some (ch, len) => fenceToggle fence ch len
        | none => fence
      let (outLines, n) :=
        bqLoop fuel rest (bqLines ++ [rest2], isBlank rest2, fence')
      (outLines, n + 1)
    | none =>
      if isBlank current then (bqLines, 0)
      else if fence = none ∧ indentWidth l ≤ 3 ∧
          ¬ lazyBlockStartTest current ∧ ¬ fenceStartTest current ∧
          ¬ listMarkerWsEndTest current then
        if prevBlank then (bqLines, 0)
        else
          let pushed := LAZY :: stripColumns l (min (indentWidth l) 3)
          let (outLines, n) := bqLoop fuel rest (bqLines ++ [pushed], false, fence)
          (outLines, n + 1)
      else if fence = none ∧ 3 < indentWidth l ∧
          ¬ lazyBlockStartTest current ∧ ¬ fenceStartTest current ∧
          ¬ listMarkerWsEndTest current ∧ ¬ prevBlank ∧
          indentWidth (stripLazy (bqLines.getLast?.getD [])) ≤ 3 then
        let pushed := LAZY :: stripColumns l (min (indentWidth l) 3)
        let (outLines, n) := bqLoop fuel rest (bqLines ++ [pushed], false, fence)
        (outLines, n + 1)
      else (bqLines, 0)

/-- Embeds `parseBlockquote` from `nodes/blockquote.ts`, in suffix form. -/
def parseBlockquote (ls : List Str) (parseFn : Str → List Node) :
    Option (Node × Nat) :=
  match ls with
  | [] => none
  | line :: _ =>
    if ¬ bqTest (stripLazy line) then none
    else
      let (bqLines, n) := bqLoop (ls.length + 1) ls ([], false, none)
      some (.blockquote (parseFn (joinNL bqLines)), n)

/-! ## nodes/paragraph.ts -/

/-- The fenced-code interrupt check of `parseParagraph`: a fence line
whose indent is at most 3 and whose info string does not repeat the
fence char. -/
def fenceInterruptTest (s : Str) : Bool :=
  match fenceFull s with
  | some (ind, ch, _, rest) =>
    indentWidth ind ≤ 3 ∧
    ¬ ((ch.toNat = 96 ∧ rest.contains (Char.ofNat 96)) ∨
       (ch = '~' ∧ rest.contains '~'))
  | none => false

/-- The html-block interrupt check of `parseParagraph`: a recognized
block tag interrupts unless it is a close tag of
`pre`/`script`/`style`/`textarea`. -/
def htmlInterruptTest (s : Str) : Bool :=
  match htmlBlockStartMatch s with
  | some name =>
    let tag := name.map toLowerJS
    if htmlBlockTags.contains tag then
      if s.take 2 = ('<' :: '/' :: []) then
        ¬ (tag = "pre".data ∨ tag = "script".data ∨
           tag = "style".data ∨ tag = "textarea".data)
      else true
    else false
  | none => false

/-- The block-start disjunction that ends a paragraph in
`parseParagraph` (tested on non-lazy lines). -/
def paraInterruptTest (s : Str) : Bool :=
  (parseThematicBreak s).isSome ∨
  bqTest s ∨
  bulletInterruptTest s ∨
  (orderedInterruptMatch s = some ['1']) ∨
  atxWsEndTest s ∨
  fenceInterruptTest s ∨
  htmlInterruptTest s

/-- Loop of `parseParagraph`: accumulates the paragraph lines; a setext
underline immediately after a pushed line short-circuits with the
heading node and the lines consumed (`Sum.inl`); otherwise returns the
collected lines and the count consumed (`Sum.inr`). -/
def paraLoop : Nat → List Str → List Str → Nat →
    (Node × Nat) ⊕ (List Str × Nat)
  | 0, _, acc, consumed => .inr (acc, consumed)
  | _ + 1, [], acc, consumed => .inr (acc, consumed)
  | fuel + 1, l :: rest, acc, consumed =>
    if isBlank (stripLazy l) then .inr (acc, consumed)
    else if l.take 1 ≠ [LAZY] ∧ setextTest (stripLazy l) ∧ acc ≠ [] then
      .inr (acc, consumed)
    else if l.take 1 ≠ [LAZY] ∧ paraInterruptTest (stripLazy l) then
      .inr (acc, consumed)
    else
      let pushed :=
        if 4 ≤ indentWidth l then stripColumns l (indentWidth l)
        else stripColumns l (min (indentWidth l) 3)
      let acc' := acc ++ [pushed]
      let setext? : Option Node :=
        match rest with
        | nxt :: _ =>
          if nxt.take 1 ≠ [LAZY] then
            parseSetextHeading acc' (stripLazy nxt)
          else none
        | [] => none
      match setext? with
      | some node => .inl (node, consumed + 2)
      | none => paraLoop fuel rest acc' (consumed + 1)

/-- Embeds `parseParagraph` from `nodes/paragraph.ts`, in suffix form. -/
def parseParagraph (ls : List Str) : Option (Node × Nat) :=
  match paraLoop (ls.length + 1) ls [] 0 with
  | .inl r => some r
  | .inr (paraLines, consumed) =>
    if paraLines.isEmpty then none
    else some (.paragraph (joinNL paraLines), consumed)

/-! ## nodes/list.ts -/

/-- Test `/^\s*\d+[.)]/` or `/^\s*[-+*]/` (the `prevBullet` checks of
`parseList`). -/
def prevBulletTest (isOrdered : Bool) (s : Str) : Bool :=
  let t := trimStartJS s
  if isOrdered then
    let digits := t.takeWhile isDigitJS
    decide (1 ≤ digits.length) &&
    (match t.drop digits.length with
     | d :: _ => d == '.' || d == ')'
     | [] => false)
  else
    match t with
    | c :: _ => c == '-' || c == '+' || c == '*'
    | [] => false

/-- The loose-marking step for a blank line inside an item: looks at the
last nonblank collected line. -/
def lastNonBlank (itemLines : List Str) : Str :=
  (dropTrailingBlank itemLines).getLast?.getD []

/-- Inner line-collection loop of one list item in `parseList`.  State:
(collected item lines, itemLoose, open fence, prevBlank); returns the
collected lines, itemLoose, and lines consumed from the suffix. -/
def listItemInner (isOrdered : Bool) (bulletChar delimChar : Char)
    (mInd : Str) (markerIndent : Nat) :
    Nat → List Str → List Str × Bool × Option (Char × Nat) × Bool →
    List Str × Bool × Nat
  | 0, _, (itemLines, itemLoose, _, _) => (itemLines, itemLoose, 0)
  | _ + 1, [], (itemLines, itemLoose, _, _) => (itemLines, itemLoose, 0)
  | fuel + 1, l :: rest, (itemLines, itemLoose, fence, prevBlank) =>
    let ind := indentWidth l
    let current := stripLazy l
    let fm := fenceHeadWS current
    let fmIndentOK : Bool :=
      match fm with
      | some (find, _, _) => indentWidth find ≤ 3
      | none => false
    if fm.isSome ∧ fmIndentOK then
      let fence' :=
        match fm with
        | some (_, ch, len) => fenceToggle fence ch len
        | none => fence
      let (ls2, lo2, n) := listItemInner isOrdered bulletChar delimChar mInd
        markerIndent fuel rest
        (itemLines ++ [stripColumns l markerIndent], itemLoose, fence', false)
      (ls2, lo2, n + 1)
    else if current.all isSpaceJS then
      if fence.isSome then
        let (ls2, lo2, n) := listItemInner isOrdered bulletChar delimChar mInd
          markerIndent fuel rest (itemLines ++ [[]], itemLoose, fence, true)
        (ls2, lo2, n + 1)
      else
        let blankRun := rest.takeWhile (fun x => isBlank (stripLazy x))
        let nextLine? := (rest.drop blankRun.length).head?
        let next := stripLazy (nextLine?.getD [])
        let sameBullet : Bool :=
          if isOrdered then
            match orderedMatch next with
            | some (_, _, d, _) => d == delimChar
            | none => false
          else
            match bulletMatch next with
            | some (_, b, _) => b == bulletChar
            | none => false
        let nextInd : Int :=
          match nextLine? with
          | some nx => (indentWidth nx : Int)
          | none => -1
        let atStart := itemLines.all isBlank
        if sameBullet ∧ nextInd - (indentWidth mInd : Int) ≤ 3 then
          (itemLines, true, 1 + blankRun.length)
        else if (markerIndent : Int) + 4 ≤ nextInd then
          let prevLine := lastNonBlank itemLines
          let lo' := itemLoose ∨
            (¬ prevBulletTest isOrdered prevLine ∧ ¬ isBlank prevLine)
          let (ls2, lo2, n) := listItemInner isOrdered bulletChar delimChar mInd
            markerIndent fuel rest (itemLines ++ [[]], lo', fence, true)
          (ls2, lo2, n + 1)
        else if (markerIndent : Int) ≤ nextInd ∧ ¬ atStart then
          let prevLine := lastNonBlank itemLines
          let lo' := itemLoose ∨ ¬ prevBulletTest isOrdered prevLine
          let (ls2, lo2, n) := listItemInner isOrdered bulletChar delimChar mInd
            markerIndent fuel rest (itemLines ++ [[]], lo', fence, true)
          (ls2, lo2, n + 1)
        else (itemLines, itemLoose, 0)
    else if markerIndent ≤ ind then
      let (ls2, lo2, n) := listItemInner isOrdered bulletChar delimChar mInd
        markerIndent fuel rest
        (itemLines ++ [stripColumns l markerIndent], itemLoose, fence, false)
      (ls2, lo2, n + 1)
    else if ¬ prevBlank ∧ ind < markerIndent ∧
        ¬ lazyBlockStartTest current ∧ ¬ fenceStartTest current ∧
        ¬ listMarkerWsEndTest current ∧ ¬ bqTest current then
      let pushed := LAZY :: stripColumns l (min ind markerIndent)
      let (ls2, lo2, n) := listItemInner isOrdered bulletChar delimChar mInd
        markerIndent fuel rest (itemLines ++ [pushed], itemLoose, fence, false)
      (ls2, lo2, n + 1)
    else (itemLines, itemLoose, 0)

/-- Paragraph counter of `parseList`. -/
def isParagraphNode : Node → Bool
  | .paragraph _ => true
  | _ => false

/-- List-item loose flag (source reads `(it as any).loose`). -/
def itemLooseOf : Node → Bool
  | .listItem _ loose => loose
  | _ => false

/-- Outer item-collection loop of `parseList`: collects items while the
current line re-matches the marker conditions; returns the items and
lines consumed. -/
def listOuter (isOrdered : Bool) (bulletChar delimChar : Char)
    (parseFn : Str → List Node) :
    Nat → List Str → List Node → List Node × Nat
  | 0, _, items => (items, 0)
  | _ + 1, [], items => (items, 0)
  | fuel + 1, l :: rest, items =>
    let cur := stripLazy l
    let marker? : Option (Str × Str × Nat) :=
      -- (indent capture, text after the marker, marker width)
      if isOrdered then
        match orderedMatch cur with
        | some (ind, digits, d, after) =>
          if d == delimChar then some (ind, after, digits.length + 1) else none
        | none => none
      else
        match bulletMatch cur with
        | some (ind, b, after) =>
          if b == bulletChar then some (ind, after, 1) else none
        | none => none
    match marker? with
    | none => (items, 0)
    | some (mInd, after, mWidth) =>
      if looksThematic cur then (items, 0)
      else
        let markerBase := indentWidth mInd + mWidth
        let totalSpaces := indentWidthFrom after markerBase
        let spacesAfter :=
          if isBlank after then 1
          else if 5 ≤ totalSpaces then 1
          else min totalSpaces 4
        let markerIndent := markerBase + spacesAfter
        let firstLine := stripColumnsFrom after spacesAfter markerBase
        let fence0 : Option (Char × Nat) :=
          match fenceHeadWS firstLine with
          | some (_, ch, len) => some (ch, len)
          | none => none
        let (itemLines, itemLoose0, innerN) :=
          listItemInner isOrdered bulletChar delimChar mInd markerIndent
            (rest.length + 1) rest ([firstLine], false, fence0, false)
        let children := parseFn (joinNL itemLines)
        let paraCount := children.countP (fun c => isParagraphNode c)
        let itemLoose := itemLoose0 ∨ 1 < paraCount
        let items' := items ++ [.listItem children itemLoose]
        let (finalItems, moreN) :=
          listOuter isOrdered bulletChar delimChar parseFn fuel
            (rest.drop innerN) items'
        (finalItems, 1 + innerN + moreN)

/-- The `start` field construction of `parseList`
(`if (isOrdered && startNum !== 1 && startNum !== undefined)
listNode.start = startNum`). -/
def listStartField (isOrdered : Bool) (startNum : Option Nat) :
    Option Nat :=
  if isOrdered ∧ startNum ≠ some 1 ∧ startNum ≠ none then startNum
  else none

/-- Embeds `parseList` from `nodes/list.ts`, in suffix form. -/
def parseList (ls : List Str) (parseFn : Str → List Node) :
    Option (Node × Nat) :=
  match ls with
  | [] => none
  | line :: _ =>
    let stripped := stripLazy line
    let bm := bulletMatch stripped
    let om := orderedMatch stripped
    if line.take 1 ≠ [LAZY] ∧ (bm.isSome ∨ om.isSome) ∧
        ¬ looksThematic stripped then
      let isOrdered := om.isSome
      let startNum : Option Nat :=
        match om with
        | some (_, digits, _, _) => some (parseDecimal digits)
        | none => none
      let bulletChar := match bm with
        | some (_, b, _) => b
        | none => ' '
      let delimChar := match om with
        | some (_, _, d, _) => d
        | none => ' '
      let (items, consumed) :=
        listOuter isOrdered bulletChar delimChar parseFn (ls.length + 1) ls []
      let listLoose := items.any itemLooseOf
      some (.list isOrdered (listStartField isOrdered startNum) listLoose
        items, consumed)
    else none

/-! ## inline.ts : helpers -/

/-- Characters `encodeURI` leaves unescaped: `[A-Za-z0-9;,/?:@&=+$-_.!~*'()#]`. -/
def encodeURIKeeps (c : Char) : Bool :=
  isAlnumJS c ∨ c = ';' ∨ c = ',' ∨ c = '/' ∨ c = '?' ∨ c = ':' ∨ c = '@' ∨
  c = '&' ∨ c = '=' ∨ c = '+' ∨ c = '$' ∨ c = '-' ∨ c = '_' ∨ c = '.' ∨
  c = '!' ∨ c = '~' ∨ c = '*' ∨ c = '\x27' ∨ c = '(' ∨ c = ')' ∨ c = '#'

/-- UTF-8 bytes of a code point. -/
def utf8Bytes (n : Nat) : List Nat :=
  if n < 0x80 then [n]
  else if n < 0x800 then [0xC0 + n / 64, 0x80 + n % 64]
  else if n < 0x10000 then
    [0xE0 + n / 4096, 0x80 + n / 64 % 64, 0x80 + n % 64]
  else
    [0xF0 + n / 0x40000, 0x80 + n / 4096 % 64, 0x80 + n / 64 % 64,
     0x80 + n % 64]

/-- Uppercase hex digit. -/
def hexDigitUpper (n : Nat) : Char :=
  if n < 10 then Char.ofNat (48 + n) else Char.ofNat (55 + n)

/-- JavaScript `encodeURI`. -/
def encodeURI (s : Str) : Str :=
  s.flatMap fun c =>
    if encodeURIKeeps c then [c]
    else (utf8Bytes c.toNat).flatMap fun b =>
      ['%', hexDigitUpper (b / 16), hexDigitUpper (b % 16)]

/-- The `replace(/%25([0-9a-fA-F]{2})/g, '%$1')` pass of `encodeHref`. -/
def undoPct25 : Str → Str
  | '%' :: '2' :: '5' :: h1 :: h2 :: rest =>
    if isHexDigitJS h1 ∧ isHexDigitJS h2 then
      '%' :: h1 :: h2 :: undoPct25 rest
    else '%' :: undoPct25 ('2' :: '5' :: h1 :: h2 :: rest)
  | c :: rest => c :: undoPct25 rest
  | [] => []

/-- Embeds `encodeHref` from `utils.ts`. -/
def encodeHref (url : Str) : Str := undoPct25 (encodeURI url)

/-- A placeholder token `SENTINEL ++ digits ++ SENTINEL`. -/
def mkToken (sent : Char) (idx : Nat) : Str :=
  sent :: natToStr idx ++ [sent]

/-- Lookup `placeholders[idx]`; out of range yields the string
`"undefined"` that JavaScript's `replace` callback stringification
produces for a missing element. -/
def phGet (ph : List Str) (idx : Nat) : Str :=
  (ph.get? idx).getD "undefined".data

/-- Scanner of a token-restoring global replace
`/SENT(\d+)SENT/g → f(idx)`. -/
def tokenRestoreGo (sent : Char) (f : Nat → Str) : Nat → Str → Str
  | 0, s => s
  | _ + 1, [] => []
  | fuel + 1, c :: rest =>
    if c = sent then
      let digits := rest.takeWhile isDigitJS
      if digits.isEmpty then c :: tokenRestoreGo sent f fuel rest
      else
        match rest.drop digits.length with
        | d :: tail =>
          if d = sent then
            f (parseDecimal digits) ++ tokenRestoreGo sent f fuel tail
          else c :: tokenRestoreGo sent f fuel rest
        | [] => c :: tokenRestoreGo sent f fuel rest
    else c :: tokenRestoreGo sent f fuel rest

/-- Restore all tokens of one sentinel with `placeholders[idx]`. -/
def tokenRestore (sent : Char) (ph : List Str) (s : Str) : Str :=
  tokenRestoreGo sent (phGet ph) (s.length + 1) s

/-- Test whether a token of the given sentinel occurs
(`/SENT\d+SENT/.test`). -/
def hasTokenOf (sent : Char) : Str → Bool
  | [] => false
  | c :: rest =>
    (c = sent ∧
      (let digits := rest.takeWhile isDigitJS
       ¬ digits.isEmpty ∧ (rest.drop digits.length).take 1 = [sent])) ∨
    hasTokenOf sent rest

/-- First index of `ch` at or after `start` (JavaScript `indexOf`). -/
def idxOfFrom (orig : Str) (ch : Char) (start : Nat) : Option Nat :=
  match (orig.drop start).findIdx? (fun c => c = ch) with
  | some k => some (start + k)
  | none => none

/-- Last index of `ch` at or before `start`
(JavaScript `lastIndexOf(ch, start)`). -/
def lastIdxUpTo (orig : Str) (ch : Char) (start : Nat) : Option Nat :=
  match ((orig.take (start + 1)).reverse.findIdx? (fun c => c = ch)) with
  | some k => some (min start (orig.length - 1) - k)
  | none => none

/-- First index at or after `start` where the literal `pat` occurs
(JavaScript `indexOf(pat, start)`). -/
def subIdxFrom (orig : Str) (pat : Str) (start : Nat) : Option Nat :=
  let rec go : Nat → List Char → Option Nat
    | _, [] => if pat.isEmpty then some 0 else none
    | fuel, c :: rest =>
      if pat.isPrefixOf (c :: rest) then some 0
      else match fuel with
        | 0 => none
        | f + 1 =>
          match go f rest with
          | some k => some (k + 1)
          | none => none
  match go (orig.length + 1) (orig.drop start) with
  | some k => some (start + k)
  | none => none

/-! ## inline.ts : code spans -/

/-- Find the closing run for a code span: the least offset in `s` at
which a backtick run of exactly `n` starts (the regex tail
`(?<!`)\1(?!`)` with lazy content).  Returns the content length. -/
def codeCloseFind (n : Nat) : Nat → Str → Option Nat
  | 0, _ => none
  | _ + 1, [] => none
  | fuel + 1, c :: rest =>
    if c.toNat = 96 then
      let run := 1 + (rest.takeWhile (fun d => d.toNat = 96)).length
      if run = n then some 0
      else
        match codeCloseFind n fuel (rest.drop (run - 1)) with
        | some k => some (k + run)
        | none => none
    else
      match codeCloseFind n fuel rest with
      | some k => some (k + 1)
      | none => none

/-- The code-span replacement callback of `inlineToHTML` given the raw
content `p2`; returns the emitted text and the new placeholder list. -/
def codeSpanEmit (p2 : Str) (ph : List Str) : Str × List Str :=
  let content0 := p2.map (fun c => if c = '\n' then ' ' else c)
  let content :=
    if content0.take 1 = [' '] ∧ content0.getLast? = some ' ' ∧
        ¬ isBlank content0 then
      (content0.drop 1).dropLast
    else content0
  (mkToken (Char.ofNat 2) ph.length,
   ph ++ [('<':: 'c':: 'o':: 'd':: 'e':: '>'::[]) ++ escapeHTML content ++
     ('<':: '/':: 'c':: 'o':: 'd':: 'e':: '>'::[])])

/-- Scanner of the code-span global replace.  `orig` is the whole
subject (the callback consults it through `lastIndexOf`/`indexOf`),
`pos` the scan position. -/
def codeSpanGo (orig : Str) : Nat → Nat → List Str → Str × List Str
  | 0, _, ph => ([], ph)
  | fuel + 1, pos, ph =>
    match orig.drop pos with
    | [] => ([], ph)
    | c :: rest =>
      let lookbehindOK : Bool :=
        decide (pos = 0) ||
          (match orig.get? (pos - 1) with
           | some p => ! (p == '\\' || p == '"' || p == '\x27' || p == '=' ||
               decide (p.toNat = 96))
           | none => true)
      if c.toNat = 96 ∧ lookbehindOK then
        let n := 1 + (rest.takeWhile (fun d => d.toNat = 96)).length
        match codeCloseFind n (orig.length + 1) ((c :: rest).drop n) with
        | some contentLen =>
          let endPos := pos + n + contentLen + n
          let full := (c :: rest).take (n + contentLen + n)
          let lt := lastIdxUpTo orig '<' pos
          let gt := idxOfFrom orig '>' pos
          let straddles : Bool :=
            match lt, gt with
            | some l, some g => l < pos ∧ g < endPos
            | _, _ => false
          if straddles then
            let (out, ph') := codeSpanGo orig fuel endPos ph
            (full ++ out, ph')
          else
            let p2 := ((c :: rest).drop n).take contentLen
            let (tok, ph1) := codeSpanEmit p2 ph
            let (out, ph') := codeSpanGo orig fuel endPos ph1
            (tok ++ out, ph')
        | none =>
          let (out, ph') := codeSpanGo orig fuel (pos + n) ph
          ((c :: rest).take n ++ out, ph')
      else
        let (out, ph') := codeSpanGo orig fuel (pos + 1) ph
        (c :: out, ph')

/-- The code-span stage of `inlineToHTML`. -/
def codeSpanStage (text : Str) (ph : List Str) : Str × List Str :=
  codeSpanGo text (text.length + 1) 0 ph

/-! ## inline.ts : autolinks -/

/-- Match the URI-autolink body `[a-zA-Z][a-zA-Z0-9+.-]{1,31}:[^\s<>]*>`
after a consumed `<`; returns the capture and the remainder. -/
def uriAutolinkMatch (s : Str) : Option (Str × Str) :=
  match s with
  | c :: rest =>
    if isLetterJS c then
      let run := rest.takeWhile
        (fun d => isAlnumJS d ∨ d = '+' ∨ d = '.' ∨ d = '-')
      if 1 ≤ run.length ∧ run.length ≤ 31 then
        match rest.drop run.length with
        | ':' :: r2 =>
          let body := r2.takeWhile
            (fun d => ¬ isSpaceJS d ∧ d ≠ '<' ∧ d ≠ '>')
          match r2.drop body.length with
          | '>' :: tail => some (c :: run ++ ':' :: body, tail)
          | _ => none
        | _ => none
      else none
    else none
  | [] => none

/-- Match the email-autolink body `[^\s@<>\\]+@[^\s@<>\\]+>` after a
consumed `<`. -/
def emailAutolinkMatch (s : Str) : Option (Str × Str) :=
  let eok := fun (d : Char) =>
    ¬ isSpaceJS d ∧ d ≠ '@' ∧ d ≠ '<' ∧ d ≠ '>' ∧ d ≠ '\\'
  let local0 := s.takeWhile eok
  if local0.isEmpty then none
  else
    match s.drop local0.length with
    | '@' :: r2 =>
      let dom := r2.takeWhile eok
      if dom.isEmpty then none
      else
        match r2.drop dom.length with
        | '>' :: tail => some (local0 ++ '@' :: dom, tail)
        | _ => none
    | _ => none

/-- Scanner of the URI-autolink global replace. -/
def uriAutolinkGo : Nat → Str → List Str → Str × List Str
  | 0, s, ph => (s, ph)
  | _ + 1, [], ph => ([], ph)
  | fuel + 1, '<' :: rest, ph =>
    (match uriAutolinkMatch rest with
     | some (p1, tail) =>
       let href := encodeHref p1
       let repl := ('<':: 'a':: ' ':: 'h':: 'r':: 'e':: 'f':: '=':: '"'::[]) ++
         escapeHTML href ++ ('"':: '>'::[]) ++ escapeHTML p1 ++
         ('<':: '/':: 'a':: '>'::[])
       let (out, ph') := uriAutolinkGo fuel tail (ph ++ [repl])
       (mkToken (Char.ofNat 0) ph.length ++ out, ph')
     | none =>
       let (out, ph') := uriAutolinkGo fuel rest ph
       ('<' :: out, ph'))
  | fuel + 1, c :: rest, ph =>
    let (out, ph') := uriAutolinkGo fuel rest ph
    (c :: out, ph')

/-- Scanner of the email-autolink global replace. -/
def emailAutolinkGo : Nat → Str → List Str → Str × List Str
  | 0, s, ph => (s, ph)
  | _ + 1, [], ph => ([], ph)
  | fuel + 1, '<' :: rest, ph =>
    (match emailAutolinkMatch rest with
     | some (p1, tail) =>
       let repl := ('<':: 'a':: ' ':: 'h':: 'r':: 'e':: 'f':: '=':: '"':: 'm':: 'a':: 'i':: 'l':: 't':: 'o':: ':'::[]) ++
         escapeHTML p1 ++ ('"':: '>'::[]) ++ escapeHTML p1 ++
         ('<':: '/':: 'a':: '>'::[])
       let (out, ph') := emailAutolinkGo fuel tail (ph ++ [repl])
       (mkToken (Char.ofNat 0) ph.length ++ out, ph')
     | none =>
       let (out, ph') := emailAutolinkGo fuel rest ph
       ('<' :: out, ph'))
  | fuel + 1, c :: rest, ph =>
    let (out, ph') := emailAutolinkGo fuel rest ph
    (c :: out, ph')

/-! ## inline.ts : raw HTML scan -/

/-- The quote-tracking scan of the generic-tag case: returns the index
of the first `>` outside quotes at or after `i`. -/
def tagQuoteScan (text : Str) : Nat → Nat → Option Char → Option Nat
  | 0, _, _ => none
  | fuel + 1, i, quote =>
    match text.get? i with
    | none => none
    | some ch =>
      match quote with
      | some q =>
        if ch = q then tagQuoteScan text fuel (i + 1) none
        else tagQuoteScan text fuel (i + 1) (some q)
      | none =>
        if ch = '"' ∨ ch = '\x27' then tagQuoteScan text fuel (i + 1) (some ch)
        else if ch = '>' then some i
        else tagQuoteScan text fuel (i + 1) none

/-- The `isHtmlTag(candidate) && (lt === 0 || text[lt-1] not ( or \)`
token-or-literal choice of the raw-HTML scan. -/
def htmlTokenOrEmit (text : Str) (lt : Nat) (candidate : Str)
    (ph : List Str) : Str × List Str :=
  let prevOK : Bool :=
    decide (lt = 0) ||
      (match text.get? (lt - 1) with
       | some p => ! (p == '(' || p == '\\')
       | none => true)
  if isHtmlTag candidate ∧ prevOK then
    (mkToken (Char.ofNat 0) ph.length, ph ++ [candidate])
  else (candidate, ph)

/-- The imperative raw-HTML placeholder scan of `inlineToHTML` (the
`while (idx < text.length)` block), position-faithful. -/
def htmlScanGo (text : Str) : Nat → Nat → List Str → Str × List Str
  | 0, idx, ph => (text.drop idx, ph)
  | fuel + 1, idx, ph =>
    match idxOfFrom text '<' idx with
    | none => (text.drop idx, ph)
    | some lt =>
      let pre := (text.drop idx).take (lt - idx)
      let after := text.drop lt
      let step : Str × List Str × Nat :=
        if after.take 4 = ('<':: '!':: '-':: '-'::[]) then
          if after.take 5 = ('<':: '!':: '-':: '-':: '>'::[]) ∨
              after.take 6 = ('<':: '!':: '-':: '-':: '-':: '>'::[]) then
            let candidate :=
              if after.take 6 = ('<':: '!':: '-':: '-':: '-':: '>'::[]) then
                after.take 6
              else after.take 5
            let (o, p) := htmlTokenOrEmit text lt candidate ph
            (o, p, lt + candidate.length)
          else
            match subIdxFrom text ('-':: '-':: '>'::[]) (lt + 4) with
            | some e =>
              let candidate := (text.drop lt).take (e + 3 - lt)
              let (o, p) := htmlTokenOrEmit text lt candidate ph
              (o, p, e + 3)
            | none =>
              let candidate := text.drop lt
              let (o, p) := htmlTokenOrEmit text lt candidate ph
              (o, p, text.length)
        else if after.take 2 = ('<':: '?'::[]) then
          match subIdxFrom text ('?':: '>'::[]) (lt + 2) with
          | some e =>
            let candidate := (text.drop lt).take (e + 2 - lt)
            let (o, p) := htmlTokenOrEmit text lt candidate ph
            (o, p, e + 2)
          | none =>
            let candidate := text.drop lt
            let (o, p) := htmlTokenOrEmit text lt candidate ph
            (o, p, text.length)
        else if after.take 9 = ('<':: '!':: '[':: 'C':: 'D':: 'A':: 'T':: 'A':: '['::[]) then
          match subIdxFrom text (']':: ']':: '>'::[]) (lt + 9) with
          | some e =>
            let candidate := (text.drop lt).take (e + 3 - lt)
            let (o, p) := htmlTokenOrEmit text lt candidate ph
            (o, p, e + 3)
          | none =>
            let candidate := text.drop lt
            let (o, p) := htmlTokenOrEmit text lt candidate ph
            (o, p, text.length)
        else if after.take 2 = ('<':: '!'::[]) then
          match idxOfFrom text '>' (lt + 2) with
          | some e =>
            let candidate := (text.drop lt).take (e + 1 - lt)
            let (o, p) := htmlTokenOrEmit text lt candidate ph
            (o, p, e + 1)
          | none =>
            let candidate := text.drop lt
            let (o, p) := htmlTokenOrEmit text lt candidate ph
            (o, p, text.length)
        else
          match tagQuoteScan text (text.length + 1) (lt + 1) none with
          | some i =>
            let candidate := (text.drop lt).take (i + 1 - lt)
            let (o, p) := htmlTokenOrEmit text lt candidate ph
            (o, p, i + 1)
          | none => (text.drop lt, ph, text.length)
      let (emitted, ph', idx') := step
      if idx' ≥ text.length then (pre ++ emitted, ph')
      else
        let (out, ph2) := htmlScanGo text fuel idx' ph'
        (pre ++ emitted ++ out, ph2)

/-- The raw-HTML stage of `inlineToHTML`. -/
def htmlScanStage (text : Str) (ph : List Str) : Str × List Str :=
  htmlScanGo text (text.length + 1) 0 ph

/-! ## inline.ts : escapes and character references -/

/-- The backslash-escape placeholder stage
(`\\([ASCII punctuation])` → `\u0001`-token). -/
def escapesStage : Str → List Str → Str × List Str
  | [], ph => ([], ph)
  | ['\\'], ph => (['\\'], ph)
  | '\\' :: c :: rest, ph =>
    if isAsciiPunct c then
      let tok := mkToken (Char.ofNat 1) ph.length
      let (out, ph') := escapesStage rest (ph ++ [escapeHTML [c]])
      (tok ++ out, ph')
    else
      let (out, ph') := escapesStage (c :: rest) ph
      ('\\' :: out, ph')
  | c :: rest, ph =>
    let (out, ph') := escapesStage rest ph
    (c :: out, ph')

/-- The character-reference placeholder stage (`\u0003`-tokens holding
`escapeHTML(decodeEntities(match))`). -/
def entitiesStage : Nat → Str → List Str → Str × List Str
  | 0, s, ph => (s, ph)
  | _ + 1, [], ph => ([], ph)
  | fuel + 1, '&' :: rest, ph =>
    (match entityBodyMatch rest with
     | some (body, tail) =>
       let tok := mkToken (Char.ofNat 3) ph.length
       let stored := escapeHTML (decodeEntities ('&' :: body ++ [';']))
       let (out, ph') := entitiesStage fuel tail (ph ++ [stored])
       (tok ++ out, ph')
     | none =>
       let (out, ph') := entitiesStage fuel rest ph
       ('&' :: out, ph'))
  | fuel + 1, c :: rest, ph =>
    let (out, ph') := entitiesStage fuel rest ph
    (c :: out, ph')

/-- `restoreEscapes` from `inlineToHTML`. -/
def restoreEscapes (ph : List Str) (s : Str) : Str :=
  tokenRestore (Char.ofNat 1) ph s

/-- `restoreEscapesForKey` from `inlineToHTML`. -/
def restoreEscapesForKey (ph : List Str) (s : Str) : Str :=
  tokenRestoreGo (Char.ofNat 1)
    (fun i => '\\' :: decodeEntities (phGet ph i)) (s.length + 1) s

/-- `restoreEntities` from `inlineToHTML`. -/
def restoreEntities (ph : List Str) (s : Str) : Str :=
  tokenRestore (Char.ofNat 3) ph s

/-! ## inline.ts : the emphasis engine -/

/-- The delimiter record of `applyEmphasisOnce`.  `idx` is the token
index recorded at tokenization time; the source never refreshes it
after `splice` insertions, and the embedding reproduces that. -/
structure EDelim where
  char : Char
  count : Nat
  canOpen : Bool
  canClose : Bool
  idx : Nat

/-- One token of `applyEmphasisOnce`. -/
structure ETok where
  text : Str
  delim : Option EDelim

/-- `isWhitespace` of `applyEmphasisOnce` (`''` counts as whitespace). -/
def isWhitespaceE : Option Char → Bool
  | none => true
  | some c => isSpaceJS c

/-- `isPunctuation` of `applyEmphasisOnce`: `<` and `>` excluded, then
the Unicode class `[\p{P}\p{S}]`, which on the ASCII range this
development exercises coincides with ASCII punctuation. -/
def isPunctuationE : Option Char → Bool
  | none => false
  | some c => if c = '<' ∨ c = '>' then false else isAsciiPunct c

/-- Tokenizer of `applyEmphasisOnce`: maximal `*`/`_` runs become
delimiter tokens with CommonMark open/close flags, other chars become
single-char tokens. -/
def emphTokenize : Nat → Str → Option Char → Nat → List ETok
  | 0, _, _, _ => []
  | _ + 1, [], _, _ => []
  | fuel + 1, c :: rest, prev, tokCount =>
    if c = '*' ∨ c = '_' then
      let run := (c :: rest).takeWhile (fun d => d = c)
      let remainder := (c :: rest).drop run.length
      let next := remainder.head?
      let lf : Bool := ! isWhitespaceE next && (! isPunctuationE next ||
        isWhitespaceE prev || isPunctuationE prev)
      let rf : Bool := ! isWhitespaceE prev && (! isPunctuationE prev ||
        isWhitespaceE next || isPunctuationE next)
      let (canOpen, canClose) :=
        if c = '*' then (lf, rf)
        else (lf && (! rf || isPunctuationE prev),
              rf && (! lf || isPunctuationE next))
      { text := run,
        delim := some ⟨c, run.length, canOpen, canClose, tokCount⟩ } ::
        emphTokenize fuel remainder (some c) (tokCount + 1)
    else
      { text := [c], delim := none } ::
        emphTokenize fuel rest (some c) (tokCount + 1)

/-- Find the delimiter with a given recorded `idx` (the object identity
of the source's delimiter references). -/
def findDelimToken (tokens : List ETok) (id : Nat) : Option EDelim :=
  tokens.findSome? fun t =>
    match t.delim with
    | some d => if d.idx = id then some d else none
    | none => none

/-- Apply `f` to the element at position `pos`. -/
def modifyAt (tokens : List ETok) (pos : Nat) (f : ETok → ETok) :
    List ETok :=
  match tokens.get? pos with
  | some t => tokens.set pos (f t)
  | none => tokens

/-- Insert an element so that it lands at position `pos`
(`splice(pos, 0, x)`). -/
def insertAt : List ETok → Nat → ETok → List ETok
  | l, 0, x => x :: l
  | [], _ + 1, x => [x]
  | h :: t, pos + 1, x => h :: insertAt t pos x

/-- The rule-15 invalidation loop: delimiters at positions in
`[lo, hi)` lose `canOpen`/`canClose`. -/
def invalidateRange (tokens : List ETok) (lo hi : Nat) : List ETok :=
  (tokens.enum.map fun (k, t) =>
    if lo ≤ k ∧ k < hi then
      match t.delim with
      | some d => { t with delim := some { d with canOpen := false, canClose := false } }
      | none => t
    else t)

/-- Update the delimiter with recorded index `id`. -/
def updDelimById (tokens : List ETok) (id : Nat) (f : EDelim → EDelim) :
    List ETok :=
  tokens.map fun t =>
    match t.delim with
    | some d => if d.idx = id then { t with delim := some (f d) } else t
    | none => t

/-- The opener search of `applyEmphasisOnce`: scan the stack from the
top for a matching opener, skipping by the rule-of-threes condition.
The stack holds recorded delimiter indices, most recent first. -/
def findOpener (tokens : List ETok) (d : EDelim) :
    List Nat → Nat → Option (Nat × Nat)
  | [], _ => none
  | id :: more, j =>
    match findDelimToken tokens id with
    | some op =>
      if op.char = d.char ∧ op.canOpen ∧
          ¬ ((op.canClose ∨ d.canOpen) ∧ (op.count + d.count) % 3 = 0 ∧
             (op.count % 3 ≠ 0 ∨ d.count % 3 ≠ 0)) then
        some (j, id)
      else findOpener tokens d more (j + 1)
    | none => findOpener tokens d more (j + 1)

/-- Main pairing loop of `applyEmphasisOnce`.  Mutations of the shared
delimiter objects are modelled by lookups/updates keyed on the recorded
`idx`; positional writes (`tokens[opener.idx]`, the two `splice`
insertions) use the recorded — possibly stale — `idx` exactly as the
source does. -/
def emphLoop : Nat → List ETok → List Nat → Nat → List ETok
  | 0, tokens, _, _ => tokens
  | fuel + 1, tokens, stack, pos =>
    match tokens.get? pos with
    | none => tokens
    | some t =>
      match t.delim with
      | none => emphLoop fuel tokens stack (pos + 1)
      | some d =>
        match (if d.canClose then findOpener tokens d stack 0 else none) with
        | some (j, id) =>
          match findDelimToken tokens id with
          | some opener =>
            let stack' := stack.drop (j + 1)
            let tokens1 := invalidateRange tokens (opener.idx + 1) pos
            let useStrong := if 2 ≤ d.count ∧ 2 ≤ opener.count then 2 else 1
            let openerCount := opener.count - useStrong
            let dCount := d.count - useStrong
            let tokens2 := updDelimById tokens1 id
              (fun o => { o with count := openerCount })
            let tokens3 := modifyAt tokens2 pos fun tk =>
              { tk with delim := tk.delim.map fun o => { o with count := dCount } }
            let tag := if useStrong = 2 then "<strong>".data else "<em>".data
            let ctag := if useStrong = 2 then "</strong>".data else "</em>".data
            let tokens4 := modifyAt tokens3 opener.idx fun tk => { tk with text := tag }
            let tokens5 := modifyAt tokens4 pos fun tk => { tk with text := ctag }
            let (tokens6, pos1) :=
              if 0 < openerCount then
                (insertAt tokens5 opener.idx
                  { text := List.replicate openerCount opener.char,
                    delim := none }, pos + 1)
              else (tokens5, pos)
            let (tokens7, pos2) :=
              if 0 < dCount then
                (insertAt tokens6 (pos1 + 1)
                  { text := List.replicate dCount d.char, delim := none },
                 pos1 + 1)
              else (tokens6, pos1)
            emphLoop fuel tokens7 stack' (pos2 + 1)
          | none => emphLoop fuel tokens stack (pos + 1)
        | none =>
          if d.canOpen then emphLoop fuel tokens (d.idx :: stack) (pos + 1)
          else emphLoop fuel tokens stack (pos + 1)

/-- Embeds `applyEmphasisOnce` from `inline.ts`. -/
def applyEmphasisOnce (text : Str) : Str :=
  let tokens := emphTokenize (text.length + 1) text none 0
  joinAll ((emphLoop (2 * tokens.length + 4) tokens [] 0).map ETok.text)

/-- Mask `*`/`_` chars as `\u0004`-tokens (the segment callback of
`applyEmphasis`). -/
def maskStars : Str → List Str → Str × List Str
  | [], ph => ([], ph)
  | c :: rest, ph =>
    if c = '*' ∨ c = '_' then
      let tok := mkToken (Char.ofNat 4) ph.length
      let (out, ph') := maskStars rest (ph ++ [[c]])
      (tok ++ out, ph')
    else
      let (out, ph') := maskStars rest ph
      (c :: out, ph')

/-- Find the earliest `</em>` or `</strong>` at or after the scan
position; returns (offset, length). -/
def findEmCloser : Nat → Str → Option (Nat × Nat)
  | 0, _ => none
  | _ + 1, [] => none
  | fuel + 1, s@(_ :: rest) =>
    if ('<':: '/':: 'e':: 'm':: '>'::[]).isPrefixOf s then some (0, 5)
    else if ('<':: '/':: 's':: 't':: 'r':: 'o':: 'n':: 'g':: '>'::[]).isPrefixOf s then
      some (0, 9)
    else
      match findEmCloser fuel rest with
      | some (k, len) => some (k + 1, len)
      | none => none

/-- Scanner of the masking replace
`/<(?:em|strong)>[\s\S]*?<\/(?:em|strong)>/g` of `applyEmphasis`. -/
def emphMaskGo : Nat → Str → List Str → Str × List Str
  | 0, s, ph => (s, ph)
  | _ + 1, [], ph => ([], ph)
  | fuel + 1, s@(c :: rest), ph =>
    let opener? : Option Nat :=
      if ('<':: 'e':: 'm':: '>'::[]).isPrefixOf s then some 4
      else if ('<':: 's':: 't':: 'r':: 'o':: 'n':: 'g':: '>'::[]).isPrefixOf s then
        some 8
      else none
    match opener? with
    | some oLen =>
      (match findEmCloser (s.length + 1) (s.drop oLen) with
       | some (off, cLen) =>
         let segLen := oLen + off + cLen
         let seg := s.take segLen
         let (masked, ph1) := maskStars seg ph
         let (out, ph') := emphMaskGo fuel (s.drop segLen) ph1
         (masked ++ out, ph')
       | none =>
         let (out, ph') := emphMaskGo fuel (s.drop oLen) ph
         (s.take oLen ++ out, ph'))
    | none =>
      let (out, ph') := emphMaskGo fuel rest ph
      (c :: out, ph')

/-- One pass of the fixed-point loop of `applyEmphasis`: mask delimiter
chars inside already-produced em/strong spans, run
`applyEmphasisOnce`, then restore the masked chars. -/
def emphasisPass (s : Str) : Str :=
  let (masked, ph) := emphMaskGo (s.length + 1) s []
  tokenRestore (Char.ofNat 4) ph (applyEmphasisOnce masked)

/-- The `while (curr !== prev)` loop of `applyEmphasis`, fuel-indexed:
stop at the first pass whose output equals its input.  The source loop
is unbounded; the fuel bounds the number of passes examined, and the
concrete evaluations below all reach their fixed point well within it. -/
def applyEmphasisGo : Nat → Str → Str
  | 0, curr => curr
  | fuel + 1, curr =>
    let nxt := emphasisPass curr
    if nxt = curr then curr else applyEmphasisGo fuel nxt

/-- Embeds `applyEmphasis` from `inline.ts` (fuel-bounded iteration of
`emphasisPass`). -/
def applyEmphasis (text : Str) : Str :=
  applyEmphasisGo (text.length + 1) text

/-! ## inline.ts : links and images -/

/-- The bracket-depth scan of `processDirect`/`processReference`
(backslash skips the next char); returns the stop index and the final
depth. -/
def bracketScanGo (str : Str) : Nat → Nat → Nat → Nat × Nat
  | 0, j, depth => (j, depth)
  | fuel + 1, j, depth =>
    match str.get? j with
    | none => (j, depth)
    | some ch =>
      if ch = '\\' then bracketScanGo str fuel (j + 2) depth
      else if ch = '[' then bracketScanGo str fuel (j + 1) (depth + 1)
      else if ch = ']' then
        if depth = 1 then (j, 0)
        else bracketScanGo str fuel (j + 1) (depth - 1)
      else bracketScanGo str fuel (j + 1) depth

/-- The parenthesis scan of `processDirect` with angle-bracket
suspension; returns the stop index and the final paren depth. -/
def parenScanGo (str : Str) : Nat → Nat → Nat → Nat → Nat × Nat
  | 0, k, pd, _ => (k, pd)
  | fuel + 1, k, pd, angle =>
    match str.get? k with
    | none => (k, pd)
    | some ch =>
      if ch = '\\' then parenScanGo str fuel (k + 2) pd angle
      else if ch = '<' then parenScanGo str fuel (k + 1) pd (angle + 1)
      else if ch = '>' ∧ 0 < angle then
        parenScanGo str fuel (k + 1) pd (angle - 1)
      else if ch = '(' ∧ angle = 0 then
        parenScanGo str fuel (k + 1) (pd + 1) angle
      else if ch = ')' ∧ angle = 0 then
        if pd = 1 then (k, 0)
        else parenScanGo str fuel (k + 1) (pd - 1) angle
      else parenScanGo str fuel (k + 1) pd angle

/-- The label-close scan of `processReference` (`while … if ']' break`). -/
def labelCloseScan (str : Str) : Nat → Nat → Nat
  | 0, l => l
  | fuel + 1, l =>
    match str.get? l with
    | none => l
    | some ch =>
      if ch = '\\' then labelCloseScan str fuel (l + 2)
      else if ch = ']' then l
      else labelCloseScan str fuel (l + 1)

/-- The inline destination+title pattern of `processDirect`
`^[ \t\n]*(<[^>\n]*>|[^ \t\n<>]+)(?:[ \t\n]+("…"|'…'|(…)))?[ \t\n]*$`;
an empty title capture is reported as `none`, matching the source's
`m[2] || m[3] || m[4]` use. -/
def linkDestTitleMatch (inside : Str) : Option (Str × Option Str) :=
  let wsL := fun (c : Char) => c = ' ' ∨ c = '\t' ∨ c = '\n'
  let s := inside.dropWhile wsL
  let dest? : Option (Str × Str) :=
    match s with
    | '<' :: t =>
      let mid := t.takeWhile (fun c => c ≠ '>' ∧ c ≠ '\n')
      match t.drop mid.length with
      | '>' :: rest => some ('<' :: mid ++ ['>'], rest)
      | _ => none
    | _ =>
      let d := s.takeWhile (fun c => ¬ wsL c ∧ c ≠ '<' ∧ c ≠ '>')
      if d.isEmpty then none else some (d, s.drop d.length)
  match dest? with
  | none => none
  | some (dest, rest) =>
    if rest.all (fun c => wsL c) then some (dest, none)
    else
      let ws := rest.takeWhile wsL
      if ws.isEmpty then none
      else
        let afterWS := rest.drop ws.length
        let quoted? : Option (Str × Str) :=
          match afterWS with
          | '"' :: t => quotedScan '"' t
          | '\x27' :: t => quotedScan '\x27' t
          | '(' :: t => quotedScan ')' t
          | _ => none
        match quoted? with
        | some (content, rest2) =>
          if rest2.all (fun c => wsL c) then
            some (dest, if content.isEmpty then none else some content)
          else none
        | none => none

/-- Test `/(^|[^!])\[[^\]]*\]\(/` (`hasNested` of `processDirect`). -/
def nestedDirectGo (prev : Option Char) : Str → Bool
  | [] => false
  | '[' :: rest =>
    ((match prev with
      | none => true
      | some p => p != '!') &&
     (let run := rest.takeWhile (fun c => c ≠ ']')
      (rest.drop run.length).take 2 == (']':: '('::[]))) ||
    nestedDirectGo (some '[') rest
  | c :: rest => nestedDirectGo (some c) rest

/-- Test `/(^|[^!])\[[^\]]*\]\(|(^|[^!])\[[^\]]*\]\[/`
(`hasNested` of `processReference`). -/
def nestedRefGo (prev : Option Char) : Str → Bool
  | [] => false
  | '[' :: rest =>
    ((match prev with
      | none => true
      | some p => p != '!') &&
     (let run := rest.takeWhile (fun c => c ≠ ']')
      let tail := (rest.drop run.length).take 2
      tail == (']':: '('::[]) || tail == (']':: '['::[]))) ||
    nestedRefGo (some '[') rest
  | c :: rest => nestedRefGo (some c) rest

/-- Collect the indices of all `\u0000(\d+)\u0000` tokens
(`matchAll` in `processReference`). -/
def collectTok0 : Nat → Str → List Nat
  | 0, _ => []
  | _ + 1, [] => []
  | fuel + 1, c :: rest =>
    if c = Char.ofNat 0 then
      let digits := rest.takeWhile isDigitJS
      if digits.isEmpty then collectTok0 fuel rest
      else
        match rest.drop digits.length with
        | d :: tail =>
          if d = Char.ofNat 0 then
            parseDecimal digits :: collectTok0 fuel tail
          else collectTok0 fuel rest
        | [] => collectTok0 fuel rest
    else collectTok0 fuel rest

/-- The placeholder-based nesting check of `processReference`: some
referenced placeholder is a string starting with `<a `. -/
def placeholderNested (ph : List Str) (textContent : Str) : Bool :=
  (collectTok0 (textContent.length + 1) textContent).any fun i =>
    match ph.get? i with
    | some p => p.take 3 = ('<':: 'a':: ' '::[])
    | none => false

/-- The `replace(/^<|>$/g, '')` of the direct-link destination. -/
def stripAngles (s : Str) : Str :=
  let s1 := if s.take 1 = ['<'] then s.drop 1 else s
  if s1.getLast? = some '>' then s1.dropLast else s1

/-- The `replace(/<img[^>]*alt="([^"]*)"[^>]*>/g, '$1')` pass applied to
rendered image alt text.  For a match starting `<img`, the regex's
greedy backtracking selects the last `alt="` before the first `>`. -/
def lastAltContent (mid : Str) : Option Str :=
  let rec go : Str → Option Str
    | [] => none
    | s@(_ :: rest) =>
      match go rest with
      | some r => some r
      | none =>
        if ('a':: 'l':: 't':: '=':: '"'::[]).isPrefixOf s then
          let content := (s.drop 5).takeWhile (fun c => c ≠ '"')
          if ((s.drop 5).drop content.length).take 1 = ['"'] then
            some content
          else none
        else none
  go mid

/-- Scanner of the img-alt extraction replace. -/
def imgAltGo : Nat → Str → Str
  | 0, s => s
  | _ + 1, [] => []
  | fuel + 1, s@(c :: rest) =>
    if ('<':: 'i':: 'm':: 'g'::[]).isPrefixOf s then
      let afterImg := s.drop 4
      let mid := afterImg.takeWhile (fun d => d ≠ '>')
      match afterImg.drop mid.length with
      | '>' :: tail =>
        match lastAltContent mid with
        | some content => content ++ imgAltGo fuel tail
        | none => c :: imgAltGo fuel rest
      | _ => c :: imgAltGo fuel rest
    else c :: imgAltGo fuel rest

/-- The `replace(/<[^>]*>/g, '')` tag-stripping pass. -/
def stripTagsGo : Nat → Str → Str
  | 0, s => s
  | _ + 1, [] => []
  | fuel + 1, '<' :: rest =>
    let mid := rest.takeWhile (fun d => d ≠ '>')
    (match rest.drop mid.length with
     | '>' :: tail => stripTagsGo fuel tail
     | _ => '<' :: stripTagsGo fuel rest)
  | fuel + 1, c :: rest => c :: stripTagsGo fuel rest

/-- Image-rendering step shared by `processDirect` and
`processReference`: the alt text is the recursively rendered bracket
content with img tags reduced to their alt and all other tags
stripped. -/
def imgAltPlain (inlFresh : Str → Str) (textContent : Str) : Str :=
  let altProcessed := imgAltGo (10 * (inlFresh textContent).length + 10)
    (inlFresh textContent)
  stripTagsGo (altProcessed.length + 1) altProcessed

/-- Embeds `processDirect` of `inlineToHTML`.  `inlFresh` renders with a
fresh placeholder list (images), `inlShared` renders sharing the
current placeholder list (link text). -/
def processDirect (inlFresh : Str → Str)
    (inlShared : Str → List Str → Str × List Str) (str : Str) :
    Nat → Nat → List Str → Str × List Str
  | 0, _, ph => ([], ph)
  | fuel + 1, i, ph =>
    match str.get? i with
    | none => ([], ph)
    | some ci =>
      let isImage := ci = '!' ∧ str.get? (i + 1) = some '['
      let fallback : Str × List Str :=
        let (out, ph') := processDirect inlFresh inlShared str fuel (i + 1) ph
        (ci :: out, ph')
      if isImage ∨ ci = '[' then
        let start := if isImage then i + 1 else i
        let (j, depth) := bracketScanGo str (str.length + 2) (start + 1) 1
        if depth = 0 ∧ str.get? (j + 1) = some '(' then
          let (k, pd) := parenScanGo str (str.length + 2) (j + 2) 1 0
          if pd = 0 then
            let textContent := (str.drop (start + 1)).take (j - (start + 1))
            let inside := (str.drop (j + 2)).take (k - (j + 2))
            let m := linkDestTitleMatch inside
            let hasNested := nestedDirectGo none textContent
            match m with
            | some (destRaw, title) =>
              if ¬ hasNested ∨ isImage then
                let hrefRaw := restoreEntities ph (restoreEscapes ph destRaw)
                let url := encodeHref
                  (decodeEntities (unescapeMd (stripAngles hrefRaw)))
                if isImage then
                  let altPlain := imgAltPlain inlFresh textContent
                  let titlePart : Str :=
                    match title with
                    | some tt =>
                      (' ':: 't':: 'i':: 't':: 'l':: 'e':: '=':: '"'::[]) ++
                      escapeHTML (decodeEntities (unescapeMd
                        (restoreEntities ph (restoreEscapes ph tt)))) ++ ['"']
                    | none => []
                  let html :=
                    ('<':: 'i':: 'm':: 'g':: ' ':: 's':: 'r':: 'c':: '=':: '"'::[]) ++
                    url ++ ('"':: ' ':: 'a':: 'l':: 't':: '=':: '"'::[]) ++
                    escapeHTML altPlain ++ ['"'] ++ titlePart ++
                    (' ':: '/':: '>'::[])
                  let tok := mkToken (Char.ofNat 0) ph.length
                  let (out, ph') := processDirect inlFresh inlShared str fuel
                    (k + 1) (ph ++ [html])
                  (tok ++ out, ph')
                else
                  let (inner, ph1) := inlShared textContent ph
                  let titleAttr : Str :=
                    match title with
                    | some tt =>
                      (' ':: 't':: 'i':: 't':: 'l':: 'e':: '=':: '"'::[]) ++
                      escapeHTML (decodeEntities (unescapeMd
                        (restoreEntities ph (restoreEscapes ph tt)))) ++ ['"']
                    | none => []
                  let html :=
                    ('<':: 'a':: ' ':: 'h':: 'r':: 'e':: 'f':: '=':: '"'::[]) ++ url ++
                    ['"'] ++ titleAttr ++ ['>'] ++ inner ++
                    ('<':: '/':: 'a':: '>'::[])
                  let tok := mkToken (Char.ofNat 0) ph1.length
                  let (out, ph') := processDirect inlFresh inlShared str fuel
                    (k + 1) (ph1 ++ [html])
                  (tok ++ out, ph')
              else fallback
            | none => fallback
          else fallback
        else fallback
      else fallback

/-- Embeds `processReference` of `inlineToHTML`. -/
def processReference (inlFresh : Str → Str)
    (inlShared : Str → List Str → Str × List Str) (refs : RefMap)
    (str : Str) : Nat → Nat → List Str → Str × List Str
  | 0, _, ph => ([], ph)
  | fuel + 1, i, ph =>
    match str.get? i with
    | none => ([], ph)
    | some ci =>
      let isImage := ci = '!' ∧ str.get? (i + 1) = some '['
      let fallback : Str × List Str :=
        let (out, ph') := processReference inlFresh inlShared refs str fuel
          (i + 1) ph
        (ci :: out, ph')
      if isImage ∨ ci = '[' then
        let start := if isImage then i + 1 else i
        let (j, depth) := bracketScanGo str (str.length + 2) (start + 1) 1
        if depth = 0 then
          let textContent := (str.drop (start + 1)).take (j - (start + 1))
          let mkImg (def0 : RefDef) : Str :=
            let altPlain := imgAltPlain inlFresh textContent
            let titlePart : Str :=
              match def0.title with
              | some tt =>
                if tt.isEmpty then []
                else (' ':: 't':: 'i':: 't':: 'l':: 'e':: '=':: '"'::[]) ++
                  escapeHTML tt ++ ['"']
              | none => []
            ('<':: 'i':: 'm':: 'g':: ' ':: 's':: 'r':: 'c':: '=':: '"'::[]) ++
            encodeHref def0.url ++
            ('"':: ' ':: 'a':: 'l':: 't':: '=':: '"'::[]) ++
            escapeHTML altPlain ++ ['"'] ++ titlePart ++ (' ':: '/':: '>'::[])
          let refNested : Bool :=
            nestedRefGo none textContent ∨ placeholderNested ph textContent
          let mkLink (def0 : RefDef) (phIn : List Str) :
              Str × List Str :=
            let (inner, ph1) := inlShared textContent phIn
            let titleAttr : Str :=
              match def0.title with
              | some tt =>
                if tt.isEmpty then []
                else (' ':: 't':: 'i':: 't':: 'l':: 'e':: '=':: '"'::[]) ++
                  escapeHTML (decodeEntities (unescapeMd tt)) ++ ['"']
              | none => []
            let href := encodeHref (decodeEntities (unescapeMd def0.url))
            (('<':: 'a':: ' ':: 'h':: 'r':: 'e':: 'f':: '=':: '"'::[]) ++ href ++
              ['"'] ++ titleAttr ++ ['>'] ++ inner ++
              ('<':: '/':: 'a':: '>'::[]),
             ph1)
          if str.get? (j + 1) = some '[' then
            let l := labelCloseScan str (str.length + 2) (j + 2)
            if str.get? l = some ']' then
              let labelRaw := (str.drop (j + 2)).take (l - (j + 2))
              let key := normalizeLabel (restoreEntities ph
                (restoreEscapesForKey ph
                  (if labelRaw.isEmpty then textContent else labelRaw)))
              match refGet refs key with
              | some def0 =>
                if isImage then
                  let tok := mkToken (Char.ofNat 0) ph.length
                  let (out, ph') := processReference inlFresh inlShared refs
                    str fuel (l + 1) (ph ++ [mkImg def0])
                  (tok ++ out, ph')
                else if refNested then fallback
                else
                  let (html, ph1) := mkLink def0 ph
                  let tok := mkToken (Char.ofNat 0) ph1.length
                  let (out, ph') := processReference inlFresh inlShared refs
                    str fuel (l + 1) (ph1 ++ [html])
                  (tok ++ out, ph')
              | none => fallback
            else fallback
          else
            let key := normalizeLabel (restoreEntities ph
              (restoreEscapesForKey ph textContent))
            match refGet refs key with
            | some def0 =>
              if isImage then
                let tok := mkToken (Char.ofNat 0) ph.length
                let (out, ph') := processReference inlFresh inlShared refs
                  str fuel (j + 1) (ph ++ [mkImg def0])
                (tok ++ out, ph')
              else if refNested then fallback
              else
                let (html, ph1) := mkLink def0 ph
                let tok := mkToken (Char.ofNat 0) ph1.length
                let (out, ph') := processReference inlFresh inlShared refs
                  str fuel (j + 1) (ph1 ++ [html])
                (tok ++ out, ph')
            | none => fallback
        else fallback
      else fallback

/-- Scanner of the empty-destination link replace `\[([^\]]*)\]\(\)`. -/
def emptyDestGo (inlShared : Str → List Str → Str × List Str) :
    Nat → Str → List Str → Str × List Str
  | 0, s, ph => (s, ph)
  | _ + 1, [], ph => ([], ph)
  | fuel + 1, '[' :: rest, ph =>
    let content := rest.takeWhile (fun c => c ≠ ']')
    let after := rest.drop content.length
    if after.take 3 = (']':: '(':: ')'::[]) then
      let (inner, ph1) := inlShared content ph
      let html := ('<':: 'a':: ' ':: 'h':: 'r':: 'e':: 'f':: '=':: '"':: '"':: '>'::[]) ++
        inner ++ ('<':: '/':: 'a':: '>'::[])
      let tok := mkToken (Char.ofNat 0) ph1.length
      let (out, ph') := emptyDestGo inlShared fuel (after.drop 3) (ph1 ++ [html])
      (tok ++ out, ph')
    else
      let (out, ph') := emptyDestGo inlShared fuel rest ph
      ('[' :: out, ph')
  | fuel + 1, c :: rest, ph =>
    let (out, ph') := emptyDestGo inlShared fuel rest ph
    (c :: out, ph')

/-- Scanner of the `\((<[^>]+>)/g` raw-tag-in-parens replace. -/
def parenHtmlGo : Nat → Str → List Str → Str × List Str
  | 0, s, ph => (s, ph)
  | _ + 1, [], ph => ([], ph)
  | fuel + 1, '(' :: '<' :: rest, ph =>
    let mid := rest.takeWhile (fun c => c ≠ '>')
    (if 1 ≤ mid.length ∧ (rest.drop mid.length).take 1 = ['>'] then
      let tag := '<' :: mid ++ ['>']
      let tail := rest.drop (mid.length + 1)
      if isHtmlTag tag then
        let tok := mkToken (Char.ofNat 0) ph.length
        let (out, ph') := parenHtmlGo fuel tail (ph ++ [tag])
        ('(' :: tok ++ out, ph')
      else
        let (out, ph') := parenHtmlGo fuel tail ph
        ('(' :: tag ++ out, ph')
    else
      let (out, ph') := parenHtmlGo fuel ('<' :: rest) ph
      ('(' :: out, ph'))
  | fuel + 1, c :: rest, ph =>
    let (out, ph') := parenHtmlGo fuel rest ph
    (c :: out, ph')

/-! ## inline.ts : line breaks and assembly -/

/-- The `replace(/\\\n/g, '<br />\n')` pass. -/
def backslashNL : Str → Str
  | '\\' :: '\n' :: rest =>
    ('<':: 'b':: 'r':: ' ':: '/':: '>':: '\n'::[]) ++ backslashNL rest
  | c :: rest => c :: backslashNL rest
  | [] => []

/-- Lookahead of the emphasis-trim replace: an `<em>` or `<strong>`
opening follows. -/
def emTagFollows (s : Str) : Bool :=
  ('<':: 'e':: 'm':: '>'::[]).isPrefixOf s ∨
  ('<':: 's':: 't':: 'r':: 'o':: 'n':: 'g':: '>'::[]).isPrefixOf s

/-- Scanner of `replace(/(^|\n)\s+(?=<(?:em|strong)>)/g, '$1')`.  The
flag marks a position right after `^` or an emitted `\n`. -/
def trimBeforeEmGo : Nat → Bool → Str → Str
  | 0, _, s => s
  | _ + 1, _, [] => []
  | fuel + 1, atStart, s@(c :: rest) =>
    if atStart then
      let ws := s.takeWhile isSpaceJS
      if ¬ ws.isEmpty ∧ emTagFollows (s.drop ws.length) then
        trimBeforeEmGo fuel false (s.drop ws.length)
      else c :: trimBeforeEmGo fuel (c = '\n') rest
    else c :: trimBeforeEmGo fuel (c = '\n') rest

/-- Scanner of `replace(/ {2,}\n(?!$)/g, '<br />\n')`. -/
def brSpacesGo : Nat → Str → Str
  | 0, s => s
  | _ + 1, [] => []
  | fuel + 1, s@(c :: _) =>
    if c = ' ' then
      let run := s.takeWhile (fun d => d = ' ')
      let rest := s.drop run.length
      if 2 ≤ run.length ∧ rest.take 1 = ['\n'] ∧ rest.drop 1 ≠ [] then
        ('<':: 'b':: 'r':: ' ':: '/':: '>':: '\n'::[]) ++
          brSpacesGo fuel (rest.drop 1)
      else run ++ brSpacesGo fuel rest
    else c :: brSpacesGo fuel (s.drop 1)

/-- Scanner of `replace(/ +(?=\n)/g, '')`. -/
def spacesBeforeNLGo : Nat → Str → Str
  | 0, s => s
  | _ + 1, [] => []
  | fuel + 1, s@(c :: _) =>
    if c = ' ' then
      let run := s.takeWhile (fun d => d = ' ')
      let rest := s.drop run.length
      if rest.take 1 = ['\n'] then spacesBeforeNLGo fuel rest
      else run ++ spacesBeforeNLGo fuel rest
    else c :: spacesBeforeNLGo fuel (s.drop 1)

/-- The `replace(/ +$/g, '')` pass. -/
def trailingSpaceStrip (s : Str) : Str :=
  (s.reverse.dropWhile (fun c => c = ' ')).reverse

/-- One round of the final placeholder-restoration loop (the four
sentinel replaces in order). -/
def restoreAll (ph : List Str) (s : Str) : Str :=
  tokenRestore (Char.ofNat 3) ph
    (tokenRestore (Char.ofNat 2) ph
      (tokenRestore (Char.ofNat 1) ph
        (tokenRestore (Char.ofNat 0) ph s)))

/-- The remaining-placeholder test of the restoration loop. -/
def hasAnyTok (s : Str) : Bool :=
  hasTokenOf (Char.ofNat 0) s ∨ hasTokenOf (Char.ofNat 1) s ∨
  hasTokenOf (Char.ofNat 2) s ∨ hasTokenOf (Char.ofNat 3) s

/-- The bounded (3-iteration) restoration loop of `inlineToHTML`. -/
def restoreLoop (ph : List Str) : Nat → Str → Str
  | 0, s => s
  | n + 1, s =>
    let s' := restoreAll ph s
    if ¬ hasAnyTok s' then s' else restoreLoop ph n s'

/-- Embeds `inlineToHTML` from `inline.ts`.  The fuel bounds the
recursion depth through link/image text (bracket nesting), and is
chosen at call sites as the text length plus one, which dominates it. -/
def inlineToHTML : Nat → Str → Option RefMap → List Str → Str × List Str
  | 0, text, _, ph => (text, ph)
  | fuel + 1, text, refs, ph =>
    let (t1, ph1) := codeSpanStage text ph
    let (t2, ph2) := uriAutolinkGo (t1.length + 1) t1 ph1
    let (t3, ph3) := emailAutolinkGo (t2.length + 1) t2 ph2
    let (t4, ph4) := htmlScanStage t3 ph3
    let (t5, ph5) := escapesStage t4 ph4
    let (t6, ph6) := entitiesStage (t5.length + 1) t5 ph5
    let inlFresh := fun s => (inlineToHTML fuel s refs []).1
    let inlShared := fun s p => inlineToHTML fuel s refs p
    let (t7, ph7) := processDirect inlFresh inlShared t6 (t6.length + 1) 0 ph6
    let (t8, ph8) := emptyDestGo inlShared (t7.length + 1) t7 ph7
    let (t9, ph9) := parenHtmlGo (t8.length + 1) t8 ph8
    let (t10, ph10) :=
      match refs with
      | some rm => processReference inlFresh inlShared rm t9
          (t9.length + 1) 0 ph9
      | none => (t9, ph9)
    let out0 := escapeHTML t10
    let out1 := backslashNL out0
    let out2 := applyEmphasis out1
    let out3 := trimBeforeEmGo (out2.length + 1) true out2
    let out4 := brSpacesGo (out3.length + 1) out3
    let out5 := spacesBeforeNLGo (out4.length + 1) out4
    let out6 := trailingSpaceStrip out5
    (restoreLoop ph10 3 out6, ph10)

/-! ## The renderers (html.ts and html/) -/

/-- Render the inline content of a leaf block
(`inlineToHTML(content, refs)`). -/
def inlineOf (refs : Option RefMap) (content : Str) : Str :=
  (inlineToHTML (content.length + 1) content refs []).1

/-- Embeds `headingToHTML` from `nodes/heading.ts`. -/
def headingToHTML (refs : Option RefMap) (level : Nat) (content : Str) :
    Str :=
  ('<':: 'h'::[]) ++ natToStr level ++ ['>'] ++ inlineOf refs content ++
  ('<':: '/':: 'h'::[]) ++ natToStr level ++ ['>']

/-- Embeds `paragraphToHTML` from `nodes/paragraph.ts`. -/
def paragraphToHTML (refs : Option RefMap) (content : Str) : Str :=
  ('<':: 'p':: '>'::[]) ++ inlineOf refs content ++ ('<':: '/':: 'p':: '>'::[])

/-- Embeds `codeBlockToHTML` from `html/code_block.ts`. -/
def codeBlockToHTML (content : Str) (language : Option Str) : Str :=
  let langClass : Str :=
    match language with
    | some l =>
      if l.isEmpty then []
      else (' ':: 'c':: 'l':: 'a':: 's':: 's':: '=':: '"':: 'l':: 'a':: 'n':: 'g':: 'u':: 'a':: 'g':: 'e':: '-'::[]) ++
        escapeHTML l ++ ['"']
    | none => []
  ('<':: 'p':: 'r':: 'e':: '>':: '<':: 'c':: 'o':: 'd':: 'e'::[]) ++ langClass ++
  ['>'] ++ escapeHTML content ++
  ('<':: '/':: 'c':: 'o':: 'd':: 'e':: '>':: '<':: '/':: 'p':: 'r':: 'e':: '>'::[])

/-- Modelled from the spec: `thematicBreakToHTML` lives in
`src/html/thematic_break.ts`, which is not among the provided sources;
§4.5 specifies `Thematic break → <hr />`. -/
def thematicBreakToHTML : Str := '<':: 'h':: 'r':: ' ':: '/':: '>'::[]

/-- The wrapper assembly of `listToHTML` given the joined items HTML. -/
def listWrap (ordered : Bool) (startNum : Option Nat) (itemsHTML : Str) :
    Str :=
  let tag : Str := if ordered then ('o':: 'l'::[]) else ('u':: 'l'::[])
  let attr : Str :=
    match startNum with
    | some n =>
      if ordered ∧ n ≠ 1 then
        (' ':: 's':: 't':: 'a':: 'r':: 't':: '=':: '"'::[]) ++ natToStr n ++ ['"']
      else []
    | none => []
  ['<'] ++ tag ++ attr ++ ('>':: '\n'::[]) ++ itemsHTML ++
    ('\n':: '<':: '/'::[]) ++ tag ++ ['>']

/-- The item-body assembly of `listItemToHTML` given the first
paragraph's inline HTML (when the first child is a paragraph), the
joined rest, and the shape flags. -/
def listItemWrapPara (loose : Bool) (firstHTML : Str) (restEmpty : Bool)
    (restHTML : Str) : Str :=
  if ¬ loose then
    if restEmpty then
      ('<':: 'l':: 'i':: '>'::[]) ++ firstHTML ++ ('<':: '/':: 'l':: 'i':: '>'::[])
    else
      ('<':: 'l':: 'i':: '>'::[]) ++ firstHTML ++ ['\n'] ++ restHTML ++
        ('\n':: '<':: '/':: 'l':: 'i':: '>'::[])
  else
    if restEmpty then
      ('<':: 'l':: 'i':: '>':: '\n':: '<':: 'p':: '>'::[]) ++ firstHTML ++
        ('<':: '/':: 'p':: '>':: '\n':: '<':: '/':: 'l':: 'i':: '>'::[])
    else
      ('<':: 'l':: 'i':: '>':: '\n':: '<':: 'p':: '>'::[]) ++ firstHTML ++
        ('<':: '/':: 'p':: '>':: '\n'::[]) ++ restHTML ++
        ('\n':: '<':: '/':: 'l':: 'i':: '>'::[])

mutual

/-- Embeds `nodeToHTML` from `html.ts` (the list case inlines
`listToHTML`, restated as the standalone `listToHTML` below). -/
def nodeToHTML (refs : Option RefMap) : Node → Str
  | .heading level content => headingToHTML refs level content
  | .paragraph content => paragraphToHTML refs content
  | .codeBlock content language => codeBlockToHTML content language
  | .list ordered startNum loose items =>
    listWrap ordered startNum (joinNL (listItemsHTML refs loose items))
  | .listItem children _ => joinAll (nodesToHTML refs children)
  | .blockquote children =>
    let inner := joinNL (nodesToHTML refs children)
    if inner.isEmpty then
      ('<':: 'b':: 'l':: 'o':: 'c':: 'k':: 'q':: 'u':: 'o':: 't':: 'e':: '>':: '\n':: '<':: '/':: 'b':: 'l':: 'o':: 'c':: 'k':: 'q':: 'u':: 'o':: 't':: 'e':: '>'::[])
    else
      ('<':: 'b':: 'l':: 'o':: 'c':: 'k':: 'q':: 'u':: 'o':: 't':: 'e':: '>':: '\n'::[]) ++
      inner ++
      ('\n':: '<':: '/':: 'b':: 'l':: 'o':: 'c':: 'k':: 'q':: 'u':: 'o':: 't':: 'e':: '>'::[])
  | .thematicBreak => thematicBreakToHTML
  | .htmlBlock content => content

/-- `nodes.map((n) => nodeToHTML(n, refs))`. -/
def nodesToHTML (refs : Option RefMap) : List Node → List Str
  | [] => []
  | n :: t => nodeToHTML refs n :: nodesToHTML refs t

/-- Map the tight-paragraph child rendering of `listItemToHTML`
(`n.type === 'paragraph' && !loose ? inlineToHTML(n.content) : toHTML(n)`)
over children. -/
def tightChildrenHTML (refs : Option RefMap) (loose : Bool) :
    List Node → List Str
  | [] => []
  | n :: t =>
    (match n with
     | .paragraph content =>
       if ¬ loose then inlineOf refs content else paragraphToHTML refs content
     | other => nodeToHTML refs other) :: tightChildrenHTML refs loose t

/-- Map the item renderer (`listItemToHTML`) over the list's items;
non-`list_item` entries get a plain `<li>` wrap, as in the source's
`listToHTML`.  The first child's tight rendering is inlined: for a
non-paragraph first child it coincides with `nodeToHTML`. -/
def listItemsHTML (refs : Option RefMap) (loose : Bool) :
    List Node → List Str
  | [] => []
  | .listItem [] _ :: t =>
    ('<':: 'l':: 'i':: '>':: '<':: '/':: 'l':: 'i':: '>'::[]) ::
      listItemsHTML refs loose t
  | .listItem (first :: rest) _ :: t =>
    (match first with
     | .paragraph content =>
       listItemWrapPara loose (inlineOf refs content) rest.isEmpty
         (joinNL (tightChildrenHTML refs loose rest))
     | _ =>
       let inner := joinNL
         (nodeToHTML refs first :: tightChildrenHTML refs loose rest)
       let trailing : Str :=
         match (first :: rest).getLast? with
         | some (.paragraph _) => if ¬ loose then [] else ['\n']
         | _ => ['\n']
       ('<':: 'l':: 'i':: '>':: '\n'::[]) ++ inner ++ trailing ++
         ('<':: '/':: 'l':: 'i':: '>'::[])) :: listItemsHTML refs loose t
  | other :: t =>
    (('<':: 'l':: 'i':: '>'::[]) ++ nodeToHTML refs other ++
      ('<':: '/':: 'l':: 'i':: '>'::[])) :: listItemsHTML refs loose t

end

/-- Embeds `listItemToHTML` from `html/list.ts`, as a standalone
statement of the item arm above (the renderer consults the list's
`loose`, not the item's). -/
def listItemToHTML (refs : Option RefMap) (loose : Bool)
    (children : List Node) : Str :=
  match children with
  | [] => ('<':: 'l':: 'i':: '>':: '<':: '/':: 'l':: 'i':: '>'::[])
  | first :: rest =>
    match first with
    | .paragraph content =>
      listItemWrapPara loose (inlineOf refs content) rest.isEmpty
        (joinNL (tightChildrenHTML refs loose rest))
    | _ =>
      let inner := joinNL (tightChildrenHTML refs loose children)
      let trailing : Str :=
        match children.getLast? with
        | some (.paragraph _) => if ¬ loose then [] else ['\n']
        | _ => ['\n']
      ('<':: 'l':: 'i':: '>':: '\n'::[]) ++ inner ++ trailing ++
        ('<':: '/':: 'l':: 'i':: '>'::[])

/-- Embeds `listToHTML` from `html/list.ts` as a standalone function
(definitionally the list arm of `nodeToHTML`). -/
def listToHTML (refs : Option RefMap) (ordered : Bool)
    (startNum : Option Nat) (loose : Bool) (items : List Node) : Str :=
  listWrap ordered startNum (joinNL (listItemsHTML refs loose items))

/-! ## tsmark.ts : the block loop, the reference extractor, the driver -/

/-- The continuation-collection loop of a reference definition (shared
by both branches of the extractor): extends `rest` with following lines
while the destination+title pattern stays completable.  Returns the
extended rest and the number of lines consumed. -/
def defCollect : Nat → Str → List Str → Str × Nat
  | 0, rest, _ => (rest, 0)
  | _ + 1, rest, [] => (rest, 0)
  | fuel + 1, rest, nxt :: more =>
    let t := trimStartJS nxt
    let restTrim := trimJS rest
    if (titleMatch restTrim).isSome ∧
        ¬ (titleMatch (trimJS (restTrim ++ '\n' :: t))).isSome then
      (rest, 0)
    else if t.isEmpty ∨ (startDefMatch nxt).isSome then (rest, 0)
    else
      let (r, n) := defCollect fuel (rest ++ '\n' :: t) more
      (r, n + 1)

/-- The label-collection loop of the open-bracket branch of the
extractor: accumulates label lines until a line matches the `close`
pattern.  Returns (label, rest, lines consumed). -/
def openCollect : Nat → Str → List Str → Str × Str × Nat
  | 0, label, _ => (label, [], 0)
  | _ + 1, label, [] => (label, [], 0)
  | fuel + 1, label, ln :: more =>
    match closeDefMatch ln with
    | some (pre, r) =>
      ((if label.isEmpty then [] else label ++ ['\n']) ++ pre, r, 1)
    | none =>
      let label' := (if label.isEmpty then [] else label ++ ['\n']) ++ ln
      let (la, r, n) := openCollect fuel label' more
      (la, r, n + 1)

/-- `canStartDef` of the extractor, with the mutable context passed
explicitly: `prev` is the preceding input line (`none` at index 0) and
`pwd` the `prevWasDef` flag. -/
def canStartDef (prev : Option Str) (pwd : Bool) : Bool :=
  match prev with
  | none => true
  | some p =>
    isBlank p ∨ pwd ∨ (startDefMatch p).isSome ∨ openBracketOnlyTest p ∨
    atxSpaceTest p ∨ bqTest p ∨ listMarkerWsEndTest p ∨
    (fenceHeadSpaces p).isSome ∨ looksThematic p ∨ 4 ≤ indentWidth p

/-- Trim the reference-definition destination's angle brackets
(`url.startsWith('<') && url.endsWith('>')`). -/
def trimAngleURL (url : Str) : Str :=
  if url.take 1 = ['<'] ∧ url.getLast? = some '>' then
    (url.drop 1).dropLast
  else url

/-- Main loop of the reference extractor in `tsmark.ts`'s `parse`.
State: `prev` (previous input line), `pwd` (`prevWasDef`), `fence`, and
the reference map; produces the filtered lines and the final map. -/
def extractLoop : Nat → List Str → Option Str → Bool →
    Option (Char × Nat) → RefMap → List Str × RefMap
  | 0, _, _, _, _, refs => ([], refs)
  | _ + 1, [], _, _, _, refs => ([], refs)
  | fuel + 1, first :: rest, prev, pwd, fence, refs =>
    let bq := bqMarkSp first
    let lineForDef := bq.getD first
    let fence' :=
      match fenceHeadSpaces first with
      | some (ch, len) => fenceToggle fence ch len
      | none => fence
    if fence'.isSome then
      let (f, r) := extractLoop fuel rest (some first) pwd fence' refs
      (first :: f, r)
    else
      let canStart := canStartDef prev pwd
      -- branch 1: the single-line `startDef` pattern
      let branch1 : Option (List Str × RefMap) :=
        match (if canStart then startDefMatch lineForDef else none) with
        | some (label, rest0) =>
          if isValidLabel label then
            let (restC, extra) := defCollect (rest.length + 1) rest0 rest
            match titleMatch (trimJS restC) with
            | some (url0, title) =>
              let url := trimAngleURL url0
              let key := normalizeLabel label
              let refs' :=
                if ¬ key.isEmpty ∧ ¬ refHas refs key then
                  refSet refs key ⟨unescapeMd url, title.map unescapeMd⟩
                else refs
              let bqPre : List Str :=
                if bq.isSome then
                  [trimEndJS (first.take (first.length - lineForDef.length))]
                else []
              if ¬ key.isEmpty then
                let lastLine :=
                  if extra = 0 then first
                  else ((rest.take extra).getLast?.getD first)
                let (f, r) := extractLoop fuel (rest.drop extra)
                  (some lastLine) true fence' refs'
                some (bqPre ++ f, r)
              else none
            | none => none
          else none
        | none => none
      match branch1 with
      | some result => result
      | none =>
        -- branch 2: a multi-line label opened by `[`
        let branch2 : Option (List Str × RefMap) :=
          match (if canStart then openLabelMatch lineForDef else none) with
          | some label0 =>
            let (label, rest0, consumed1) :=
              openCollect (rest.length + 1) label0 rest
            if rest0.isEmpty then none
            else
              let afterLabel := rest.drop consumed1
              let (restC, extra) :=
                defCollect (afterLabel.length + 1) rest0 afterLabel
              match titleMatch (trimJS restC) with
              | some (url0, title) =>
                if isValidLabel label then
                  let url := trimAngleURL url0
                  let key := normalizeLabel label
                  let refs' :=
                    if ¬ key.isEmpty ∧ ¬ refHas refs key then
                      refSet refs key ⟨unescapeMd url, title.map unescapeMd⟩
                    else refs
                  let bqPre : List Str :=
                    if bq.isSome then
                      [trimEndJS
                        (first.take (first.length - lineForDef.length))]
                    else []
                  if ¬ key.isEmpty then
                    let consumedAll := consumed1 + extra
                    let lastLine :=
                      if consumedAll = 0 then first
                      else ((rest.take consumedAll).getLast?.getD first)
                    let (f, r) := extractLoop fuel (rest.drop consumedAll)
                      (some lastLine) true fence' refs'
                    some (bqPre ++ f, r)
                  else none
                else none
              | none => none
          | none => none
        match branch2 with
        | some result => result
        | none =>
          let (f, r) := extractLoop fuel rest (some first) false fence' refs
          (first :: f, r)

/-- The block-parsing loop of `parseBlocks` in `tsmark.ts`, in suffix
form.  `prevBlank7` carries the html-block condition-7 look-back
(`start === 0 || previous line blank`). -/
def blocksLoop (parseFn : Str → List Node) :
    Nat → List Str → Bool → List Node
  | 0, _, _ => []
  | _ + 1, [], _ => []
  | fuel + 1, l :: rest, prevBlank7 =>
    let ls := l :: rest
    let stripped := stripLazy l
    let consumeTo : Nat → List Node → List Node := fun n nodes =>
      let lastLine := (ls.take n).getLast?.getD l
      nodes ++ blocksLoop parseFn fuel (ls.drop n)
        (isBlank (stripLazy lastLine))
    match parseThematicBreak stripped with
    | some node => consumeTo 1 [node]
    | none =>
    match parseBlockquote ls parseFn with
    | some (node, n) => consumeTo n [node]
    | none =>
    match parseList ls parseFn with
    | some (node, n) => consumeTo n [node]
    | none =>
    match parseCodeBlock ls with
    | some (node, n) => consumeTo n [node]
    | none =>
    match parseATXHeading stripped with
    | some node => consumeTo 1 [node]
    | none =>
    match parseHtmlBlock ls prevBlank7 with
    | some (node, n) => consumeTo n [node]
    | none =>
    if ¬ isBlank stripped then
      match parseParagraph ls with
      | some (node, n) => consumeTo n [node]
      | none => consumeTo 1 []
    else consumeTo 1 []

/-- Recursion-depth fuel for `parseBlocks`: the number of non-newline
chars plus one.  Every container nesting level strips at least one
marker char (a `>` or a list marker) from its first line, so the
nesting depth of any document is below this bound. -/
def countNonNL (s : Str) : Nat := (s.filter (fun c => c ≠ '\n')).length

/-- Embeds `parseBlocks` from `tsmark.ts`.  `recFuel` bounds the
recursion depth through container children (blockquote and list
items). -/
def parseBlocksGo : Nat → Str → List Node
  | 0, _ => []
  | recFuel + 1, md =>
    let lines := splitNL (normalizeNL md)
    blocksLoop (parseBlocksGo recFuel) (lines.length + 1) lines true

/-- `parseBlocks` at its adequate fuel. -/
def parseBlocks (md : Str) : List Node :=
  parseBlocksGo (countNonNL md + 1) md

/-- Embeds `parse` from `tsmark.ts`: reference extraction, then block
parsing of the filtered lines. -/
def parseDoc (md : Str) : List Node × RefMap :=
  let lines := splitNL (normalizeNL md)
  let (filtered, refs) := extractLoop (lines.length + 1) lines none false
    none []
  (parseBlocks (joinNL filtered), refs)

/-- Embeds `convertToHTML` from `html.ts` (the `Convert` entry point). -/
def convertToHTML (md : Str) : Str :=
  let (nodes, refs) := parseDoc md
  let html := joinNL (nodesToHTML (some refs) nodes)
  if html.isEmpty then [] else html ++ ['\n']


/-- Shape invariant of the nodes the block loop emits: never a bare
`list_item`, and an `html` block always carries nonempty content. -/
def blockShape : Node → Prop
  | .htmlBlock content => content ≠ []
  | .listItem _ _ => False
  | _ => True

/-! ## The claims -/

/-- Claim C1: `Convert "*foo**bar***\n"` returns exactly
`"<p><em>foo<strong>bar</strong></em></p>\n"`; the first emphasis pass
pairs two of the three closing delimiters with the `**` opener as
`<strong>`, and the leftover delimiter pairs with the initial `*` as
`<em>` on a later fixed-point pass, which then reaches a fixed point. -/
theorem claim_C1 :
    convertToHTML ("*foo**bar***\n".data)
      = ("<p><em>foo<strong>bar</strong></em></p>\n".data) ∧
    emphasisPass ("*foo**bar***".data)
      = ("*foo<strong>bar</strong>*".data) ∧
    emphasisPass ("*foo<strong>bar</strong>*".data)
      = ("<em>foo<strong>bar</strong></em>".data) ∧
    emphasisPass ("<em>foo<strong>bar</strong></em>".data)
      = ("<em>foo<strong>bar</strong></em>".data) :=
  ⟨by decide, by decide, by decide, by decide⟩

/-- Claim C4, counterexample: the continuation line `01. x` is an
ordered-list marker line whose starting number is 1 (`parseInt("01")`
is 1), yet it does not interrupt the paragraph, because the source
compares the digit capture as a string (`m[1] === '1'`): the paragraph
absorbs the line.  By contrast `1. x` does interrupt. -/
theorem claim_C4_counterexample :
    orderedInterruptMatch ("01. x".data) = some ("01".data) ∧
    parseDecimal ("01".data) = 1 ∧
    parseParagraph [("foo".data), ("01. x".data)]
      = some (.paragraph ("foo\n01. x".data), 2) ∧
    parseParagraph [("foo".data), ("1. x".data)]
      = some (.paragraph ("foo".data), 1) :=
  ⟨by decide, by decide, rfl, rfl⟩

/-- The accumulator of `listOuter` only grows: the returned item list
extends the one passed in. -/
theorem listOuter_fst_extends (o : Bool) (b d : Char)
    (pf : Str → List Node) :
    ∀ fuel ls items, ∃ tail,
      (listOuter o b d pf fuel ls items).1 = items ++ tail := by
  intro fuel
  induction fuel with
  | zero => intro ls items; exact ⟨[], by simp [listOuter]⟩
  | succ n ih =>
    intro ls items
    cases ls with
    | nil => exact ⟨[], by simp [listOuter]⟩
    | cons l rest =>
      simp only [listOuter]
      split
      · exact ⟨[], by simp⟩
      · split
        · exact ⟨[], by simp⟩
        · obtain ⟨t, ht⟩ := ih _ _
          exact ⟨_, by rw [ht, List.append_assoc]⟩

/-- Claim C10: every successful `parseList` result is a list node with
at least one item: the first iteration of the item-collection loop
re-matches the same marker conditions as the entry test and pushes an
item, so the renderer never sees an empty `items` from `parseList`. -/
theorem claim_C10 (ls : List Str) (parseFn : Str → List Node)
    (nd : Node) (n : Nat) (h : parseList ls parseFn = some (nd, n)) :
    ∃ o s lo items, nd = Node.list o s lo items ∧ items ≠ [] := by
  simp only [parseList] at h
  split at h
  · exact absurd h (by simp)
  · next line tl =>
    split at h
    · next hc =>
      obtain ⟨hlazy, hmark, hthem⟩ := hc
      injection h with h1
      injection h1 with hnode hn
      subst hnode
      refine ⟨_, _, _, _, rfl, ?_⟩
      simp only [listOuter]
      rcases hom : orderedMatch (stripLazy line) with _ | ⟨ind, digits, dd, after⟩
      · rcases hbm : bulletMatch (stripLazy line) with _ | ⟨bind, bb, bafter⟩
        · rw [hom, hbm] at hmark
          simp at hmark
        · simp only [Option.isSome_none, Bool.false_eq_true, if_false,
            beq_self_eq_true, if_true, hthem, ite_false]
          obtain ⟨t, ht⟩ := listOuter_fst_extends _ _ _ parseFn _ _ _
          rw [ht]
          simp
      · simp only [Option.isSome_some, if_true, beq_self_eq_true,
          hthem, ite_false]
        obtain ⟨t, ht⟩ := listOuter_fst_extends _ _ _ parseFn _ _ _
        rw [ht]
        simp
    · exact absurd h (by simp)

/-- Claim C10 witness: `parseList` on the single line `- a` (with a
child parser returning no nodes) yields a list node with one item. -/
theorem claim_C10_witness :
    ∃ o s lo items,
      Node.list false none false [Node.listItem [] false]
        = Node.list o s lo items ∧ items ≠ [] :=
  claim_C10 [("- a".data)] (fun _ => [])
    (Node.list false none false [Node.listItem [] false]) 1 rfl

/-- Claim C8: for a rendered list node carrying the `start` field as
`parseList` constructs it, the wrapper tag is `<ul>` for unordered and
`<ol>` for ordered lists, and the `start` attribute is emitted iff the
list is ordered and its start number `k` differs from 1, in which case
the opening tag is exactly `<ol start="k">`. -/
theorem claim_C8 (refs : Option RefMap) (ordered : Bool)
    (startNum : Option Nat) (loose : Bool) (items : List Node) :
    nodeToHTML refs
        (Node.list ordered (listStartField ordered startNum) loose items)
      = ['<'] ++ (if ordered then ("ol".data) else ("ul".data))
        ++ (match startNum with
            | some k =>
              if ordered ∧ k ≠ 1 then
                (" start=".data) ++ ['"'] ++ natToStr k ++ ['"']
              else []
            | none => [])
        ++ (">\n".data) ++ joinNL (listItemsHTML refs loose items)
        ++ ("\n</".data)
        ++ (if ordered then ("ol".data) else ("ul".data)) ++ ['>'] := by
  cases startNum with
  | none =>
    cases ordered <;> simp [nodeToHTML, listWrap, listStartField]
  | some k =>
    cases ordered
    · simp [nodeToHTML, listWrap, listStartField]
    · by_cases hk : k = 1 <;>
        simp [nodeToHTML, listWrap, listStartField, hk]

/-- A decimal digit's code point lies in 48–57. -/
theorem digit_toNat {c : Char} (h : isDigitJS c = true) :
    48 ≤ c.toNat ∧ c.toNat ≤ 57 := by
  simp only [isDigitJS, decide_eq_true_eq] at h
  obtain ⟨h1, h2⟩ := h
  constructor
  · exact h1
  · exact h2

/-- A digit is not JavaScript whitespace. -/
theorem digit_not_space {c : Char} (h : isDigitJS c = true) :
    isSpaceJS c = false := by
  have hn := digit_toNat h
  simp only [isSpaceJS, decide_eq_false_iff_not]
  rintro (h1|h1|h1|h1|h1|h1|h1|h1|h1|h1|h1|h1|h1|h1|h1) <;>
    first
      | omega
      | (subst h1; revert hn; decide)

/-- A digit differs from any non-digit char. -/
theorem digit_ne {c : Char} (h : isDigitJS c = true) (x : Char)
    (hx : isDigitJS x = false) : (c = x) = False := by
  simp only [eq_iff_iff, iff_false]
  intro he
  subst he
  rw [h] at hx
  exact Bool.noConfusion hx

/-- `^ {0,3}`-consumption on a digit-headed line takes nothing. -/
theorem dropUpTo3Spaces_digit {c : Char} (h : isDigitJS c = true) (t : Str) :
    dropUpTo3Spaces (c :: t) = some (c :: t) := by
  have hne := digit_ne h ' ' (by decide)
  simp [dropUpTo3Spaces, List.takeWhile_cons, hne]

/-- `^\s{0,3}`-consumption on a digit-headed line takes nothing. -/
theorem dropUpTo3WS_digit {c : Char} (h : isDigitJS c = true) (t : Str) :
    dropUpTo3WS (c :: t) = some (c :: t) := by
  have hsp := digit_not_space h
  simp [dropUpTo3WS, List.takeWhile_cons, hsp]

/-- A digit-headed line is no thematic-break run. -/
theorem thematicRunTest_digit {c : Char} (h : isDigitJS c = true)
    (ch : Char) (hch : isDigitJS ch = false) (t : Str) :
    thematicRunTest ch (c :: t) = false := by
  have hne := digit_ne h ch hch
  simp [thematicRunTest, dropUpTo3Spaces_digit h, hne]

/-- A digit-headed line looks like no thematic break. -/
theorem looksThematic_digit {c : Char} (h : isDigitJS c = true) (t : Str) :
    looksThematic (c :: t) = false := by
  simp [looksThematic, thematicRunTest_digit h '*' (by decide),
    thematicRunTest_digit h '-' (by decide),
    thematicRunTest_digit h '_' (by decide)]

/-- A digit-headed line parses as no thematic break. -/
theorem parseThematicBreak_digit {c : Char} (h : isDigitJS c = true)
    (t : Str) : parseThematicBreak (c :: t) = none := by
  simp [parseThematicBreak, looksThematic_digit h]

/-- A digit-headed line is no blockquote marker line. -/
theorem bqTest_digit {c : Char} (h : isDigitJS c = true) (t : Str) :
    bqTest (c :: t) = false := by
  have hne := digit_ne h '>' (by decide)
  simp only [bqTest, dropUpTo3Spaces_digit h]
  split
  · next heq =>
    injection heq with hl
    injection hl with h1 h2
    exact absurd h1 (by rw [hne]; exact id)
  · rfl

/-- A digit-headed line is no bullet-marker interrupt. -/
theorem bulletInterruptTest_digit {c : Char} (h : isDigitJS c = true)
    (t : Str) : bulletInterruptTest (c :: t) = false := by
  have h1 := digit_ne h '-' (by decide)
  have h2 := digit_ne h '+' (by decide)
  have h3 := digit_ne h '*' (by decide)
  simp only [bulletInterruptTest, dropUpTo3WS_digit h]
  split
  · next b c2 rest heq =>
    injection heq with hl
    injection hl with hb ht
    subst hb
    simp [h1, h2, h3]
  · rfl

/-- A digit-headed line is no ATX-heading interrupt. -/
theorem atxWsEndTest_digit {c : Char} (h : isDigitJS c = true) (t : Str) :
    atxWsEndTest (c :: t) = false := by
  have hne := digit_ne h '#' (by decide)
  simp [atxWsEndTest, dropUpTo3Spaces_digit h, List.takeWhile_cons, hne]

/-- A digit-headed line is no setext underline. -/
theorem setextTest_digit {c : Char} (h : isDigitJS c = true) (t : Str) :
    setextTest (c :: t) = false := by
  have h1 := digit_ne h '-' (by decide)
  have h2 := digit_ne h '=' (by decide)
  simp [setextTest, dropUpTo3Spaces_digit h, List.takeWhile_cons, h1, h2]

/-- A digit-headed line has no fence head. -/
theorem fenceHeadWS_digit {c : Char} (h : isDigitJS c = true) (t : Str) :
    fenceHeadWS (c :: t) = none := by
  have hsp := digit_not_space h
  have h1 := digit_ne h '~' (by decide)
  have h96 : (c.toNat = 96) = False := by
    have := digit_toNat h
    simp only [eq_iff_iff, iff_false]
    omega
  simp [fenceHeadWS, List.takeWhile_cons, hsp, h1, h96]

/-- A digit-headed line is no fenced-code interrupt. -/
theorem fenceInterruptTest_digit {c : Char} (h : isDigitJS c = true)
    (t : Str) : fenceInterruptTest (c :: t) = false := by
  simp [fenceInterruptTest, fenceFull, fenceHeadWS_digit h]

/-- A digit-headed line starts no HTML block tag. -/
theorem htmlBlockStartMatch_digit {c : Char} (h : isDigitJS c = true)
    (t : Str) : htmlBlockStartMatch (c :: t) = none := by
  have hne := digit_ne h '<' (by decide)
  simp only [htmlBlockStartMatch, dropUpTo3Spaces_digit h]
  split
  · next heq =>
    injection heq with hl
    injection hl with h1 h2
    exact absurd h1 (by rw [hne]; exact id)
  · rfl

/-- A digit-headed line is no HTML-block interrupt. -/
theorem htmlInterruptTest_digit {c : Char} (h : isDigitJS c = true)
    (t : Str) : htmlInterruptTest (c :: t) = false := by
  simp [htmlInterruptTest, htmlBlockStartMatch_digit h]

/-- `takeWhile` over an all-true prefix followed by a failing char. -/
theorem takeWhile_all_append (p : Char → Bool) (d : Str) (x : Char)
    (r : Str) (hd : ∀ c ∈ d, p c = true) (hx : p x = false) :
    (d ++ x :: r).takeWhile p = d := by
  induction d with
  | nil => simp [List.takeWhile_cons, hx]
  | cons a t ih =>
    simp [List.takeWhile_cons, hd a (by simp),
      ih (fun c hc => hd c (by simp [hc]))]

/-- The ordered-marker interrupt pattern of `parseParagraph` captures
exactly the digit run of a well-formed marker line. -/
theorem orderedInterruptMatch_marker (d rest : Str) (hne : d ≠ [])
    (hlen : d.length ≤ 9) (hdig : ∀ c ∈ d, isDigitJS c = true) :
    orderedInterruptMatch (d ++ '.' :: ' ' :: rest) = some d := by
  obtain ⟨c0, d', rfl⟩ := List.exists_cons_of_ne_nil hne
  have hc0 : isDigitJS c0 = true := hdig c0 (by simp)
  have htw := takeWhile_all_append isDigitJS (c0 :: d') '.' (' ' :: rest)
    hdig (by decide)
  have hdr : ((c0 :: d') ++ '.' :: ' ' :: rest).drop (c0 :: d').length
      = '.' :: ' ' :: rest := List.drop_left _ _
  simp only [List.cons_append] at htw hdr
  simp only [List.cons_append, orderedInterruptMatch,
    dropUpTo3Spaces_digit hc0, htw, hdr]
  have h9 : d'.length ≤ 8 := by simpa using hlen
  simp [h9]

/-- A line headed by a non-whitespace char is not blank. -/
theorem isBlank_cons_nonspace {c : Char} (hc : isSpaceJS c = false)
    (t : Str) : isBlank (c :: t) = false := by
  have hdw : ∀ ys : Str, (ys ++ [c]).dropWhile isSpaceJS ≠ [] := by
    intro ys
    induction ys with
    | nil => simp [List.dropWhile_cons, hc]
    | cons a u ih =>
      by_cases ha : isSpaceJS a = true
      · simpa [List.dropWhile_cons, ha] using ih
      · simp [List.dropWhile_cons, ha]
  simp only [isBlank, trimJS, trimStartJS, trimEndJS, List.dropWhile_cons,
    hc, if_false, Bool.false_eq_true]
  have := hdw t.reverse
  simp only [decide_eq_false_iff_not]
  intro hcon
  rw [List.reverse_cons] at hcon
  exact hdw t.reverse (List.reverse_eq_nil_iff.mp hcon)

/-- `stripLazy` keeps a digit-headed line intact. -/
theorem stripLazy_digit {c : Char} (h : isDigitJS c = true) (t : Str) :
    stripLazy (c :: t) = c :: t := by
  have hne := digit_ne h LAZY (by decide)
  simp [stripLazy, hne]

/-- A digit-headed line does not carry the lazy marker. -/
theorem take1_ne_LAZY_digit {c : Char} (h : isDigitJS c = true) (t : Str) :
    (c :: t).take 1 ≠ [LAZY] := by
  have hne := digit_ne h LAZY (by decide)
  simp [List.take_succ_cons, hne]

/-- A digit-headed line has indent width 0. -/
theorem indentWidth_digit {c : Char} (h : isDigitJS c = true) (t : Str) :
    indentWidth (c :: t) = 0 := by
  have h1 := digit_ne h ' ' (by decide)
  have h2 := digit_ne h '\t' (by decide)
  simp [indentWidth, stripLazy_digit h, indentCols, h1, h2]

/-- Stripping zero columns from a digit-headed line is the identity. -/
theorem stripColumns_digit_zero {c : Char} (h : isDigitJS c = true)
    (t : Str) : stripColumns (c :: t) 0 = c :: t := by
  have h1 := digit_ne h ' ' (by decide)
  have h2 := digit_ne h '\t' (by decide)
  simp [stripColumns, stripColumnsFrom, expandIndent, stripLazy_digit h,
    h1, h2]

/-- On a well-formed ordered-marker continuation line, the paragraph
interrupt disjunction reduces to the digit-string comparison with
`"1"`. -/
theorem paraInterruptTest_marker (d rest : Str) (hne : d ≠ [])
    (hlen : d.length ≤ 9) (hdig : ∀ c ∈ d, isDigitJS c = true) :
    paraInterruptTest (d ++ '.' :: ' ' :: rest) = decide (d = ['1']) := by
  obtain ⟨c0, d', rfl⟩ := List.exists_cons_of_ne_nil hne
  have hc0 : isDigitJS c0 = true := hdig c0 (by simp)
  have hom := orderedInterruptMatch_marker (c0 :: d') rest hne hlen hdig
  simp only [List.cons_append] at hom
  simp [paraInterruptTest, List.cons_append,
    parseThematicBreak_digit hc0, bqTest_digit hc0,
    bulletInterruptTest_digit hc0, atxWsEndTest_digit hc0,
    fenceInterruptTest_digit hc0, htmlInterruptTest_digit hc0, hom]

/-- Claim C4, amended: a paragraph under construction is interrupted
by a well-formed ordered-marker continuation line `D. rest` (`D` a run
of 1–9 digits) exactly when the digit string `D` is literally `"1"`;
a marker whose numeric start value is 1 but whose digit string differs
(such as `01`) stays inside the paragraph. -/
theorem claim_C4_amended (d rest : Str) (hne : d ≠ [])
    (hlen : d.length ≤ 9) (hdig : ∀ c ∈ d, isDigitJS c = true) :
    parseParagraph [("foo".data), d ++ '.' :: ' ' :: rest]
      = if d = ['1']
        then some (Node.paragraph ("foo".data), 1)
        else some (Node.paragraph
            (("foo".data) ++ '\n' :: (d ++ '.' :: ' ' :: rest)), 2) := by
  obtain ⟨c0, d', rfl⟩ := List.exists_cons_of_ne_nil hne
  have hc0 : isDigitJS c0 = true := hdig c0 (by simp)
  have hsp := digit_not_space hc0
  have hsl := stripLazy_digit hc0 (d' ++ '.' :: ' ' :: rest)
  have hblank := isBlank_cons_nonspace hsp (d' ++ '.' :: ' ' :: rest)
  have hlazy := take1_ne_LAZY_digit hc0 (d' ++ '.' :: ' ' :: rest)
  have hsetext := setextTest_digit hc0 (d' ++ '.' :: ' ' :: rest)
  have hpara := paraInterruptTest_marker (c0 :: d') rest hne hlen hdig
  simp only [List.cons_append] at hpara
  have hindent := indentWidth_digit hc0 (d' ++ '.' :: ' ' :: rest)
  have hstrip := stripColumns_digit_zero hc0 (d' ++ '.' :: ' ' :: rest)
  have hlazyc : (c0 = LAZY) = False := digit_ne hc0 LAZY (by decide)
  have f1 : isBlank (stripLazy (['f', 'o', 'o'] : Str)) = false := by
    decide
  have f2 : setextTest (stripLazy (['f', 'o', 'o'] : Str)) = false := by
    decide
  have f3 : paraInterruptTest (stripLazy (['f', 'o', 'o'] : Str))
      = false := by decide
  have f4 : indentWidth (['f', 'o', 'o'] : Str) = 0 := by decide
  have f5 : stripColumns (['f', 'o', 'o'] : Str) 0 = ['f', 'o', 'o'] := by
    decide
  have hsx2 : parseSetextHeading [(['f', 'o', 'o'] : Str)]
      (c0 :: (d' ++ '.' :: ' ' :: rest)) = none := by
    simp [parseSetextHeading, hsetext]
  simp only [List.cons_append, parseParagraph, List.length_cons,
    List.length_nil, paraLoop, f1, f2, f3, f4, f5, hsl, hblank, hlazyc,
    hsetext, hpara, hindent, hstrip, hsx2]
  by_cases hd1 : (c0 :: d') = ['1']
  · simp [hd1, hlazyc, f5, hstrip, hsx2, joinNL, List.intersperse]
  · simp [hd1, hlazyc, f5, hstrip, hsx2, joinNL, List.intersperse]

/-- Claim C4 amended, witness: the digit string `01` (numeric value 1)
leaves the paragraph uninterrupted. -/
theorem claim_C4_amended_witness :
    (['0', '1'] : Str) ≠ [] ∧
    parseParagraph [("foo".data), (['0', '1'] : Str) ++ '.' :: ' ' :: ['x']]
      = (if (['0', '1'] : Str) = ['1']
         then some (Node.paragraph ("foo".data), 1)
         else some (Node.paragraph
             (("foo".data) ++ '\n' ::
               ((['0', '1'] : Str) ++ '.' :: ' ' :: ['x'])), 2)) :=
  ⟨by decide,
   claim_C4_amended ['0', '1'] ['x'] (by decide) (by decide) (by decide)⟩

/-- A decimal digit is a hex digit. -/
theorem digit_isHex {c : Char} (h : isDigitJS c = true) :
    isHexDigitJS c = true := by
  simp [isHexDigitJS, h]

/-- `toLowerCase` fixes a decimal digit. -/
theorem toLowerJS_digit {c : Char} (h : isDigitJS c = true) :
    toLowerJS c = c := by
  have hn := digit_toNat h
  have h1 : ¬('A' ≤ c ∧ c ≤ 'Z') := by
    rintro ⟨ha, hb⟩
    have ha' : 65 ≤ c.toNat := ha
    omega
  have h2 : ¬(0xC0 ≤ c.toNat ∧ c.toNat ≤ 0xDE ∧ c.toNat ≠ 0xD7) := by
    omega
  have h3 : ¬(c.toNat = 0x1E9E) := by omega
  simp [toLowerJS, h1, h2, h3]

/-- The entity scan loop leaves the empty string empty at any fuel. -/
theorem decodeEntitiesGo_nil (fuel : Nat) :
    decodeEntitiesGo fuel [] = [] := by
  cases fuel <;> rfl

/-- The entity scan loop fixes any string holding no ampersand. -/
theorem decodeEntitiesGo_no_amp (fuel : Nat) :
    ∀ s : Str, (∀ ch ∈ s, ch ≠ '&') →
      decodeEntitiesGo fuel s = s := by
  induction fuel with
  | zero => intro s _; rfl
  | succ n ih =>
    intro s hs
    match s with
    | [] => rfl
    | c :: rest =>
      have hc : ¬ c = '&' := hs c (by simp)
      have hrec := ih rest (fun ch hm => hs ch (by simp [hm]))
      simp only [decodeEntitiesGo, hc, hrec]

/-- The `x?` part consumes nothing on a non-`x` head. -/
theorem entXPart_default {c : Char} (hx : ¬ c = 'x') (hX : ¬ c = 'X')
    (t : Str) : entXPart (c :: t) = ([], c :: t) := by
  rw [entXPart.eq_def]
  split
  · next heq =>
    injection heq with h1 h2
    exact absurd h1 hx
  · next heq =>
    injection heq with h1 h2
    exact absurd h1 hX
  · rfl

/-- The `x?` part consumes a leading lowercase `x`. -/
theorem entXPart_x (t : Str) : entXPart ('x' :: t) = (['x'], t) := rfl

/-- The entity pattern on a decimal body `#DDD;`. -/
theorem entityBodyMatch_dec (d : Str) (hne : d ≠ [])
    (hdig : ∀ c ∈ d, isDigitJS c = true) :
    entityBodyMatch ('#' :: (d ++ [';'])) = some ('#' :: d, []) := by
  obtain ⟨c0, d', rfl⟩ := List.exists_cons_of_ne_nil hne
  have hc0 := hdig c0 (by simp)
  have hx : ¬ c0 = 'x' := by
    have h := digit_ne hc0 'x' (by decide)
    rw [h]; exact id
  have hX : ¬ c0 = 'X' := by
    have h := digit_ne hc0 'X' (by decide)
    rw [h]; exact id
  have htw := takeWhile_all_append isHexDigitJS (c0 :: d') ';' []
    (fun c hc => digit_isHex (hdig c hc)) (by decide)
  have hdr : ((c0 :: d') ++ ([';'] : Str)).drop (c0 :: d').length = [';'] :=
    List.drop_left _ _
  simp only [List.cons_append] at htw hdr
  simp only [List.cons_append, entityBodyMatch, entXPart_default hx hX, htw, hdr]
  simp

/-- The entity pattern on a hex body `#xHH;`. -/
theorem entityBodyMatch_hex (d : Str) (hne : d ≠ [])
    (hhex : ∀ c ∈ d, isHexDigitJS c = true) :
    entityBodyMatch ('#' :: 'x' :: (d ++ [';']))
      = some ('#' :: 'x' :: d, []) := by
  have htw := takeWhile_all_append isHexDigitJS d ';' [] hhex (by decide)
  have hdr : (d ++ ([';'] : Str)).drop d.length = [';'] :=
    List.drop_left _ _
  obtain ⟨c0, d', rfl⟩ := List.exists_cons_of_ne_nil hne
  simp only [List.cons_append] at htw hdr
  simp only [List.cons_append, entityBodyMatch, entXPart_x, htw, hdr]
  simp

/-- The replacement callback on a 1–7 digit decimal body. -/
theorem decodeEntityBody_dec (d : Str) (hne : d ≠ []) (hlen : d.length ≤ 7)
    (hdig : ∀ c ∈ d, isDigitJS c = true) :
    decodeEntityBody ('#' :: d)
      = (if parseDecimal d = 0 ∨ parseDecimal d > 0x10FFFF ∨
            (0xD800 ≤ parseDecimal d ∧ parseDecimal d ≤ 0xDFFF)
         then [Char.ofNat 0xFFFD] else [Char.ofNat (parseDecimal d)]) := by
  obtain ⟨c0, d', rfl⟩ := List.exists_cons_of_ne_nil hne
  have hc0 := hdig c0 (by simp)
  have hxl : ¬ toLowerJS c0 = 'x' := by
    rw [toLowerJS_digit hc0]
    have h := digit_ne hc0 'x' (by decide)
    rw [h]; exact id
  have hsharp : toLowerJS '#' = '#' := by decide
  have hlen7 : ¬ ((c0 :: d').length > 7) := by omega
  have hany : ((c0 :: d').any fun c => !(isDigitJS c)) = false := by
    simp only [List.any_eq_false, Bool.not_eq_true]
    intro c hc
    simp [hdig c hc]
  simp only [decodeEntityBody, List.map_cons, hsharp]
  simp only [List.length_cons] at hlen
  simp [hxl, hlen7, hany]
  intro h
  exact absurd h (by omega)

/-- The replacement callback on a 1–6 digit hex body. -/
theorem decodeEntityBody_hex (d : Str) (hne : d ≠ []) (hlen : d.length ≤ 6)
    (hhex : ∀ c ∈ d, isHexDigitJS c = true) :
    decodeEntityBody ('#' :: 'x' :: d)
      = (if parseHex d = 0 ∨ parseHex d > 0x10FFFF ∨
            (0xD800 ≤ parseHex d ∧ parseHex d ≤ 0xDFFF)
         then [Char.ofNat 0xFFFD] else [Char.ofNat (parseHex d)]) := by
  have hsharp : toLowerJS '#' = '#' := by decide
  have hxx : toLowerJS 'x' = 'x' := by decide
  have hlen6 : ¬ (d.length > 6) := by omega
  have hdne : d.length ≠ 0 := by
    cases d with
    | nil => exact absurd rfl hne
    | cons a t => simp
  simp only [decodeEntityBody, List.map_cons, hsharp, hxx]
  simp [hdne, hlen6]

/-- `decodeEntities` on a well-formed 1–7 digit decimal reference. -/
theorem decodeEntities_dec (d : Str) (hne : d ≠ []) (hlen : d.length ≤ 7)
    (hdig : ∀ c ∈ d, isDigitJS c = true) :
    decodeEntities ('&' :: '#' :: (d ++ [';']))
      = (if parseDecimal d = 0 ∨ parseDecimal d > 0x10FFFF ∨
            (0xD800 ≤ parseDecimal d ∧ parseDecimal d ≤ 0xDFFF)
         then [Char.ofNat 0xFFFD] else [Char.ofNat (parseDecimal d)]) := by
  have hm := entityBodyMatch_dec d hne hdig
  have hb := decodeEntityBody_dec d hne hlen hdig
  simp only [decodeEntities, decodeEntitiesGo, hm, hb,
    decodeEntitiesGo_nil, List.append_nil]

/-- `decodeEntities` on a well-formed 1–6 digit hex reference. -/
theorem decodeEntities_hex (d : Str) (hne : d ≠ []) (hlen : d.length ≤ 6)
    (hhex : ∀ c ∈ d, isHexDigitJS c = true) :
    decodeEntities ('&' :: '#' :: 'x' :: (d ++ [';']))
      = (if parseHex d = 0 ∨ parseHex d > 0x10FFFF ∨
            (0xD800 ≤ parseHex d ∧ parseHex d ≤ 0xDFFF)
         then [Char.ofNat 0xFFFD] else [Char.ofNat (parseHex d)]) := by
  have hm := entityBodyMatch_hex d hne hhex
  have hb := decodeEntityBody_hex d hne hlen hhex
  simp only [decodeEntities, decodeEntitiesGo, hm, hb,
    decodeEntitiesGo_nil, List.append_nil]

/-- `decodeEntities` leaves a decimal reference of 8 or more digits
unchanged. -/
theorem decodeEntities_dec_long (d : Str) (hlong : 8 ≤ d.length)
    (hdig : ∀ c ∈ d, isDigitJS c = true) :
    decodeEntities ('&' :: '#' :: (d ++ [';']))
      = '&' :: '#' :: (d ++ [';']) := by
  have hne : d ≠ [] := by
    cases d with
    | nil => simp at hlong
    | cons a t => simp
  have hm := entityBodyMatch_dec d hne hdig
  obtain ⟨c0, d', rfl⟩ := List.exists_cons_of_ne_nil hne
  have hc0 := hdig c0 (by simp)
  have hxl : ¬ toLowerJS c0 = 'x' := by
    rw [toLowerJS_digit hc0]
    have h := digit_ne hc0 'x' (by decide)
    rw [h]; exact id
  have hsharp : toLowerJS '#' = '#' := by decide
  have hlen7 : 7 < d'.length + 1 := by
    simp only [List.length_cons] at hlong
    omega
  have hb : decodeEntityBody ('#' :: (c0 :: d'))
      = '&' :: '#' :: ((c0 :: d') ++ [';']) := by
    simp only [decodeEntityBody, List.map_cons, hsharp]
    simp [hxl, hlen7]
  simp only [decodeEntities, decodeEntitiesGo, hm, hb,
    decodeEntitiesGo_nil, List.append_nil]

/-- `decodeEntities` leaves a hex reference of 7 or more digits
unchanged. -/
theorem decodeEntities_hex_long (d : Str) (hlong : 7 ≤ d.length)
    (hhex : ∀ c ∈ d, isHexDigitJS c = true) :
    decodeEntities ('&' :: '#' :: 'x' :: (d ++ [';']))
      = '&' :: '#' :: 'x' :: (d ++ [';']) := by
  have hne : d ≠ [] := by
    cases d with
    | nil => simp at hlong
    | cons a t => simp
  have hm := entityBodyMatch_hex d hne hhex
  have hsharp : toLowerJS '#' = '#' := by decide
  have hxx : toLowerJS 'x' = 'x' := by decide
  have hlen6 : 6 < d.length := by omega
  have hb : decodeEntityBody ('#' :: 'x' :: d)
      = '&' :: '#' :: 'x' :: (d ++ [';']) := by
    simp only [decodeEntityBody, List.map_cons, hsharp, hxx]
    simp [hlen6]
  simp only [decodeEntities, decodeEntitiesGo, hm, hb,
    decodeEntitiesGo_nil, List.append_nil]

/-- `decodeEntities` leaves a numeric-reference candidate whose first
digit position holds a non-digit (and non-`x`) char unchanged, when the
rest of the text holds no further ampersand. -/
theorem decodeEntities_badentity (c : Char) (t : Str)
    (hhex : isHexDigitJS c = false) (hx : ¬ c = 'x') (hX : ¬ c = 'X')
    (hamp : ∀ ch ∈ '#' :: c :: t, ch ≠ '&') :
    decodeEntities ('&' :: '#' :: c :: t) = '&' :: '#' :: c :: t := by
  have hm : entityBodyMatch ('#' :: c :: t) = none := by
    simp only [entityBodyMatch, entXPart_default hx hX]
    simp [List.takeWhile_cons, hhex]
  have hamp2 : ∀ ch ∈ c :: t, ch ≠ '&' :=
    fun ch h2 => hamp ch (List.mem_cons_of_mem _ h2)
  simp only [decodeEntities, decodeEntitiesGo, hm]
  rw [decodeEntitiesGo_no_amp _ _ hamp2]

/-- Claim C6: numeric character references.  A decimal reference
`&#D;` of 1–7 digits and a hex reference `&#xH;` of 1–6 digits decode
to U+FFFD when the value is 0, above 0x10FFFF, or a surrogate
(0xD800–0xDFFF), and to the code point otherwise; invalid forms — too
many digits, a non-digit character, or empty digits — are left
unchanged, `&` and `;` preserved. -/
theorem claim_C6 :
    (∀ d : Str, d ≠ [] → d.length ≤ 7 → (∀ c ∈ d, isDigitJS c = true) →
      decodeEntities ('&' :: '#' :: (d ++ [';']))
        = (if parseDecimal d = 0 ∨ parseDecimal d > 0x10FFFF ∨
              (0xD800 ≤ parseDecimal d ∧ parseDecimal d ≤ 0xDFFF)
           then [Char.ofNat 0xFFFD]
           else [Char.ofNat (parseDecimal d)])) ∧
    (∀ d : Str, d ≠ [] → d.length ≤ 6 → (∀ c ∈ d, isHexDigitJS c = true) →
      decodeEntities ('&' :: '#' :: 'x' :: (d ++ [';']))
        = (if parseHex d = 0 ∨ parseHex d > 0x10FFFF ∨
              (0xD800 ≤ parseHex d ∧ parseHex d ≤ 0xDFFF)
           then [Char.ofNat 0xFFFD]
           else [Char.ofNat (parseHex d)])) ∧
    (∀ d : Str, 8 ≤ d.length → (∀ c ∈ d, isDigitJS c = true) →
      decodeEntities ('&' :: '#' :: (d ++ [';']))
        = '&' :: '#' :: (d ++ [';'])) ∧
    (∀ d : Str, 7 ≤ d.length → (∀ c ∈ d, isHexDigitJS c = true) →
      decodeEntities ('&' :: '#' :: 'x' :: (d ++ [';']))
        = '&' :: '#' :: 'x' :: (d ++ [';'])) ∧
    (∀ (c : Char) (t : Str), isHexDigitJS c = false → ¬ c = 'x' →
      ¬ c = 'X' → (∀ ch ∈ '#' :: c :: t, ch ≠ '&') →
      decodeEntities ('&' :: '#' :: c :: t) = '&' :: '#' :: c :: t) ∧
    decodeEntities ('&' :: '#' :: [';']) = '&' :: '#' :: [';'] ∧
    decodeEntities ('&' :: '#' :: 'x' :: [';'])
      = '&' :: '#' :: 'x' :: [';'] :=
  ⟨decodeEntities_dec, decodeEntities_hex, decodeEntities_dec_long,
   decodeEntities_hex_long, decodeEntities_badentity,
   by decide, by decide⟩

/-- Claim C6 witness: `&#0;` → U+FFFD, `&#xd800;` → U+FFFD,
`&#65;` → `A`, `&#12345678;` unchanged, `&#xABCDEF1;` unchanged,
`&#z;` unchanged. -/
theorem claim_C6_witness :
    decodeEntities ('&' :: '#' :: ((['0'] : Str) ++ [';']))
      = [Char.ofNat 0xFFFD] ∧
    decodeEntities ('&' :: '#' :: 'x' ::
        ((['d', '8', '0', '0'] : Str) ++ [';'])) = [Char.ofNat 0xFFFD] ∧
    decodeEntities ('&' :: '#' :: ((['6', '5'] : Str) ++ [';']))
      = [Char.ofNat 65] ∧
    decodeEntities ('&' :: '#' ::
        ((['1', '2', '3', '4', '5', '6', '7', '8'] : Str) ++ [';']))
      = '&' :: '#' ::
        ((['1', '2', '3', '4', '5', '6', '7', '8'] : Str) ++ [';']) ∧
    decodeEntities ('&' :: '#' :: 'x' ::
        ((['A', 'B', 'C', 'D', 'E', 'F', '1'] : Str) ++ [';']))
      = '&' :: '#' :: 'x' ::
        ((['A', 'B', 'C', 'D', 'E', 'F', '1'] : Str) ++ [';']) ∧
    decodeEntities ('&' :: '#' :: 'z' :: [';'])
      = '&' :: '#' :: 'z' :: [';'] :=
  ⟨(claim_C6.1 ['0'] (by decide) (by decide) (by decide)).trans
     (by decide),
   (claim_C6.2.1 ['d', '8', '0', '0'] (by decide) (by decide)
     (by decide)).trans (by decide),
   (claim_C6.1 ['6', '5'] (by decide) (by decide) (by decide)).trans
     (by decide),
   claim_C6.2.2.1 ['1', '2', '3', '4', '5', '6', '7', '8'] (by decide)
     (by decide),
   claim_C6.2.2.2.1 ['A', 'B', 'C', 'D', 'E', 'F', '1'] (by decide)
     (by decide),
   claim_C6.2.2.2.2.1 'z' [';'] (by decide) (by decide) (by decide)
     (by decide)⟩

/-- A valid scalar value round-trips through `Char.ofNat`. -/
theorem charOfNat_toNat {n : Nat} (h : n < 55296) :
    (Char.ofNat n).toNat = n := by
  have hv : n.isValidChar := Or.inl h
  simp [Char.ofNat, hv, Char.ofNatAux, Char.toNat, UInt32.toNat]

/-- `toLowerCase` fixes a char outside its three mapped ranges. -/
theorem toLowerJS_fix {c : Char} (h1 : ¬(65 ≤ c.toNat ∧ c.toNat ≤ 90))
    (h2 : ¬(192 ≤ c.toNat ∧ c.toNat ≤ 222 ∧ c.toNat ≠ 215))
    (h3 : ¬ c.toNat = 7838) : toLowerJS c = c := by
  have g1 : ¬('A' ≤ c ∧ c ≤ 'Z') := fun ⟨a, b⟩ => h1 ⟨a, b⟩
  simp [toLowerJS, g1, h2, h3]

/-- `toLowerCase` is idempotent. -/
theorem toLowerJS_idem (c : Char) :
    toLowerJS (toLowerJS c) = toLowerJS c := by
  by_cases h1 : 65 ≤ c.toNat ∧ c.toNat ≤ 90
  · have g1 : ('A' ≤ c ∧ c ≤ 'Z') := ⟨h1.1, h1.2⟩
    have e : toLowerJS c = Char.ofNat (c.toNat + 32) := by
      simp [toLowerJS, g1]
    have ht : (Char.ofNat (c.toNat + 32)).toNat = c.toNat + 32 :=
      charOfNat_toNat (by omega)
    rw [e]
    exact toLowerJS_fix (by rw [ht]; omega) (by rw [ht]; omega)
      (by rw [ht]; omega)
  · have g1 : ¬('A' ≤ c ∧ c ≤ 'Z') := fun ⟨a, b⟩ => h1 ⟨a, b⟩
    by_cases h2 : 192 ≤ c.toNat ∧ c.toNat ≤ 222 ∧ c.toNat ≠ 215
    · have e : toLowerJS c = Char.ofNat (c.toNat + 32) := by
        simp [toLowerJS, g1, h2]
      have ht : (Char.ofNat (c.toNat + 32)).toNat = c.toNat + 32 :=
        charOfNat_toNat (by omega)
      rw [e]
      exact toLowerJS_fix (by rw [ht]; omega) (by rw [ht]; omega)
        (by rw [ht]; omega)
    · by_cases h3 : c.toNat = 7838
      · have e : toLowerJS c = Char.ofNat 223 := by
          simp [toLowerJS, g1, h2, h3]
        have ht : (Char.ofNat 223).toNat = 223 := by decide
        rw [e]
        exact toLowerJS_fix (by rw [ht]; omega) (by rw [ht]; omega)
          (by rw [ht]; omega)
      · have e := toLowerJS_fix h1 h2 h3
        rw [e, e]

/-- Every char `caseFold` emits is `toLowerCase`-fixed and is not `ß`. -/
theorem caseFold_chars (s : Str) :
    ∀ c ∈ caseFold s, toLowerJS c = c ∧ c.toNat ≠ 0xDF := by
  intro c hc
  simp only [caseFold, List.mem_flatMap, List.mem_map] at hc
  obtain ⟨b, ⟨a, ha, rfl⟩, hcb⟩ := hc
  by_cases hdf : (toLowerJS a).toNat = 0xDF
  · simp only [hdf, if_true] at hcb
    have hs : c = 's' := by simpa using hcb
    subst hs
    exact ⟨by decide, by decide⟩
  · simp only [hdf, if_false] at hcb
    have hs : c = toLowerJS a := by simpa using hcb
    subst hs
    exact ⟨toLowerJS_idem a, hdf⟩

/-- `caseFold` fixes a string of `toLowerCase`-fixed, non-`ß` chars. -/
theorem caseFold_fixed {z : Str}
    (h : ∀ c ∈ z, toLowerJS c = c ∧ c.toNat ≠ 0xDF) : caseFold z = z := by
  induction z with
  | nil => rfl
  | cons a t ih =>
    obtain ⟨ha1, ha2⟩ := h a (by simp)
    have ih2 := ih (fun c hc => h c (by simp [hc]))
    simp only [caseFold, List.map_cons, List.flatMap_cons, ha1, ha2,
      if_false] at ih2 ⊢
    simp [ih2, ha2]

/-- The collapse scanner's output: no two adjacent whitespace chars,
every whitespace char is a plain space, chars come from the input or
are spaces, and after an open run the next output char is non-space. -/
theorem collapseWSGo_shape : ∀ (u : Str) (b : Bool),
    List.Chain' (fun a c => isSpaceJS a = false ∨ isSpaceJS c = false)
      (collapseWSGo b u) ∧
    (∀ c ∈ collapseWSGo b u, isSpaceJS c = true → c = ' ') ∧
    (∀ c ∈ collapseWSGo b u, c = ' ' ∨ c ∈ u) ∧
    (b = true → ∀ c ∈ (collapseWSGo b u).head?, isSpaceJS c = false) := by
  intro u
  induction u with
  | nil =>
    intro b
    refine ⟨by simp [collapseWSGo], by simp [collapseWSGo],
      by simp [collapseWSGo], ?_⟩
    intro _
    simp [collapseWSGo]
  | cons a t ih =>
    intro b
    by_cases ha : isSpaceJS a = true
    · cases b with
      | true =>
        have e : collapseWSGo true (a :: t) = collapseWSGo true t := by
          simp [collapseWSGo, ha]
        obtain ⟨ih1, ih2, ih3, ih4⟩ := ih true
        rw [e]
        exact ⟨ih1, ih2,
          fun c hc => (ih3 c hc).imp id (List.mem_cons_of_mem a),
          fun _ => ih4 rfl⟩
      | false =>
        have e : collapseWSGo false (a :: t)
            = ' ' :: collapseWSGo true t := by
          simp [collapseWSGo, ha]
        obtain ⟨ih1, ih2, ih3, ih4⟩ := ih true
        rw [e]
        refine ⟨?_, ?_, ?_, ?_⟩
        · rw [List.chain'_cons']
          exact ⟨fun y hy => Or.inr (ih4 rfl y hy), ih1⟩
        · intro c hc hw
          rcases List.mem_cons.mp hc with rfl | hm
          · rfl
          · exact ih2 c hm hw
        · intro c hc
          rcases List.mem_cons.mp hc with rfl | hm
          · exact Or.inl rfl
          · exact (ih3 c hm).imp id (List.mem_cons_of_mem a)
        · intro hb
          exact absurd hb (by simp)
    · have ha2 : isSpaceJS a = false := by simpa using ha
      have e : collapseWSGo b (a :: t) = a :: collapseWSGo false t := by
        cases b <;> simp [collapseWSGo, ha2]
      obtain ⟨ih1, ih2, ih3, ih4⟩ := ih false
      rw [e]
      refine ⟨?_, ?_, ?_, ?_⟩
      · rw [List.chain'_cons']
        exact ⟨fun y hy => Or.inl ha2, ih1⟩
      · intro c hc hw
        rcases List.mem_cons.mp hc with rfl | hm
        · exact absurd hw (by simp [ha2])
        · exact ih2 c hm hw
      · intro c hc
        rcases List.mem_cons.mp hc with rfl | hm
        · exact Or.inr (by simp)
        · exact (ih3 c hm).imp id (List.mem_cons_of_mem a)
      · intro _ c hc
        have hca : a = c := by simpa using hc
        rw [← hca]
        exact ha2

/-- The collapse scanner fixes an already-collapsed string. -/
theorem collapseWSGo_id : ∀ (z : Str),
    List.Chain' (fun a c => isSpaceJS a = false ∨ isSpaceJS c = false) z →
    (∀ c ∈ z, isSpaceJS c = true → c = ' ') →
    collapseWSGo false z = z ∧
      ((∀ c ∈ z.head?, isSpaceJS c = false) →
        collapseWSGo true z = z) := by
  intro z
  induction z with
  | nil => exact fun _ _ => ⟨rfl, fun _ => rfl⟩
  | cons a t ih =>
    intro h1 h2
    have ht1 : List.Chain'
        (fun a c => isSpaceJS a = false ∨ isSpaceJS c = false) t :=
      h1.tail
    have ht2 : ∀ c ∈ t, isSpaceJS c = true → c = ' ' :=
      fun c hc => h2 c (List.mem_cons_of_mem a hc)
    obtain ⟨ihA, ihB⟩ := ih ht1 ht2
    by_cases ha : isSpaceJS a = true
    · have haeq : a = ' ' := h2 a (by simp) ha
      have hhead : ∀ c ∈ t.head?, isSpaceJS c = false := by
        intro c hc
        cases t with
        | nil => simp at hc
        | cons y u =>
          have hcy : y = c := by simpa using hc
          subst hcy
          rcases (List.chain'_cons.mp h1).1 with hl | hr
          · rw [ha] at hl
            exact absurd hl (by simp)
          · exact hr
      have e : collapseWSGo false (a :: t)
          = ' ' :: collapseWSGo true t := by
        simp [collapseWSGo, ha]
      refine ⟨?_, ?_⟩
      · rw [e, ihB hhead, haeq]
      · intro hh
        have := hh a (by simp)
        rw [ha] at this
        exact absurd this (by simp)
    · have ha2 : isSpaceJS a = false := by simpa using ha
      have e : collapseWSGo false (a :: t)
          = a :: collapseWSGo false t := by
        simp [collapseWSGo, ha2]
      have e2 : collapseWSGo true (a :: t)
          = a :: collapseWSGo false t := by
        simp [collapseWSGo, ha2]
      exact ⟨by rw [e, ihA], fun _ => by rw [e2, ihA]⟩

/-- `dropWhile` is idempotent. -/
theorem dropWhile_idem_js (p : Char → Bool) (z : Str) :
    (z.dropWhile p).dropWhile p = z.dropWhile p := by
  induction z with
  | nil => rfl
  | cons a t ih =>
    by_cases ha : p a = true
    · simp [List.dropWhile_cons, ha, ih]
    · simp [List.dropWhile_cons, ha]

/-- The head of a `dropWhile` result fails the predicate. -/
theorem head_dropWhile_false (p : Char → Bool) : ∀ z : Str,
    ∀ c ∈ (z.dropWhile p).head?, p c = false := by
  intro z
  induction z with
  | nil => intro c hc; simp at hc
  | cons a t ih =>
    intro c hc
    by_cases ha : p a = true
    · rw [List.dropWhile_cons] at hc
      simp only [ha, if_true] at hc
      exact ih c hc
    · rw [List.dropWhile_cons] at hc
      simp only [ha, if_false, Bool.false_eq_true] at hc
      have hac : a = c := by simpa using hc
      rw [← hac]
      simpa using ha

/-- `trimStart` fixes a string whose head is not whitespace. -/
theorem trimStart_eq_self_of_head (z : Str)
    (h : ∀ c ∈ z.head?, isSpaceJS c = false) : trimStartJS z = z := by
  cases z with
  | nil => rfl
  | cons a t =>
    have := h a (by simp)
    simp [trimStartJS, List.dropWhile_cons, this]

/-- `trim` output is a prefix of the `trimStart` output. -/
theorem trimJS_prefixOf (z : Str) : trimJS z <+: trimStartJS z := by
  have h : (((trimStartJS z).reverse).dropWhile isSpaceJS)
      <:+ ((trimStartJS z).reverse) := List.dropWhile_suffix _
  have h3 := List.reverse_prefix.mpr h
  rw [List.reverse_reverse] at h3
  exact h3

/-- `trim` output is an infix. -/
theorem trimJS_infix (z : Str) : trimJS z <:+: z := by
  have h1 : trimStartJS z <:+ z := List.dropWhile_suffix _
  exact (trimJS_prefixOf z).isInfix.trans h1.isInfix

/-- `trim` is idempotent. -/
theorem trimJS_idem (z : Str) : trimJS (trimJS z) = trimJS z := by
  have hhead : ∀ c ∈ (trimJS z).head?, isSpaceJS c = false := by
    intro c hc
    cases hb : trimJS z with
    | nil => rw [hb] at hc; simp at hc
    | cons b t =>
      rw [hb] at hc
      have hcb : b = c := by simpa using hc
      obtain ⟨rest, hrest⟩ := trimJS_prefixOf z
      rw [hb] at hrest
      have hh2 : b ∈ (trimStartJS z).head? → isSpaceJS b = false :=
        head_dropWhile_false isSpaceJS z b
      rw [← hrest] at hh2
      have : isSpaceJS b = false := hh2 (by simp)
      rw [← hcb]
      exact this
  have h1 : trimStartJS (trimJS z) = trimJS z :=
    trimStart_eq_self_of_head _ hhead
  show trimEndJS (trimStartJS (trimJS z)) = trimJS z
  rw [h1]
  show trimEndJS (trimEndJS (trimStartJS z)) = trimEndJS (trimStartJS z)
  unfold trimEndJS
  rw [List.reverse_reverse, dropWhile_idem_js]


/-- Claim C9: label normalization — lowercase, `ß` → `ss`, collapse
every whitespace run to one space, trim — is idempotent. -/
theorem claim_C9 (s : Str) :
    normalizeLabel (normalizeLabel s) = normalizeLabel s := by
  show trimJS (collapseWS (caseFold (trimJS (collapseWS (caseFold s)))))
      = trimJS (collapseWS (caseFold s))
  set u := caseFold s with hu
  have hPu : ∀ c ∈ u, toLowerJS c = c ∧ c.toNat ≠ 0xDF := caseFold_chars s
  obtain ⟨hchain, hws, hsub, _⟩ := collapseWSGo_shape u false
  have hPv : ∀ c ∈ collapseWS u, toLowerJS c = c ∧ c.toNat ≠ 0xDF := by
    intro c hc
    rcases hsub c hc with rfl | hm
    · exact ⟨by decide, by decide⟩
    · exact hPu c hm
  have hinf := trimJS_infix (collapseWS u)
  have hPw : ∀ c ∈ trimJS (collapseWS u),
      toLowerJS c = c ∧ c.toNat ≠ 0xDF :=
    fun c hc => hPv c (hinf.sublist.subset hc)
  have hcf : caseFold (trimJS (collapseWS u)) = trimJS (collapseWS u) :=
    caseFold_fixed hPw
  have hchainW : List.Chain'
      (fun a c => isSpaceJS a = false ∨ isSpaceJS c = false)
      (trimJS (collapseWS u)) := hchain.infix hinf
  have hwsW : ∀ c ∈ trimJS (collapseWS u), isSpaceJS c = true → c = ' ' :=
    fun c hc => hws c (hinf.sublist.subset hc)
  obtain ⟨hid, _⟩ := collapseWSGo_id (trimJS (collapseWS u)) hchainW hwsW
  calc trimJS (collapseWS (caseFold (trimJS (collapseWS u))))
      = trimJS (collapseWS (trimJS (collapseWS u))) := by rw [hcf]
    _ = trimJS (trimJS (collapseWS u)) := by
        rw [show collapseWS (trimJS (collapseWS u))
            = trimJS (collapseWS u) from hid]
    _ = trimJS (collapseWS u) := trimJS_idem _

/-- A string holding a non-whitespace char is not blank. -/
theorem isBlank_false_of_mem (s : Str) (c : Char) (hc : c ∈ s)
    (hns : isSpaceJS c = false) : isBlank s = false := by
  have hne : trimStartJS s ≠ [] := by
    unfold trimStartJS
    induction s with
    | nil => simp at hc
    | cons a t ih =>
      by_cases ha : isSpaceJS a = true
      · rcases List.mem_cons.mp hc with rfl | hm
        · rw [ha] at hns
          exact absurd hns (by simp)
        · simpa [List.dropWhile_cons, ha] using ih hm
      · simp [List.dropWhile_cons, ha]
  obtain ⟨c', t, heq⟩ := List.exists_cons_of_ne_nil hne
  have hc' : isSpaceJS c' = false := by
    have := head_dropWhile_false isSpaceJS s c'
    rw [show s.dropWhile isSpaceJS = c' :: t from heq] at this
    exact this (by simp)
  have hts : trimStartJS (c' :: t) = c' :: t :=
    trimStart_eq_self_of_head _ (by
      intro x hx
      have hxc : c' = x := by simpa using hx
      rw [← hxc]; exact hc')
  have hblank := isBlank_cons_nonspace hc' t
  unfold isBlank trimJS at hblank ⊢
  rw [heq]
  rw [hts] at hblank
  exact hblank

/-- `joinNL` of a list whose head is nonempty is nonempty. -/
theorem joinNL_head_ne_nil {x : Str} (hx : x ≠ []) (l : List Str) :
    joinNL (x :: l) ≠ [] := by
  cases l with
  | nil => simpa [joinNL]
  | cons y t =>
    simp [joinNL, List.intersperse_cons_cons, hx]

/-- A non-blank string is nonempty. -/
theorem ne_nil_of_isBlank_false {x : Str} (hx : isBlank x = false) :
    x ≠ [] := by
  rintro rfl
  exact absurd hx (by decide)

/-- `dropWhile` keeps a failing last element. -/
theorem dropWhile_append_last (p : Str → Bool) {x : Str}
    (hx : p x = false) :
    ∀ ys : List Str, ∃ t, (ys ++ [x]).dropWhile p = t ++ [x] := by
  intro ys
  induction ys with
  | nil => exact ⟨[], by simp [List.dropWhile_cons, hx]⟩
  | cons a u ih =>
    by_cases ha : p a = true
    · obtain ⟨t, ht⟩ := ih
      exact ⟨t, by simp [List.dropWhile_cons, ha, ht]⟩
    · exact ⟨a :: u, by simp [List.dropWhile_cons, ha]⟩

/-- Dropping trailing blanks keeps a non-blank head. -/
theorem dropTrailingBlank_head {x : Str} (hx : isBlank x = false)
    (l : List Str) : ∃ t, dropTrailingBlank (x :: l) = x :: t := by
  unfold dropTrailingBlank
  obtain ⟨t, ht⟩ := dropWhile_append_last isBlank hx l.reverse
  rw [List.reverse_cons, ht]
  exact ⟨t.reverse, by simp⟩

/-- A successful html-block start match implies a `<` in the line (so
the line is nonempty and not blank). -/
theorem htmlBlockStartMatch_nonblank (s : Str) (name : Str)
    (h : htmlBlockStartMatch s = some name) :
    s ≠ [] ∧ isBlank s = false := by
  unfold htmlBlockStartMatch at h
  split at h
  · next t heq =>
    have hmem : '<' ∈ s := by
      unfold dropUpTo3Spaces at heq
      dsimp only [] at heq
      split at heq
      · injection heq with h2
        have : '<' ∈ s.drop (s.takeWhile (fun c => c = ' ')).length := by
          rw [h2]; simp
        exact List.drop_subset _ s this
      · exact absurd heq (by simp)
    have hb := isBlank_false_of_mem s '<' hmem (by decide)
    refine ⟨?_, hb⟩
    rintro rfl
    simp at hmem
  · exact absurd h (by simp)

/-- `parseThematicBreak` only yields a thematic-break node. -/
theorem parseThematicBreak_shape {s : Str} {nd : Node}
    (h : parseThematicBreak s = some nd) : nd = Node.thematicBreak := by
  unfold parseThematicBreak at h
  split at h
  · injection h with h1
    exact h1.symm
  · exact absurd h (by simp)

/-- `parseSetextHeading` only yields heading nodes. -/
theorem parseSetextHeading_shape {pl : List Str} {nl : Str} {nd : Node}
    (h : parseSetextHeading pl nl = some nd) :
    ∃ lvl c, nd = Node.heading lvl c := by
  unfold parseSetextHeading at h
  dsimp only [] at h
  split at h
  · exact absurd h (by simp)
  · split at h
    · exact absurd h (by simp)
    · injection h with h1
      exact ⟨_, _, h1.symm⟩

/-- `parseATXHeading` only yields heading nodes. -/
theorem parseATXHeading_shape {s : Str} {nd : Node}
    (h : parseATXHeading s = some nd) :
    ∃ lvl c, nd = Node.heading lvl c := by
  unfold parseATXHeading at h
  dsimp only [] at h
  split at h
  · exact absurd h (by simp)
  · split at h
    · exact absurd h (by simp)
    · split at h
      · exact absurd h (by simp)
      · injection h with h1
        exact ⟨_, _, h1.symm⟩

/-- `parseBlockquote` only yields blockquote nodes. -/
theorem parseBlockquote_shape {ls : List Str} {pf : Str → List Node}
    {nd : Node} {n : Nat} (h : parseBlockquote ls pf = some (nd, n)) :
    ∃ ch, nd = Node.blockquote ch := by
  unfold parseBlockquote at h
  dsimp only [] at h
  split at h
  · exact absurd h (by simp)
  · split at h
    · exact absurd h (by simp)
    · injection h with h1
      injection h1 with h2 h3
      exact ⟨_, h2.symm⟩

/-- `parseList` only yields list nodes. -/
theorem parseList_shape {ls : List Str} {pf : Str → List Node}
    {nd : Node} {n : Nat} (h : parseList ls pf = some (nd, n)) :
    ∃ o st lo items, nd = Node.list o st lo items := by
  unfold parseList at h
  dsimp only [] at h
  split at h
  · exact absurd h (by simp)
  · split at h
    · injection h with h1
      injection h1 with h2 h3
      exact ⟨_, _, _, _, h2.symm⟩
    · exact absurd h (by simp)

/-- `parseCodeBlock` only yields code-block nodes. -/
theorem parseCodeBlock_shape {ls : List Str} {nd : Node} {n : Nat}
    (h : parseCodeBlock ls = some (nd, n)) :
    ∃ c lang, nd = Node.codeBlock c lang := by
  unfold parseCodeBlock at h
  dsimp only [] at h
  split at h
  · exact absurd h (by simp)
  · split at h
    · next r heq =>
      injection h with h1
      subst h1
      split at heq
      · split at heq
        · split at heq
          · exact absurd heq (by simp)
          · injection heq with h2
            injection h2 with h3 h4
            exact ⟨_, _, h3.symm⟩
        · exact absurd heq (by simp)
      · exact absurd heq (by simp)
    · split at h
      · injection h with h1
        injection h1 with h2 h3
        exact ⟨_, _, h2.symm⟩
      · exact absurd h (by simp)

/-- `parseParagraph`'s loop short-circuits only with a heading node. -/
theorem paraLoop_inl_shape : ∀ (fuel : Nat) (ls acc : List Str)
    (k : Nat) (nd : Node) (m : Nat),
    paraLoop fuel ls acc k = Sum.inl (nd, m) →
    ∃ lvl c, nd = Node.heading lvl c := by
  intro fuel
  induction fuel with
  | zero =>
    intro ls acc k nd m h
    exact absurd h (by simp [paraLoop])
  | succ f ih =>
    intro ls acc k nd m h
    match ls with
    | [] => exact absurd h (by simp [paraLoop])
    | l :: rest =>
      simp only [paraLoop] at h
      split at h
      · exact absurd h (by simp)
      · split at h
        · exact absurd h (by simp)
        · split at h
          · exact absurd h (by simp)
          · split at h
            · next node heq =>
              injection h with h1
              injection h1 with h2 h3
              subst h2
              split at heq
              · split at heq
                · exact parseSetextHeading_shape heq
                · exact absurd heq (by simp)
              · exact absurd heq (by simp)
            · exact ih _ _ _ _ _ h

/-- `parseParagraph` only yields paragraph or heading nodes. -/
theorem parseParagraph_shape {ls : List Str} {nd : Node} {n : Nat}
    (h : parseParagraph ls = some (nd, n)) :
    (∃ c, nd = Node.paragraph c) ∨ ∃ lvl c, nd = Node.heading lvl c := by
  unfold parseParagraph at h
  split at h
  · next r heq =>
    injection h with h1
    subst h1
    exact Or.inr (paraLoop_inl_shape _ _ _ _ _ _ heq)
  · next pl cons heq =>
    split at h
    · exact absurd h (by simp)
    · injection h with h1
      injection h1 with h2 h3
      exact Or.inl ⟨_, h2.symm⟩

/-- Members survive the `^ {0,3}` consumption backwards. -/
theorem dropUpTo3Spaces_mem {s t : Str} {c : Char}
    (h : dropUpTo3Spaces s = some t) (hc : c ∈ t) : c ∈ s := by
  unfold dropUpTo3Spaces at h
  dsimp only [] at h
  split at h
  · injection h with h1
    rw [← h1] at hc
    exact List.drop_subset _ s hc
  · exact absurd h (by simp)

/-- `parseHtmlBlock` only yields html-block nodes with nonempty
content. -/
theorem parseHtmlBlock_shape {ls : List Str} {pb : Bool} {nd : Node}
    {n : Nat} (h : parseHtmlBlock ls pb = some (nd, n)) :
    ∃ c, nd = Node.htmlBlock c ∧ c ≠ [] := by
  unfold parseHtmlBlock at h
  dsimp only [] at h
  split at h
  · exact absurd h (by simp)
  · next line rest =>
    split at h
    · next r heq =>
      injection h with h1
      subst h1
      split at heq
      · next name heq2 =>
        obtain ⟨hsne, hsnb⟩ := htmlBlockStartMatch_nonblank _ _ heq2
        split at heq
        · split at heq
          · split at heq
            · injection heq with h2
              injection h2 with h3 h4
              exact ⟨_, h3.symm, hsne⟩
            · injection heq with h2
              injection h2 with h3 h4
              refine ⟨_, h3.symm, ?_⟩
              split
              · exact joinNL_head_ne_nil hsne _
              · obtain ⟨t, ht⟩ := dropTrailingBlank_head hsnb _
                rw [ht]
                exact joinNL_head_ne_nil hsne _
          · injection heq with h2
            injection h2 with h3 h4
            exact ⟨_, h3.symm, joinNL_head_ne_nil hsne _⟩
        · exact absurd heq (by simp)
      · exact absurd heq (by simp)
    · split at h
      · next hc25 =>
        have hlt : '<' ∈ stripLazy line := by
          split at hc25
          · next t heqd =>
            simp only [Bool.or_eq_true, beq_iff_eq,
              Bool.and_eq_true] at hc25
            have hmem : '<' ∈ t := by
              rcases hc25 with ((h4 | h2) | ⟨h2b, _⟩) | h9
              · have : '<' ∈ t.take 4 := by rw [h4]; simp
                exact List.take_subset _ t this
              · have : '<' ∈ t.take 2 := by rw [h2]; simp
                exact List.take_subset _ t this
              · have : '<' ∈ t.take 2 := by rw [h2b]; simp
                exact List.take_subset _ t this
              · have : '<' ∈ t.take 9 := by rw [h9]; simp
                exact List.take_subset _ t this
            exact dropUpTo3Spaces_mem heqd hmem
          · exact absurd hc25 (by simp)
        have hsne : stripLazy line ≠ [] := by
          rintro hnil
          rw [hnil] at hlt
          simp at hlt
        iterate 5
          all_goals try (split at h)
        all_goals
          injection h with h2
        all_goals
          injection h2 with h3 h4
        all_goals
          first
            | exact ⟨_, h3.symm, hsne⟩
            | exact ⟨_, h3.symm, joinNL_head_ne_nil hsne _⟩
      · split at h
        · next hcond =>
          have hsne : stripLazy line ≠ [] := by
            rintro hnil
            rw [hnil] at hcond
            exact absurd hcond.1 (by decide)
          injection h with h2
          injection h2 with h3 h4
          exact ⟨_, h3.symm, joinNL_head_ne_nil hsne _⟩
        · exact absurd h (by simp)

/-- Every node the block loop emits satisfies the shape invariant. -/
theorem blocksLoop_shape (parseFn : Str → List Node) :
    ∀ (fuel : Nat) (ls : List Str) (pb : Bool),
      ∀ nd ∈ blocksLoop parseFn fuel ls pb, blockShape nd := by
  intro fuel
  induction fuel with
  | zero => intro ls pb nd h; simp [blocksLoop] at h
  | succ f ih =>
    intro ls pb nd h
    match ls with
    | [] => simp [blocksLoop] at h
    | l :: rest =>
      simp only [blocksLoop] at h
      split at h
      · next node heq =>
        rcases List.mem_append.mp h with hm | hm
        · have : nd = node := by simpa using hm
          subst this
          rw [parseThematicBreak_shape heq]
          trivial
        · exact ih _ _ nd hm
      · split at h
        · next node n heq =>
          rcases List.mem_append.mp h with hm | hm
          · have : nd = node := by simpa using hm
            subst this
            obtain ⟨ch, hch⟩ := parseBlockquote_shape heq
            rw [hch]
            trivial
          · exact ih _ _ nd hm
        · split at h
          · next node n heq =>
            rcases List.mem_append.mp h with hm | hm
            · have : nd = node := by simpa using hm
              subst this
              obtain ⟨o, st, lo, items, hl⟩ := parseList_shape heq
              rw [hl]
              trivial
            · exact ih _ _ nd hm
          · split at h
            · next node n heq =>
              rcases List.mem_append.mp h with hm | hm
              · have : nd = node := by simpa using hm
                subst this
                obtain ⟨c, lang, hc⟩ := parseCodeBlock_shape heq
                rw [hc]
                trivial
              · exact ih _ _ nd hm
            · split at h
              · next node heq =>
                rcases List.mem_append.mp h with hm | hm
                · have : nd = node := by simpa using hm
                  subst this
                  obtain ⟨lvl, c, hc⟩ := parseATXHeading_shape heq
                  rw [hc]
                  trivial
                · exact ih _ _ nd hm
              · split at h
                · next node n heq =>
                  rcases List.mem_append.mp h with hm | hm
                  · have : nd = node := by simpa using hm
                    subst this
                    obtain ⟨c, hc, hcne⟩ := parseHtmlBlock_shape heq
                    rw [hc]
                    exact hcne
                  · exact ih _ _ nd hm
                · split at h
                  · split at h
                    · next node n heq =>
                      rcases List.mem_append.mp h with hm | hm
                      · have : nd = node := by simpa using hm
                        subst this
                        rcases parseParagraph_shape heq with ⟨c, hc⟩ |
                          ⟨lvl, c, hc⟩
                        · rw [hc]; trivial
                        · rw [hc]; trivial
                      · exact ih _ _ nd hm
                    · rcases List.mem_append.mp h with hm | hm
                      · simp at hm
                      · exact ih _ _ nd hm
                  · rcases List.mem_append.mp h with hm | hm
                    · simp at hm
                    · exact ih _ _ nd hm

/-- A shape-conforming node renders to nonempty HTML. -/
theorem nodeToHTML_ne_nil (refs : Option RefMap) (nd : Node)
    (h : blockShape nd) : nodeToHTML refs nd ≠ [] := by
  cases nd with
  | heading lvl c => simp [nodeToHTML, headingToHTML]
  | paragraph c => simp [nodeToHTML, paragraphToHTML]
  | codeBlock c lang => simp [nodeToHTML, codeBlockToHTML]
  | list o s lo items => simp [nodeToHTML, listWrap]
  | listItem ch lo => exact h.elim
  | blockquote ch =>
    simp only [nodeToHTML]
    split <;> simp
  | thematicBreak => simp [nodeToHTML, thematicBreakToHTML]
  | htmlBlock c => simpa [nodeToHTML] using h

/-- Shape invariant for `parseBlocksGo` output. -/
theorem parseBlocksGo_shape (fuel : Nat) (src : Str) :
    ∀ nd ∈ parseBlocksGo fuel src, blockShape nd := by
  cases fuel with
  | zero => intro nd h; simp [parseBlocksGo] at h
  | succ f =>
    intro nd h
    exact blocksLoop_shape _ _ _ _ nd h

/-- Shape invariant for the parsed document. -/
theorem parseDoc_shape (md : Str) :
    ∀ nd ∈ (parseDoc md).1, blockShape nd := by
  intro nd h
  exact parseBlocksGo_shape _ _ nd h

/-- Claim C7: `Convert ""` is the empty string; in general the output
is empty exactly when the input produces no blocks, and when at least
one block is produced the output is nonempty and ends in LF. -/
theorem claim_C7 :
    convertToHTML [] = [] ∧
    ∀ md : Str,
      (convertToHTML md = [] ↔ (parseDoc md).1 = []) ∧
      ((parseDoc md).1 ≠ [] →
        convertToHTML md ≠ [] ∧
        (convertToHTML md).getLast? = some '\n') := by
  refine ⟨by decide, ?_⟩
  intro md
  have hconv : convertToHTML md
      = (if (joinNL (nodesToHTML (some (parseDoc md).2)
            (parseDoc md).1)).isEmpty then []
         else joinNL (nodesToHTML (some (parseDoc md).2)
            (parseDoc md).1) ++ ['\n']) := rfl
  cases hcase : (parseDoc md).1 with
  | nil =>
    constructor
    · rw [hconv, hcase]
      simp [nodesToHTML, joinNL]
    · intro hne
      exact absurd rfl hne
  | cons n0 t =>
    have h0 : blockShape n0 := parseDoc_shape md n0 (by rw [hcase]; simp)
    have hniln : nodeToHTML (some (parseDoc md).2) n0 ≠ [] :=
      nodeToHTML_ne_nil _ _ h0
    have hjoin : joinNL (nodesToHTML (some (parseDoc md).2)
        (parseDoc md).1) ≠ [] := by
      rw [hcase]
      show joinNL (nodeToHTML (some (parseDoc md).2) n0 ::
        nodesToHTML (some (parseDoc md).2) t) ≠ []
      exact joinNL_head_ne_nil hniln _
    have hemp : (joinNL (nodesToHTML (some (parseDoc md).2)
        (parseDoc md).1)).isEmpty = false := by
      rw [List.isEmpty_eq_false_iff_exists_mem]
      cases hj : joinNL (nodesToHTML (some (parseDoc md).2)
          (parseDoc md).1) with
      | nil => exact absurd hj hjoin
      | cons a u => exact ⟨a, by simp⟩
    constructor
    · constructor
      · intro he
        rw [hconv, hemp] at he
        simp at he
      · intro hnil
        exact absurd hnil (by simp)
    · intro _
      rw [hconv, hemp]
      simp only [Bool.false_eq_true, if_false]
      exact ⟨by simp, by
        rw [List.getLast?_concat]⟩

/-- Claim C7 witness: the one-paragraph input `x` yields one block,
nonempty output, and a trailing LF. -/
theorem claim_C7_witness :
    ((parseDoc ("x".data)).1 ≠ []) ∧
    convertToHTML ("x".data) ≠ [] ∧
    (convertToHTML ("x".data)).getLast? = some '\n' := by
  have he : (parseDoc ("x".data)).1 = [Node.paragraph ['x']] := rfl
  have hne : (parseDoc ("x".data)).1 ≠ [] := by rw [he]; simp
  exact ⟨hne, ((claim_C7.2 ("x".data)).2 hne).1,
    ((claim_C7.2 ("x".data)).2 hne).2⟩

/-- CRLF normalization distributes over a leading LF. -/
theorem normalizeNL_lf (s : Str) :
    normalizeNL ('\n' :: s) = '\n' :: normalizeNL s := rfl

/-- `split('\n')` on a leading LF yields a leading empty line. -/
theorem splitNL_lf (s : Str) :
    splitNL ('\n' :: s) = [] :: splitNL s := by
  simp [splitNL]

/-- An absent previous line and a blank previous line drive the
extractor identically (both let a definition start). -/
theorem extractLoop_prev_blank : ∀ (fuel : Nat) (ls : List Str)
    (pwd : Bool) (fence : Option (Char × Nat)) (refs : RefMap),
    extractLoop fuel ls (some []) pwd fence refs
      = extractLoop fuel ls none pwd fence refs := by
  intro fuel ls pwd fence refs
  cases fuel with
  | zero => rfl
  | succ f =>
    cases ls with
    | nil => rfl
    | cons first rest =>
      have hc : canStartDef (some []) pwd = canStartDef none pwd := by
        cases pwd <;> decide
      simp only [extractLoop, hc]

/-- The extractor passes a leading blank line through, consuming one
fuel unit. -/
theorem extractLoop_blank_step (n : Nat) (lines : List Str)
    (refs : RefMap) :
    extractLoop (n + 1) ([] :: lines) none false none refs
      = (([] : Str) :: (extractLoop n lines none false none refs).1,
         (extractLoop n lines none false none refs).2) := by
  have h1 : bqMarkSp ([] : Str) = none := rfl
  have h2 : fenceHeadSpaces ([] : Str) = none := rfl
  have h3 : startDefMatch ([] : Str) = none := rfl
  have h4 : openLabelMatch ([] : Str) = none := rfl
  simp only [extractLoop, h1, h2, h3, h4, Option.getD, ite_self,
    Option.isSome_none, Bool.false_eq_true, if_false]
  rw [extractLoop_prev_blank]

/-- The block loop skips a leading blank line, consuming one fuel
unit and keeping the previous-line-blank flag true. -/
theorem blocksLoop_blank_step (pf : Str → List Node) (n : Nat)
    (ls2 : List Str) :
    blocksLoop pf (n + 1) ([] :: ls2) true = blocksLoop pf n ls2 true := by
  have h1 : stripLazy ([] : Str) = [] := rfl
  have h2 : parseThematicBreak ([] : Str) = none := rfl
  have h3 : bqTest ([] : Str) = false := rfl
  have h4 : bulletMatch ([] : Str) = none := rfl
  have h5 : orderedMatch ([] : Str) = none := rfl
  have h6 : fenceFull ([] : Str) = none := rfl
  have h7 : indentWidth ([] : Str) = 0 := rfl
  have h8 : parseATXHeading ([] : Str) = none := rfl
  have h9 : htmlBlockStartMatch ([] : Str) = none := rfl
  have h10 : dropUpTo3Spaces ([] : Str) = some [] := rfl
  have h11 : isHtmlTag ([] : Str) = false := rfl
  have h12 : isBlank ([] : Str) = true := rfl
  simp only [blocksLoop, h1, h2, h3, h4, h5, h6, h7, h8, h9, h10, h11,
    h12]
  simp [parseBlockquote, parseList, parseCodeBlock, parseHtmlBlock,
    h3, h4, h5, h6, h7, h9, h10, h11, h12, h1]

/-- Counting non-newline chars ignores a prepended LF. -/
theorem countNonNL_lf (s : Str) : countNonNL ('\n' :: s) = countNonNL s := by
  simp [countNonNL]

/-- Block parsing ignores a prepended blank line. -/
theorem parseBlocks_lf (src : Str) :
    parseBlocks ('\n' :: src) = parseBlocks src := by
  unfold parseBlocks
  rw [countNonNL_lf]
  simp only [parseBlocksGo, normalizeNL_lf, splitNL_lf, List.length_cons]
  exact blocksLoop_blank_step _ _ _

/-- The parsed document ignores a prepended blank line. -/
theorem parseDoc_lf (x : Str) : parseDoc ('\n' :: x) = parseDoc x := by
  unfold parseDoc
  simp only [normalizeNL_lf, splitNL_lf, List.length_cons,
    extractLoop_blank_step]
  cases hF : (extractLoop ((splitNL (normalizeNL x)).length + 1)
      (splitNL (normalizeNL x)) none false none []).1 with
  | nil => rfl
  | cons f t =>
    have hjoin : joinNL (([] : Str) :: f :: t) = '\n' :: joinNL (f :: t) := by
      simp [joinNL, List.intersperse_cons_cons]
    rw [hjoin, parseBlocks_lf]

/-- Claim C2: prepending one blank line never changes the output:
for every input `x`, `Convert ("\n" ++ x) = Convert x`. -/
theorem claim_C2 (x : Str) :
    convertToHTML ('\n' :: x) = convertToHTML x := by
  unfold convertToHTML
  rw [parseDoc_lf]

theorem refHas_cons (r : Str × RefDef) (t : RefMap) (key : Str) :
    refHas (r :: t) key = ((r.1 == key) || refHas t key) := rfl

theorem refSet_cons (r : Str × RefDef) (t : RefMap) (k2 : Str)
    (v : RefDef) : refSet (r :: t) k2 v = r :: refSet t k2 v := rfl

theorem refGet_cons_hit {r : Str × RefDef} {t : RefMap} {key : Str}
    (h : (r.1 == key) = true) : refGet (r :: t) key = some r.2 := by
  simp [refGet, List.find?, h]

theorem refGet_cons_miss {r : Str × RefDef} {t : RefMap} {key : Str}
    (h : (r.1 == key) = false) : refGet (r :: t) key = refGet t key := by
  simp [refGet, List.find?, h]

/-- Appending an entry never changes the lookup of a key already
present (the map scans left to right). -/
theorem refLookup_refSet (refs : RefMap) (k2 : Str) (v : RefDef)
    (key : Str) (hk : refHas refs key = true) :
    refHas (refSet refs k2 v) key = true ∧
    refGet (refSet refs k2 v) key = refGet refs key := by
  induction refs with
  | nil => exact absurd hk (by simp [refHas])
  | cons r t ih =>
    rw [refSet_cons]
    by_cases hr : (r.1 == key) = true
    · rw [refHas_cons, refGet_cons_hit hr, refGet_cons_hit hr, hr]
      exact ⟨rfl, rfl⟩
    · have hrf : (r.1 == key) = false := by
        cases hb : (r.1 == key) with
        | true => exact absurd hb hr
        | false => rfl
      have hk2 : refHas t key = true := by
        rw [refHas_cons, hrf] at hk
        simpa using hk
      obtain ⟨ih1, ih2⟩ := ih hk2
      rw [refHas_cons, refGet_cons_miss hrf, refGet_cons_miss hrf, hrf,
        ih1, ih2]
      exact ⟨rfl, rfl⟩

/-- The extractor's guarded insertion (`refs.set` only behind
`!refs.has(key)`) never changes the lookup of a key already present. -/
theorem refLookup_guardInsert (refs : RefMap) (k2 : Str) (v : RefDef)
    (key : Str) (hk : refHas refs key = true) :
    refHas (if ¬ k2.isEmpty ∧ ¬ refHas refs k2 then refSet refs k2 v
        else refs) key = true ∧
    refGet (if ¬ k2.isEmpty ∧ ¬ refHas refs k2 then refSet refs k2 v
        else refs) key = refGet refs key := by
  split
  · exact refLookup_refSet refs k2 v key hk
  · exact ⟨hk, rfl⟩

/-- First wins, universally: a key already bound in the reference map
keeps its binding through any further extraction — the extractor never
overwrites an existing entry. -/
theorem extractLoop_first_wins : ∀ (fuel : Nat) (ls : List Str)
    (prev : Option Str) (pwd : Bool) (fence : Option (Char × Nat))
    (refs : RefMap) (key : Str), refHas refs key = true →
    refHas (extractLoop fuel ls prev pwd fence refs).2 key = true ∧
    refGet (extractLoop fuel ls prev pwd fence refs).2 key
      = refGet refs key := by
  intro fuel
  induction fuel with
  | zero =>
    intro ls prev pwd fence refs key hk
    exact ⟨hk, rfl⟩
  | succ f ih =>
    intro ls prev pwd fence refs key hk
    cases ls with
    | nil => exact ⟨hk, rfl⟩
    | cons first rest =>
      simp only [extractLoop]
      split
      · exact ih _ _ _ _ _ _ hk
      · split
        · next result heq =>
          iterate 8
            all_goals try (split at heq)
          all_goals try
            (injection heq with h1
             subst h1
             dsimp only)
          all_goals try (exact ih _ _ _ _ _ _ hk)
          all_goals try
            (exact ⟨(ih _ _ _ _ _ _ (refLookup_refSet refs _ _ key hk).1).1,
              ((ih _ _ _ _ _ _ (refLookup_refSet refs _ _ key hk).1).2).trans
                (refLookup_refSet refs _ _ key hk).2⟩)
          all_goals try (simp at heq)
        · split
          · next result heq =>
            iterate 10
              all_goals try (split at heq)
            all_goals try
              (injection heq with h1
               subst h1
               dsimp only)
            all_goals try (exact ih _ _ _ _ _ _ hk)
            all_goals try
              (exact ⟨(ih _ _ _ _ _ _ (refLookup_refSet refs _ _ key hk).1).1,
                ((ih _ _ _ _ _ _ (refLookup_refSet refs _ _ key hk).1).2).trans
                  (refLookup_refSet refs _ _ key hk).2⟩)
            all_goals try (simp at heq)
          · exact ih _ _ _ _ _ _ hk

/-- Claim C3: duplicate reference definitions are silently ignored and
the first one wins.  Universally: once a key is bound in the reference
map, extraction over any further lines, from any extractor state and
any fuel, preserves membership and leaves the looked-up value — url and
title — unchanged, because the extractor inserts only behind
`!refs.has(key)` and never overwrites an existing entry.  Concretely,
with `[FOO]: /a "T1"` before `[Foo]: /b "T2"` (distinct spellings that
normalize to the same key `foo`), the map holds only `/a` with title
`T1`; the reference link `[foo]`, the collapsed reference `[foo][]`
and the image `![fOo]` all resolve to the first definition's url and
title; and the output equals the output for the input with the
duplicate definition line removed — no error, no other change. -/
theorem claim_C3 :
    (∀ (fuel : Nat) (ls : List Str) (prev : Option Str) (pwd : Bool)
        (fence : Option (Char × Nat)) (refs : RefMap) (key : Str),
        refHas refs key = true →
        refHas (extractLoop fuel ls prev pwd fence refs).2 key = true ∧
        refGet (extractLoop fuel ls prev pwd fence refs).2 key
          = refGet refs key) ∧
    convertToHTML
        ("[FOO]: /a \"T1\"\n[Foo]: /b \"T2\"\n\n[foo] and [foo][] and ![fOo]\n".data)
      = ("<p><a href=\"/a\" title=\"T1\">foo</a> and <a href=\"/a\" title=\"T1\">foo</a> and <img src=\"/a\" alt=\"fOo\" title=\"T1\" /></p>\n".data) ∧
    (parseDoc
        ("[FOO]: /a \"T1\"\n[Foo]: /b \"T2\"\n\n[foo] and [foo][] and ![fOo]\n".data)).2
      = [(("foo".data), ⟨"/a".data, some ("T1".data)⟩)] ∧
    convertToHTML
        ("[FOO]: /a \"T1\"\n[Foo]: /b \"T2\"\n\n[foo] and [foo][] and ![fOo]\n".data)
      = convertToHTML
        ("[FOO]: /a \"T1\"\n\n[foo] and [foo][] and ![fOo]\n".data) :=
  ⟨extractLoop_first_wins, by decide, by decide, by decide⟩

/-- Witness for Claim C3: the universal first-wins conjunct applied at
a concrete state — a map already binding `foo` to `/a` with title `T1`
while the extractor consumes the duplicate definition line
`[foo]: /b "T2"` — keeps the key bound to the first definition. -/
theorem claim_C3_witness :
    refHas [(("foo".data),
        (⟨"/a".data, some ("T1".data)⟩ : RefDef))] ("foo".data) = true ∧
    (refHas (extractLoop 2 [("[foo]: /b \"T2\"".data)] none false none
        [(("foo".data), ⟨"/a".data, some ("T1".data)⟩)]).2
        ("foo".data) = true ∧
     refGet (extractLoop 2 [("[foo]: /b \"T2\"".data)] none false none
        [(("foo".data), ⟨"/a".data, some ("T1".data)⟩)]).2
        ("foo".data)
      = refGet [(("foo".data),
          ⟨"/a".data, some ("T1".data)⟩)] ("foo".data)) :=
  ⟨by decide, claim_C3.1 2 [("[foo]: /b \"T2\"".data)] none false none
      [(("foo".data), ⟨"/a".data, some ("T1".data)⟩)] ("foo".data)
      (by decide)⟩

end Tsmark
